import Mathlib

/-!
# Verification of the deepcode tool-execution and session core

This file gives an executable shallow embedding, in Lean 4, of the core of the
`lessweb/deepcode` repository: the JSON protocol values exchanged with the
model, the four tool handlers (`read`, `write`, `edit`; the shell handler is
environmental and enters only through the generic executor), the tool
executor, and the session manager's index-retention and interruption logic.
Filesystem contents are modelled as an explicit directory tree, the
process-wide read-tracking table as a list of (session, path) pairs, and
JavaScript runtime services (`JSON.parse`, `JSON.stringify`, `Date.parse`,
the `ignore` package's matcher) as executable Lean functions or as explicit
parameters where the source itself treats them as injected capabilities.
-/

namespace DeepCode

/-! ## JavaScript string and number primitives -/

/-- JSON whitespace characters, also the characters accepted by a JavaScript
regular expression's `\s` class that can occur in the byte-per-char strings
this development manipulates. -/
def isJsonWs (c : Char) : Bool :=
  c = ' ' ∨ c = '\t' ∨ c = '\n' ∨ c = '\r'

/-- Character class `\s` of JavaScript regular expressions, restricted to the
ASCII range (the inputs matched against it in this code base are latin-1
byte strings). -/
def isJsWs (c : Char) : Bool :=
  c = ' ' ∨ c = '\t' ∨ c = '\n' ∨ c = '\r' ∨ c = '\x0b' ∨ c = '\x0c'

/-- JavaScript word character (`\w`, used for the `\b` boundary in the PDF
page-marker regular expression). -/
def isJsWord (c : Char) : Bool :=
  c.isAlpha ∨ c.isDigit ∨ c = '_'

/-- Whitespace trimming (`String.prototype.trim`), implemented over the
character list. -/
def jsTrim (s : String) : String :=
  String.mk (((s.toList.dropWhile Char.isWhitespace).reverse.dropWhile
    Char.isWhitespace).reverse)

/-- `String.prototype.startsWith`, over character lists. -/
def strStartsWith (s pre : String) : Bool :=
  pre.toList.isPrefixOf s.toList

/-- `String.prototype.endsWith`, over character lists. -/
def strEndsWith (s suf : String) : Bool :=
  suf.toList.isSuffixOf s.toList

/-- `Array.prototype.join` / `String.intercalate`, over plain recursion. -/
def strIntercalate (sep : String) : List String → String
  | [] => ""
  | [x] => x
  | x :: y :: rest => x ++ sep ++ strIntercalate sep (y :: rest)

/-- `String.prototype.padStart(width, " ")`. -/
def padStart (s : String) (width : Nat) : String :=
  if s.length ≥ width then s
  else String.mk (List.replicate (width - s.length) ' ') ++ s

/-- `String.prototype.slice(0, n)` (hard truncation). -/
def jsSliceTo (s : String) (n : Nat) : String :=
  String.mk (s.toList.take n)

/-- Split on the JavaScript regular expression `/\r?\n/`: a line break is a
single `\n`, optionally preceded by `\r` which is consumed with it. -/
def splitLinesList : List Char → List (List Char)
  | [] => [[]]
  | '\r' :: '\n' :: rest => [] :: splitLinesList rest
  | '\n' :: rest => [] :: splitLinesList rest
  | c :: rest =>
    match splitLinesList rest with
    | [] => [[c]]
    | l :: ls => (c :: l) :: ls

/-- `raw.split(/\r?\n/)` on strings. -/
def splitLines (s : String) : List String :=
  (splitLinesList s.toList).map String.mk

/-- One scan step of JavaScript's non-overlapping, left-to-right substring
search: `countOccurrencesList needle src` is the number of occurrences found
by repeatedly taking `indexOf` and advancing past each match, exactly as
`countOccurrences` in `edit-handler.ts` does. (The vacuous empty-needle case
is fenced off inside the recursion for termination; callers always pass a
non-empty needle.) -/
def countOccurrencesList (needle : List Char) : List Char → Nat
  | [] => 0
  | c :: rest =>
    if h : needle ≠ [] ∧ needle.isPrefixOf (c :: rest) then
      1 + countOccurrencesList needle ((c :: rest).drop needle.length)
    else
      countOccurrencesList needle rest
termination_by src => src.length
decreasing_by
  · simp only [List.length_drop, List.length_cons]
    have : 1 ≤ needle.length := by
      cases needle with
      | nil => exact absurd rfl h.1
      | cons a l => simp
    omega
  · simp

/-- `countOccurrences` from `edit-handler.ts`: zero when either string is
empty (the `!source || !needle` guard), otherwise the non-overlapping
left-to-right count. -/
def countOccurrences (source needle : String) : Nat :=
  if source = "" ∨ needle = "" then 0
  else countOccurrencesList needle.toList source.toList

/-- `String.prototype.split(needle)` for a non-empty string separator:
non-overlapping left-to-right segmentation, mirroring the scan of
`countOccurrencesList`. -/
def jsSplitList (needle : List Char) : List Char → List (List Char)
  | [] => [[]]
  | c :: rest =>
    if h : needle ≠ [] ∧ needle.isPrefixOf (c :: rest) then
      [] :: jsSplitList needle ((c :: rest).drop needle.length)
    else
      match jsSplitList needle rest with
      | [] => [[c]]
      | l :: ls => (c :: l) :: ls
termination_by src => src.length
decreasing_by
  · simp only [List.length_drop, List.length_cons]
    have : 1 ≤ needle.length := by
      cases needle with
      | nil => exact absurd rfl h.1
      | cons a l => simp
    omega
  · simp

/-- `String.prototype.split(sep)` for a non-empty string separator (the
empty-separator case never occurs in this code base). -/
def strSplitOn (s sep : String) : List String :=
  if sep = "" then [s]
  else (jsSplitList sep.toList s.toList).map String.mk

/-- Position of the first occurrence of `needle` (non-empty) in `src`, as
`String.prototype.indexOf`: `none` when absent, else the character index. -/
def jsIndexOfList (needle : List Char) : List Char → Option Nat
  | [] => if needle = [] then some 0 else none
  | c :: rest =>
    if needle.isPrefixOf (c :: rest) then some 0
    else (jsIndexOfList needle rest).map (· + 1)

/-- Expansion of `$`-sequences in the replacement string of
`String.prototype.replace` with a string pattern: `$$` is a literal dollar,
`$&` the matched text, a backtick variant the text before the match, `$'`
the text after it; any other `$` is literal. -/
def expandReplacement (matched before after : List Char) : List Char → List Char
  | [] => []
  | '$' :: '$' :: rest => '$' :: expandReplacement matched before after rest
  | '$' :: '&' :: rest => matched ++ expandReplacement matched before after rest
  | '$' :: '\x60' :: rest => before ++ expandReplacement matched before after rest
  | '$' :: '\x27' :: rest => after ++ expandReplacement matched before after rest
  | c :: rest => c :: expandReplacement matched before after rest

/-- `raw.replace(oldStr, newStr)` with a string pattern: replaces only the
first occurrence, expanding `$`-sequences in the replacement; returns `raw`
unchanged when the pattern does not occur. -/
def jsReplaceFirst (raw oldStr newStr : String) : String :=
  match jsIndexOfList oldStr.toList raw.toList with
  | none => raw
  | some i =>
    let before := raw.toList.take i
    let matched := oldStr.toList
    let after := raw.toList.drop (i + oldStr.length)
    String.mk (before ++ expandReplacement matched before after newStr.toList ++ after)

/-- `raw.split(oldStr).join(newStr)` (the global replacement used by the edit
tool when `replace_all` is set); `join` inserts the replacement verbatim,
with no `$`-expansion. -/
def jsSplitJoin (raw oldStr newStr : String) : String :=
  strIntercalate newStr ((jsSplitList oldStr.toList raw.toList).map String.mk)

/-! ### Numeric literals

JavaScript `Number` values in this code base are always immediately passed
through `Math.trunc`, so numbers are represented by their decimal literal and
evaluated to a truncated `Int` on demand. -/

/-- Numeric value of a list of decimal digit characters. -/
def digitsToNat (l : List Char) : Nat :=
  l.foldl (fun acc c => acc * 10 + (c.toNat - '0'.toNat)) 0

/-- `Math.trunc` of the number `±intD.fracD × 10^e` (truncation toward
zero). -/
def truncOfParts (neg : Bool) (intD fracD : List Char) (e : Int) : Int :=
  let D := intD ++ fracD
  let p : Int := (intD.length : Int) + e
  let mag : Nat :=
    if p ≤ 0 then 0
    else if (D.length : Int) ≤ p then digitsToNat D * 10 ^ (p - D.length).toNat
    else digitsToNat (D.take p.toNat)
  if neg then -(mag : Int) else (mag : Int)

/-- Longest prefix of decimal digits, together with the remaining input. -/
def takeDigits (l : List Char) : List Char × List Char :=
  (l.takeWhile Char.isDigit, l.dropWhile Char.isDigit)

/-- Decomposed JSON number literal: sign, integer digits, fraction digits,
exponent. -/
structure NumParts where
  neg : Bool
  intD : List Char
  fracD : List Char
  exp : Int
deriving Repr, DecidableEq

/-- The optional leading minus sign of a JSON number literal. -/
def numSign : List Char → Bool × List Char
  | c :: r => if c = '-' then (true, r) else (false, c :: r)
  | [] => (false, [])

/-- The integer-digit run of a JSON number literal (`0 | [1-9][0-9]*`). -/
def numIntD : List Char → Option (List Char × List Char)
  | c :: r =>
    if c = '0' then some (['0'], r)
    else if c.isDigit then some (c :: (takeDigits r).1, (takeDigits r).2)
    else none
  | [] => none

/-- The optional fraction part of a JSON number literal (`. [0-9]+`). -/
def numFrac : List Char → Option (List Char × List Char)
  | c :: r =>
    if c = '.' then
      if (takeDigits r).1 = [] then none
      else some ((takeDigits r).1, (takeDigits r).2)
    else some ([], c :: r)
  | [] => some ([], [])

/-- The optional sign of a JSON exponent. -/
def numExpSign : List Char → Bool × List Char
  | c :: r =>
    if c = '-' then (true, r)
    else if c = '+' then (false, r)
    else (false, c :: r)
  | [] => (false, [])

/-- The optional exponent part of a JSON number literal
(`[eE] [+-]? [0-9]+`). -/
def numExp : List Char → Option (Int × List Char)
  | c :: r =>
    if c = 'e' ∨ c = 'E' then
      if (takeDigits (numExpSign r).2).1 = [] then none
      else
        some ((if (numExpSign r).1 then -(digitsToNat (takeDigits (numExpSign r).2).1 : Int)
          else (digitsToNat (takeDigits (numExpSign r).2).1 : Int)),
          (takeDigits (numExpSign r).2).2)
    else some (0, c :: r)
  | [] => some (0, [])

/-- Parse a JSON number literal (grammar
`-? (0 | [1-9][0-9]*) (. [0-9]+)? ([eE] [+-]? [0-9]+)?`) at the head of the
input; returns the literal's characters, its parts and the rest. -/
def parseJsonNumber (l : List Char) : Option (List Char × NumParts × List Char) := do
  let (intD, l2) ← numIntD (numSign l).2
  let (fracD, l3) ← numFrac l2
  let (expv, l4) ← numExp l3
  return (l.take (l.length - l4.length), ⟨(numSign l).1, intD, fracD, expv⟩, l4)

/-- A string is exactly a JSON number literal. -/
def isNumberLit (s : String) : Bool :=
  match parseJsonNumber s.toList with
  | some (_, _, rest) => rest = []
  | none => false

/-- `Math.trunc` of the value denoted by a JSON number literal (`none` when
the string is not such a literal). -/
def truncOfLit (s : String) : Option Int :=
  match parseJsonNumber s.toList with
  | some (_, parts, []) => some (truncOfParts parts.neg parts.intD parts.fracD parts.exp)
  | _ => none

/-- `Math.trunc (Number (s))` for a JavaScript string: leading and trailing
whitespace is ignored, the empty string converts to `0`, a signed decimal
literal (also of the laxer forms `1.` and `.5`) to its truncation, anything
else (modulo hexadecimal and infinity forms, which this code base never
produces) to `NaN`, encoded `none`. -/
def jsStringToNumTrunc (s : String) : Option Int :=
  let t := (jsTrim s).toList
  if t = [] then some 0
  else
    let (neg, l1) := match t with
      | '-' :: r => (true, r)
      | '+' :: r => (false, r)
      | _ => (false, t)
    let (intD, l2) := takeDigits l1
    let (fracD, l3) := match l2 with
      | '.' :: r => takeDigits r
      | _ => ([], l2)
    if intD = [] ∧ fracD = [] then none
    else
      let (expv, l4) := match l3 with
        | c :: r =>
          if c = 'e' ∨ c = 'E' then
            let (esign, r1) := match r with
              | '-' :: r2 => (true, r2)
              | '+' :: r2 => (false, r2)
              | _ => (false, r)
            let (ds, r2) := takeDigits r1
            if ds = [] then ((0 : Int), l3)
            else
              let n : Int := (digitsToNat ds : Int)
              ((if esign then -n else n : Int), r2)
          else ((0 : Int), l3)
        | [] => ((0 : Int), l3)
      if l4 = [] then some (truncOfParts neg intD fracD expv) else none

/-! ### Base64 -/

/-- The base64 alphabet. -/
def base64Alphabet : List Char :=
  "ABCDEFGHIJKLMNOPQRSTUVWXYZabcdefghijklmnopqrstuvwxyz0123456789+/".toList

/-- Character for a 6-bit group. -/
def base64Digit (n : Nat) : Char :=
  base64Alphabet.getD (n % 64) 'A'

/-- Standard base64 encoding of a byte list (`Buffer.prototype.toString`
with encoding `"base64"`). -/
def base64Encode : List Nat → List Char
  | b1 :: b2 :: b3 :: rest =>
    let n := (b1 % 256) * 65536 + (b2 % 256) * 256 + b3 % 256
    base64Digit (n / 262144) :: base64Digit (n / 4096) :: base64Digit (n / 64) ::
      base64Digit n :: base64Encode rest
  | [b1, b2] =>
    let n := (b1 % 256) * 65536 + (b2 % 256) * 256
    [base64Digit (n / 262144), base64Digit (n / 4096), base64Digit (n / 64), '=']
  | [b1] =>
    let n := (b1 % 256) * 65536
    [base64Digit (n / 262144), base64Digit (n / 4096), '=', '=']
  | [] => []

/-- The bytes of a file's contents. File contents are modelled as strings of
byte-valued characters (Node reads them with the `latin1`-compatible
byte-per-char view wherever raw bytes matter). -/
def contentBytes (s : String) : List Nat :=
  s.toList.map (fun c => c.toNat % 256)

/-- Base64 of a file's contents, as a string. -/
def base64String (s : String) : String :=
  String.mk (base64Encode (contentBytes s))

/-! ### PDF page-marker scan -/

/-- Length of a match of the regular expression `\/Type\s*\/Page\b(?!s)` at
the head of the input (`none` when it does not match here). A match is
`/Type`, any run of whitespace, `/Page`, followed by a word boundary; the
lookahead `(?!s)` is subsumed by `\b` since `s` is a word character. -/
def pdfMatchLen (l : List Char) : Option Nat :=
  match l with
  | '/' :: 'T' :: 'y' :: 'p' :: 'e' :: r =>
    let ws := r.takeWhile isJsWs
    let r2 := r.dropWhile isJsWs
    match r2 with
    | '/' :: 'P' :: 'a' :: 'g' :: 'e' :: r3 =>
      match r3 with
      | [] => some (10 + ws.length)
      | c :: _ => if isJsWord c then none else some (10 + ws.length)
    | _ => none
  | _ => none

/-- Global regular-expression scan: count non-overlapping matches, advancing
past each match, left to right. The fuel is the input length; a match always
consumes at least ten characters, so the fuel never runs out early. -/
def countPdfMatchesAux : Nat → List Char → Nat
  | 0, _ => 0
  | _, [] => 0
  | fuel + 1, c :: rest =>
    match pdfMatchLen (c :: rest) with
    | some n => 1 + countPdfMatchesAux fuel ((c :: rest).drop n)
    | none => countPdfMatchesAux fuel rest

/-- `countPdfPages` from `read-handler.ts`: the number of `/Type /Page`
object markers in the raw bytes. The `try`/`catch` wrapper in the source
guards a byte-decoding step that cannot fail in this byte-string model, so
the count is always produced. -/
def countPdfPages (content : String) : Option Nat :=
  some (countPdfMatchesAux content.length content.toList)

/-! ### POSIX path functions -/

/-- `path.isAbsolute` on POSIX. -/
def isAbsolutePath (p : String) : Bool :=
  strStartsWith p "/"

/-- Segment processing for `path.normalize` of a relative path: drops empty
and `.` segments and resolves `..` against preceding segments. The
accumulator is kept reversed. -/
def normalizeSegs : List String → List String → List String
  | acc, [] => acc
  | acc, "" :: rest => normalizeSegs acc rest
  | acc, "." :: rest => normalizeSegs acc rest
  | acc, ".." :: rest =>
    match acc with
    | [] => normalizeSegs [".."] rest
    | top :: acc2 =>
      if top = ".." then normalizeSegs (".." :: acc) rest
      else normalizeSegs acc2 rest
  | acc, seg :: rest => normalizeSegs (seg :: acc) rest

/-- `path.normalize` (POSIX) restricted to relative paths: collapses
duplicate separators and dot segments, preserves a trailing separator, and
yields `"."` for an empty result. -/
def posixNormalizeRel (p : String) : String :=
  let out := (normalizeSegs [] (strSplitOn p "/")).reverse
  let core := if out.isEmpty then "." else strIntercalate "/" out
  if strEndsWith p "/" ∧ ¬ strEndsWith core "/" then core ++ "/" else core

/-- The anchored repetition `/^(\.\/|\\)+/`: strip leading `./` and `\`
sequences. -/
def stripDotSlash : List Char → List Char
  | '.' :: '/' :: rest => stripDotSlash rest
  | '\\' :: rest => stripDotSlash rest
  | l => l

/-- `normalizeRelativeSuffix` from `read-handler.ts`: normalize the relative
path, strip leading `./` or `\` runs, and prepend the path separator; blank
results give `none`. -/
def normalizeRelativeSuffix (relativePath : String) : Option String :=
  let normalized := String.mk (stripDotSlash (posixNormalizeRel relativePath).toList)
  if jsTrim normalized ≠ "" then some ("/" ++ normalized) else none

/-- `path.extname`: the extension of the basename, taken from its last dot,
empty when the only dot leads a hidden file or there is no dot. -/
def extnameOf (p : String) : String :=
  let base := ((p.toList.reverse.takeWhile (· ≠ '/')).reverse)
  let revAfter := base.reverse.takeWhile (· ≠ '.')
  if revAfter.length = base.length then ""
  else
    let dotIdx := base.length - 1 - revAfter.length
    if dotIdx = 0 then "" else String.mk ('.' :: revAfter.reverse)

/-- ASCII lower-casing (`String.prototype.toLowerCase`; the inputs are file
extensions). -/
def lowerString (s : String) : String :=
  String.mk (s.toList.map Char.toLower)

/-- `path.resolve(projectRoot, rel)` for an absolute root and a relative
path free of dot segments: join with a separator. -/
def resolveUnder (root rel : String) : String :=
  if strEndsWith root "/" then root ++ rel else root ++ "/" ++ rel

/-! ## JSON

Executable model of the JavaScript runtime's `JSON.parse` and
`JSON.stringify`. JSON numbers are represented by their literal text (see
`NumParts`: the code base only ever truncates them to integers), and objects
by their member list in insertion order, which is exactly the enumeration
order of JavaScript object keys as this program uses them. -/

inductive JsonValue where
  | nul
  | bool (b : Bool)
  | num (lit : String)
  | str (s : String)
  | arr (items : List JsonValue)
  | obj (members : List (String × JsonValue))
deriving Repr

/-- Hexadecimal digit character (lowercase, as `JSON.stringify` emits). -/
def hexDigit (n : Nat) : Char :=
  "0123456789abcdef".toList.getD (n % 16) '0'

/-- Value of a hexadecimal digit character. -/
def hexVal (c : Char) : Option Nat :=
  if '0' ≤ c ∧ c ≤ '9' then some (c.toNat - '0'.toNat)
  else if 'a' ≤ c ∧ c ≤ 'f' then some (c.toNat - 'a'.toNat + 10)
  else if 'A' ≤ c ∧ c ≤ 'F' then some (c.toNat - 'A'.toNat + 10)
  else none

/-- `JSON.stringify` escaping of one string character. -/
def escapeJsonChar (c : Char) : List Char :=
  if c = '"' then ['\\', '"']
  else if c = '\\' then ['\\', '\\']
  else if c = '\n' then ['\\', 'n']
  else if c = '\r' then ['\\', 'r']
  else if c = '\t' then ['\\', 't']
  else if c = '\x08' then ['\\', 'b']
  else if c = '\x0c' then ['\\', 'f']
  else if c.toNat < 32 then ['\\', 'u', '0', '0', hexDigit (c.toNat / 16), hexDigit c.toNat]
  else [c]

/-- Escaped body of a JSON string literal. -/
def escapeJsonString (s : String) : List Char :=
  s.toList.flatMap escapeJsonChar

/-- A complete JSON string literal, quotes included. -/
def quoteJsonString (s : String) : List Char :=
  '"' :: (escapeJsonString s ++ ['"'])

/-- An indentation run of spaces. -/
def indentChars (n : Nat) : List Char :=
  List.replicate n ' '

mutual

/-- `JSON.stringify(v, null, 2)` at a given current indentation. -/
def stringify2 : Nat → JsonValue → List Char
  | _, .nul => "null".toList
  | _, .bool true => "true".toList
  | _, .bool false => "false".toList
  | _, .num lit => lit.toList
  | _, .str s => quoteJsonString s
  | _, .arr [] => ['[', ']']
  | i, .arr (v :: vs) =>
    '[' :: '\n' :: (stringifyItems i (v :: vs) ++ '\n' :: (indentChars i ++ [']']))
  | _, .obj [] => ['\x7b', '\x7d']
  | i, .obj (m :: ms) =>
    '\x7b' :: '\n' :: (stringifyMembers i (m :: ms) ++ '\n' :: (indentChars i ++ ['\x7d']))

/-- The item lines of a pretty-printed array, separated by `",\n"`. -/
def stringifyItems : Nat → List JsonValue → List Char
  | _, [] => []
  | i, [v] => indentChars (i + 2) ++ stringify2 (i + 2) v
  | i, v :: v2 :: vs =>
    indentChars (i + 2) ++ stringify2 (i + 2) v ++ ',' :: '\n' :: stringifyItems i (v2 :: vs)

/-- The member lines of a pretty-printed object, separated by `",\n"`. -/
def stringifyMembers : Nat → List (String × JsonValue) → List Char
  | _, [] => []
  | i, [(k, v)] =>
    indentChars (i + 2) ++ quoteJsonString k ++ ':' :: ' ' :: stringify2 (i + 2) v
  | i, (k, v) :: m2 :: ms =>
    indentChars (i + 2) ++ quoteJsonString k ++ ':' :: ' ' :: stringify2 (i + 2) v ++
      ',' :: '\n' :: stringifyMembers i (m2 :: ms)

end

/-- `JSON.stringify(v, null, 2)` as a string. -/
def jsonStringify2 (v : JsonValue) : String :=
  String.mk (stringify2 0 v)

/-- Skip JSON whitespace. -/
def skipWs (l : List Char) : List Char :=
  l.dropWhile isJsonWs

/-- Map a JSON string-escape character to its value. -/
def unescapeChar (c : Char) : Option Char :=
  if c = '"' then some '"'
  else if c = '\\' then some '\\'
  else if c = '/' then some '/'
  else if c = 'b' then some '\x08'
  else if c = 'f' then some '\x0c'
  else if c = 'n' then some '\n'
  else if c = 'r' then some '\r'
  else if c = 't' then some '\t'
  else none

/-- Parse the body of a JSON string literal after its opening quote,
returning the decoded characters and the input after the closing quote.
Unescaped control characters and invalid escapes are rejected, as
`JSON.parse` rejects them. -/
def parseJsonStringBody : List Char → Option (List Char × List Char)
  | [] => none
  | '"' :: rest => some ([], rest)
  | '\\' :: 'u' :: h1 :: h2 :: h3 :: h4 :: rest => do
    let n1 ← hexVal h1
    let n2 ← hexVal h2
    let n3 ← hexVal h3
    let n4 ← hexVal h4
    let (cs, r) ← parseJsonStringBody rest
    return (Char.ofNat (n1 * 4096 + n2 * 256 + n3 * 16 + n4) :: cs, r)
  | '\\' :: e :: rest => do
    let c ← unescapeChar e
    let (cs, r) ← parseJsonStringBody rest
    return (c :: cs, r)
  | c :: rest =>
    if c.toNat < 32 then none
    else do
      let (cs, r) ← parseJsonStringBody rest
      return (c :: cs, r)

/-- JavaScript object-literal member insertion: a duplicate key overwrites
the value in place, a fresh key appends. -/
def insertMember (ms : List (String × JsonValue)) (k : String) (v : JsonValue) :
    List (String × JsonValue) :=
  if ms.any (fun m => m.1 = k) then ms.map (fun m => if m.1 = k then (k, v) else m)
  else ms ++ [(k, v)]

mutual

/-- Parse one JSON value, leading whitespace allowed. The fuel bounds the
recursion; every recursive descent consumes at least one input character, so
`input length + 1` fuel always suffices. -/
def parseVal : Nat → List Char → Option (JsonValue × List Char)
  | 0, _ => none
  | fuel + 1, l =>
    match skipWs l with
    | 'n' :: 'u' :: 'l' :: 'l' :: rest => some (.nul, rest)
    | 't' :: 'r' :: 'u' :: 'e' :: rest => some (.bool true, rest)
    | 'f' :: 'a' :: 'l' :: 's' :: 'e' :: rest => some (.bool false, rest)
    | '"' :: rest => (parseJsonStringBody rest).map fun p => (.str (String.mk p.1), p.2)
    | '[' :: rest =>
      match skipWs rest with
      | ']' :: r2 => some (.arr [], r2)
      | r2 => (parseItems fuel r2).map fun p => (.arr p.1, p.2)
    | '\x7b' :: rest =>
      match skipWs rest with
      | '\x7d' :: r2 => some (.obj [], r2)
      | r2 => (parseMembers fuel r2 []).map fun p => (.obj p.1, p.2)
    | other => (parseJsonNumber other).map fun p => (.num (String.mk p.1), p.2.2)
termination_by fuel _ => (fuel, 0)

/-- Parse the items of a non-empty JSON array up to and including the
closing bracket. -/
def parseItems : Nat → List Char → Option (List JsonValue × List Char)
  | 0, _ => none
  | fuel + 1, l => do
    let (v, r) ← parseVal (fuel + 1) l
    match skipWs r with
    | ',' :: r2 => (parseItems fuel r2).map fun p => (v :: p.1, p.2)
    | ']' :: r2 => some ([v], r2)
    | _ => none
termination_by fuel _ => (fuel, 1)

/-- Parse the members of a non-empty JSON object up to and including the
closing brace, accumulating with JavaScript duplicate-key semantics. -/
def parseMembers : Nat → List Char → List (String × JsonValue) →
    Option (List (String × JsonValue) × List Char)
  | 0, _, _ => none
  | fuel + 1, l, acc =>
    match skipWs l with
    | '"' :: rest => do
      let (kcs, r) ← parseJsonStringBody rest
      match skipWs r with
      | ':' :: r2 => do
        let (v, r3) ← parseVal (fuel + 1) r2
        let acc2 := insertMember acc (String.mk kcs) v
        match skipWs r3 with
        | ',' :: r4 => parseMembers fuel r4 acc2
        | '\x7d' :: r4 => some (acc2, r4)
        | _ => none
      | _ => none
    | _ => none
termination_by fuel _ _ => (fuel, 1)

end

/-- `JSON.parse`: parse a complete JSON text; trailing whitespace only. -/
def jsonParse (s : String) : Option JsonValue :=
  match parseVal (s.length + 1) s.toList with
  | some (v, rest) => if skipWs rest = [] then some v else none
  | none => none

/-! ## Filesystem and tool state

The filesystem is a directory tree of named entries; file contents are
byte-per-char strings. `fs.existsSync` / `fs.statSync` become lookups;
`fs.writeFileSync` replaces or creates a file node and reports the
POSIX-style failures (`EISDIR`, `ENOENT`, `ENOTDIR`) that Node would throw,
as `none`. -/

inductive DirTree where
  | file (content : String)
  | dir (entries : List (String × DirTree))
deriving Repr

mutual

/-- Number of nodes of a tree. -/
def treeSize : DirTree → Nat
  | .file _ => 1
  | .dir es => 1 + entriesSize es

/-- Total node count of a directory's entry list. -/
def entriesSize : List (String × DirTree) → Nat
  | [] => 0
  | e :: rest => treeSize e.2 + entriesSize rest

end

/-- Path segments of a POSIX path (empty segments collapse). -/
def splitPathSegs (p : String) : List String :=
  (strSplitOn p "/").filter (fun s => s ≠ "")

/-- Entry lookup in a directory listing. -/
def entryLookup (es : List (String × DirTree)) (seg : String) : Option DirTree :=
  (es.find? (fun e => e.1 = seg)).map (·.2)

/-- Walk a segment path down a tree (`fs.statSync`). -/
def statSegs : DirTree → List String → Option DirTree
  | t, [] => some t
  | .file _, _ :: _ => none
  | .dir es, seg :: rest =>
    match entryLookup es seg with
    | some t => statSegs t rest
    | none => none

/-- `fs.statSync` at a path. -/
def statAt (root : DirTree) (p : String) : Option DirTree :=
  statSegs root (splitPathSegs p)

/-- `fs.existsSync`. -/
def pathExists (root : DirTree) (p : String) : Bool :=
  (statAt root p).isSome

/-- `stat.isDirectory()` at a path. -/
def isDirAt (root : DirTree) (p : String) : Bool :=
  match statAt root p with
  | some (.dir _) => true
  | _ => false

/-- Contents of the regular file at a path. -/
def fileContentAt (root : DirTree) (p : String) : Option String :=
  match statAt root p with
  | some (.file c) => some c
  | _ => none

/-- Replace the subtree bound to `seg`. -/
def entryReplace (es : List (String × DirTree)) (seg : String) (t : DirTree) :
    List (String × DirTree) :=
  es.map (fun e => if e.1 = seg then (seg, t) else e)

/-- `fs.writeFileSync` along a segment path: overwrite an existing file or
create a new entry in its (existing) parent directory; `none` models the
thrown `EISDIR` / `ENOENT` / `ENOTDIR` errors. -/
def writeSegs : DirTree → List String → String → Option DirTree
  | .file _, [], c => some (.file c)
  | .dir _, [], _ => none
  | .dir es, [seg], c =>
    match entryLookup es seg with
    | some (.file _) => some (.dir (entryReplace es seg (.file c)))
    | some (.dir _) => none
    | none => some (.dir (es ++ [(seg, .file c)]))
  | .dir es, seg :: s2 :: rest, c =>
    match entryLookup es seg with
    | some t => (writeSegs t (s2 :: rest) c).map (fun t2 => .dir (entryReplace es seg t2))
    | none => none
  | .file _, _ :: _, _ => none

/-- `fs.writeFileSync` at a path. -/
def treeWrite (root : DirTree) (p : String) (c : String) : Option DirTree :=
  writeSegs root (splitPathSegs p) c

/-- Process-lifetime tool state: the filesystem and the read-tracking table
of `state.ts` (the `Map<string, Set<string>>` keyed by session, flattened to
(session, path) pairs). -/
structure ToolState where
  fs : DirTree
  readFiles : List (String × String)

/-- `markFileRead` from `state.ts`: record that a session read a path; blank
session ids or paths are ignored. -/
def markFileRead (sessionId filePath : String) (st : ToolState) : ToolState :=
  if sessionId = "" ∨ filePath = "" then st
  else if st.readFiles.contains (sessionId, filePath) then st
  else { st with readFiles := (sessionId, filePath) :: st.readFiles }

/-- `wasFileRead` from `state.ts`. -/
def wasFileRead (sessionId filePath : String) (st : ToolState) : Bool :=
  if sessionId = "" ∨ filePath = "" then false
  else st.readFiles.contains (sessionId, filePath)

/-! ## Tool protocol structures (`executor.ts`) -/

/-- The `function` part of a model-issued tool call. -/
structure ToolCallFunction where
  name : String
  arguments : String
deriving Repr

/-- A validated tool call. -/
structure ToolCall where
  id : String
  function : ToolCallFunction
deriving Repr

/-- Execution context handed to a handler. -/
structure ToolExecutionContext where
  sessionId : String
  projectRoot : String
  toolCall : ToolCall

/-- A tool execution result. `output` is kept when defined (even empty);
`error` and `metadata` are emitted only when truthy / non-empty (see
`formatToolResult`). -/
structure ToolExecutionResult where
  ok : Bool
  name : String
  output : Option String := none
  error : Option String := none
  metadata : Option (List (String × JsonValue)) := none
deriving Repr

/-- Parsed JSON-object arguments of a tool call. -/
abbrev JsonObject := List (String × JsonValue)

/-- Field access on a parsed argument object. -/
def getField (args : JsonObject) (k : String) : Option JsonValue :=
  (args.find? (fun m => m.1 = k)).map (·.2)

/-- `typeof args.k === "string" ? args.k : <none>`. -/
def getString (args : JsonObject) (k : String) : Option String :=
  match getField args k with
  | some (.str s) => some s
  | _ => none

/-- `typeof args.k === "boolean" ? args.k : false`. -/
def getBoolD (args : JsonObject) (k : String) : Bool :=
  match getField args k with
  | some (.bool b) => b
  | _ => false

/-! ## The write handler (`write-handler.ts`) -/

/-- `handleWriteTool`: validate the path and content arguments, refuse to
overwrite a directory or an existing file the session has not read, then
write. The `statSync` catch branch of the source is unreachable in this
model (a path that exists can be statted), and the message of a thrown
filesystem write error is environment-specific, modelled by a fixed
`ENOENT` text. -/
def handleWriteTool (args : JsonObject) (ctx : ToolExecutionContext) (st : ToolState) :
    ToolExecutionResult × ToolState :=
  let filePath := (getString args "file_path").getD ""
  if jsTrim filePath = "" then
    ({ ok := false, name := "write", error := some "Missing required \"file_path\" string." }, st)
  else if ¬ isAbsolutePath filePath then
    ({ ok := false, name := "write", error := some "file_path must be an absolute path." }, st)
  else
    match getString args "content" with
    | none =>
      ({ ok := false, name := "write", error := some "Missing required \"content\" string." }, st)
    | some content =>
      match statAt st.fs filePath with
      | some (.dir _) =>
        ({ ok := false, name := "write", error := some "file_path points to a directory." }, st)
      | some (.file _) =>
        if ¬ wasFileRead ctx.sessionId filePath st then
          ({ ok := false, name := "write",
             error := some "Must read existing file before writing." }, st)
        else
          match treeWrite st.fs filePath content with
          | some fs2 =>
            ({ ok := true, name := "write",
               output := some ("Wrote " ++ toString content.utf8ByteSize ++ " bytes to " ++
                 filePath ++ ".") }, { st with fs := fs2 })
          | none =>
            ({ ok := false, name := "write",
               error := some "ENOENT: no such file or directory" }, st)
      | none =>
        match treeWrite st.fs filePath content with
        | some fs2 =>
          ({ ok := true, name := "write",
             output := some ("Wrote " ++ toString content.utf8ByteSize ++ " bytes to " ++
               filePath ++ ".") }, { st with fs := fs2 })
        | none =>
          ({ ok := false, name := "write",
             error := some "ENOENT: no such file or directory" }, st)

/-! ## The edit handler (`edit-handler.ts`) -/

/-- `handleEditTool`: validate arguments, require the file to have been read
by this session, then count literal occurrences of `old_string` and either
reject (zero, or several without `replace_all`) or perform the first-match
or global replacement, reporting the replaced count. -/
def handleEditTool (args : JsonObject) (ctx : ToolExecutionContext) (st : ToolState) :
    ToolExecutionResult × ToolState :=
  let filePath := (getString args "file_path").getD ""
  if jsTrim filePath = "" then
    ({ ok := false, name := "edit", error := some "Missing required \"file_path\" string." }, st)
  else if ¬ isAbsolutePath filePath then
    ({ ok := false, name := "edit", error := some "file_path must be an absolute path." }, st)
  else
    match getString args "old_string", getString args "new_string" with
    | none, _ =>
      ({ ok := false, name := "edit", error := some "Missing required \"old_string\" string." }, st)
    | some _, none =>
      ({ ok := false, name := "edit", error := some "Missing required \"new_string\" string." }, st)
    | some oldString, some newString =>
      if oldString = "" then
        ({ ok := false, name := "edit", error := some "old_string must not be empty." }, st)
      else if oldString = newString then
        ({ ok := false, name := "edit",
           error := some "new_string must differ from old_string." }, st)
      else if ¬ wasFileRead ctx.sessionId filePath st then
        ({ ok := false, name := "edit", error := some "Must read file before editing." }, st)
      else
        match statAt st.fs filePath with
        | none =>
          ({ ok := false, name := "edit", error := some ("File not found: " ++ filePath) }, st)
        | some (.dir _) =>
          ({ ok := false, name := "edit", error := some "file_path points to a directory." }, st)
        | some (.file raw) =>
          let replaceAll := getBoolD args "replace_all"
          let numMatches := countOccurrences raw oldString
          if numMatches = 0 then
            ({ ok := false, name := "edit", error := some "old_string not found in file." }, st)
          else if ¬ replaceAll ∧ numMatches > 1 then
            ({ ok := false, name := "edit",
               error := some "old_string is not unique; use replace_all or provide more context." },
              st)
          else
            let updated :=
              if replaceAll then jsSplitJoin raw oldString newString
              else jsReplaceFirst raw oldString newString
            match treeWrite st.fs filePath updated with
            | some fs2 =>
              let replacedCount := if replaceAll then numMatches else 1
              ({ ok := true, name := "edit",
                 output := some ("Replaced " ++ toString replacedCount ++ " occurrence(s) in " ++
                   filePath ++ ".") }, { st with fs := fs2 })
            | none =>
              ({ ok := false, name := "edit",
                 error := some "ENOENT: no such file or directory" }, st)

/-! ## The read handler (`read-handler.ts`) -/

/-- JavaScript property access `v.k`: defined only on objects, `undefined`
(`none`) elsewhere. -/
def jsGet (v : JsonValue) (k : String) : Option JsonValue :=
  match v with
  | .obj ms => getField ms k
  | _ => none

mutual

/-- JavaScript `String(v)` conversion as used on notebook fields: strings
stay, numbers print their literal, booleans and null their keywords,
objects `[object Object]`, arrays join their converted elements with commas
(null elements becoming empty). -/
def jsTemplateStr : JsonValue → String
  | .str s => s
  | .num lit => lit
  | .bool true => "true"
  | .bool false => "false"
  | .nul => "null"
  | .obj _ => "[object Object]"
  | .arr items => strIntercalate "," (jsTemplateList items)

/-- Element-wise conversion for `Array.prototype.join`. -/
def jsTemplateList : List JsonValue → List String
  | [] => []
  | .nul :: rest => "" :: jsTemplateList rest
  | v :: rest => jsTemplateStr v :: jsTemplateList rest

end

/-- The regular-expression replacement `/\r?\n$/ → ""`: drop one trailing
newline, with its optional carriage return. -/
def stripTrailingNL (s : String) : String :=
  if strEndsWith s "\r\n" then String.mk s.toList.dropLast.dropLast
  else if strEndsWith s "\n" then String.mk s.toList.dropLast
  else s

/-- Truncate one line at `MAX_LINE_LENGTH` (2000) characters. -/
def truncLine (line : String) : String :=
  if line.length > 2000 then jsSliceTo line 2000 else line

/-- `formatWithLineNumbers`: each line is prefixed by its number padded to
`LINE_NUMBER_WIDTH` (6) and a tab, and hard-truncated. -/
def formatWithLineNumbers (lines : List String) (startLineNumber : Int) : String :=
  strIntercalate "\n"
    (lines.enum.map fun p =>
      padStart (toString (startLineNumber + (p.1 : Int))) 6 ++ "\t" ++ truncLine p.2)

/-- `Array.prototype.slice(start, end)` index semantics. -/
def jsArraySlice (l : List α) (start stop : Int) : List α :=
  let len : Int := l.length
  let s := if start < 0 then max (len + start) 0 else min start len
  let e := if stop < 0 then max (len + stop) 0 else min stop len
  (l.take e.toNat).drop s.toNat

/-- `readTextFile`: split into lines, select the requested window and
number it. An empty file (or the vacuous single empty line) yields a
warning string instead. -/
def readTextFile (raw : String) (offset : Option Int) (limit : Int) : String :=
  if raw = "" then "WARNING: File is empty."
  else
    let lines := splitLines raw
    if lines = [""] then "WARNING: File is empty."
    else
      let startIndex : Int := match offset with
        | some o => if o = 0 then 0 else o - 1
        | none => 0
      let endIndex := startIndex + limit
      let selected := jsArraySlice lines startIndex endIndex
      formatWithLineNumbers selected (startIndex + 1)

/-- `Math.trunc (Number (value))` on a JavaScript value, `none` encoding a
non-finite outcome. (The `Number` coercion of arrays and objects, which this
program never passes validation with, is modelled as `NaN`.) -/
def jsToNumberTrunc : JsonValue → Option Int
  | .num lit => truncOfLit lit
  | .str s => jsStringToNumTrunc s
  | .bool b => some (if b then 1 else 0)
  | .nul => some 0
  | .arr _ => none
  | .obj _ => none

/-- `parseLineNumber`: absent or null is accepted as `none`; otherwise the
value must coerce to a finite number whose truncation is at least 1. -/
def parseLineNumber (value : Option JsonValue) (label : String) :
    Except String (Option Int) :=
  match value with
  | none => .ok none
  | some .nul => .ok none
  | some v =>
    match jsToNumberTrunc v with
    | none => .error (label ++ " must be a number.")
    | some i => if i < 1 then .error (label ++ " must be >= 1.") else .ok (some i)

/-- `parseLineLimit`: absent or null defaults to `DEFAULT_LINE_LIMIT`
(2000); otherwise the truncation must be positive. -/
def parseLineLimit (value : Option JsonValue) : Except String Int :=
  match value with
  | none => .ok 2000
  | some .nul => .ok 2000
  | some v =>
    match jsToNumberTrunc v with
    | none => .error "limit must be a number."
    | some i => if i ≤ 0 then .error "limit must be > 0." else .ok i

/-- `isImageExtension`. -/
def isImageExtension (ext : String) : Bool :=
  [".png", ".jpg", ".jpeg", ".gif", ".webp", ".bmp", ".tif", ".tiff", ".svg", ".ico",
    ".avif"].contains ext

/-- `getImageMimeType`. -/
def getImageMimeType (ext : String) : String :=
  if ext = ".jpg" ∨ ext = ".jpeg" then "image/jpeg"
  else if ext = ".gif" then "image/gif"
  else if ext = ".webp" then "image/webp"
  else if ext = ".bmp" then "image/bmp"
  else if ext = ".tif" ∨ ext = ".tiff" then "image/tiff"
  else if ext = ".svg" then "image/svg+xml"
  else if ext = ".ico" then "image/x-icon"
  else if ext = ".avif" then "image/avif"
  else "image/png"

/-- A parsed PDF page range. The source's `end` field is named `stop` here
because `end` is a Lean keyword. -/
structure PageRange where
  start : Int
  stop : Int
  count : Int
deriving Repr, DecidableEq

/-- `parsePositiveInt`: `Number` coercion, finiteness, truncation, ≥ 1. -/
def parsePositiveInt (value : String) (label : String) : Except String Int :=
  match jsStringToNumTrunc value with
  | none => .error (label ++ " must be a number.")
  | some i => if i < 1 then .error (label ++ " must be >= 1.") else .ok i

/-- `parsePageRange`: a single page `"3"` or an inclusive range `"1-5"`;
commas and malformed parts throw (modelled by `Except.error`). -/
def parsePageRange (input : String) : Except String PageRange :=
  let trimmed := jsTrim input
  if trimmed = "" then .error "pages must be a non-empty string."
  else if trimmed.toList.contains ',' then
    .error "pages must be a single range like \"1-5\" or \"3\"."
  else
    match (strSplitOn trimmed "-").map (fun p => jsTrim p) with
    | [p0] => (parsePositiveInt p0 "pages").map fun v => ⟨v, v, 1⟩
    | [p0, p1] => do
      let s ← parsePositiveInt p0 "pages"
      let e ← parsePositiveInt p1 "pages"
      if e < s then .error "pages range end must be >= start."
      else pure ⟨s, e, e - s + 1⟩
    | _ => .error "pages must be a single range like \"1-5\" or \"3\"."

/-- `normalizeNotebookField`: an array maps each item through string
conversion with one trailing newline stripped; a string splits into lines;
anything else is empty. -/
def normalizeNotebookField (value : Option JsonValue) : List String :=
  match value with
  | some (.arr items) => items.map (fun item => stripTrailingNL (jsTemplateStr item))
  | some (.str s) => splitLines s
  | _ => []

/-- `formatNotebookOutput`: collect `text`, `data["text/plain"]`, image
placeholders and `traceback` lines; an empty collection becomes the omitted
marker. -/
def formatNotebookOutput (output : JsonValue) : List String :=
  let textLines := match jsGet output "text" with
    | some (.arr items) => items.map (fun item => stripTrailingNL (jsTemplateStr item))
    | some (.str s) => splitLines s
    | _ => []
  let dataLines := match jsGet output "data" with
    | some (.obj dms) =>
      let plain := match getField dms "text/plain" with
        | some (.arr items) => items.map (fun item => stripTrailingNL (jsTemplateStr item))
        | some (.str s) => splitLines s
        | _ => []
      let png := match getField dms "image/png" with
        | some (.str s) => ["[image/png " ++ toString s.length ++ " chars]"]
        | _ => []
      let jpeg := match getField dms "image/jpeg" with
        | some (.str s) => ["[image/jpeg " ++ toString s.length ++ " chars]"]
        | _ => []
      plain ++ png ++ jpeg
    | _ => []
  let traceLines := match jsGet output "traceback" with
    | some (.arr items) => items.map (fun item => stripTrailingNL (jsTemplateStr item))
    | _ => []
  let all := textLines ++ dataLines ++ traceLines
  if all.isEmpty then ["[output omitted]"] else all

/-- The lines contributed by one notebook cell: a cell header, the source
lines, and for each output a header and its formatted lines. -/
def notebookCellLines (idx : Nat) (cell : JsonValue) : List String :=
  let cellType := match jsGet cell "cell_type" with
    | some .nul => "unknown"
    | none => "unknown"
    | some v => jsTemplateStr v
  let header := "# Cell " ++ toString (idx + 1) ++ " (" ++ cellType ++ ")"
  let sourceLines := normalizeNotebookField (jsGet cell "source")
  let outputs := match jsGet cell "outputs" with
    | some (.arr os) => os
    | _ => []
  let outputLines := outputs.enum.flatMap fun p =>
    let outputType := match jsGet p.2 "output_type" with
      | some (.str s) => s
      | _ => "output"
    ("# Output " ++ toString (p.1 + 1) ++ " (" ++ outputType ++ ")") ::
      formatNotebookOutput p.2
  header :: (sourceLines ++ outputLines)

/-- `readNotebook`: an empty file warns; otherwise the raw text is parsed as
JSON (a parse failure throws, modelled by `Except.error` with a fixed
message standing in for the V8 parse-error text), the cells are flattened
into lines and numbered. -/
def readNotebook (raw : String) : Except String String :=
  if raw = "" then .ok "WARNING: File is empty."
  else
    match jsonParse raw with
    | none => .error "Unexpected end of JSON input"
    | some parsed =>
      let cells := match jsGet parsed "cells" with
        | some (.arr cs) => cs
        | _ => []
      let lines := cells.enum.flatMap fun p => notebookCellLines p.1 p.2
      if lines.isEmpty then .ok "WARNING: Notebook has no cells."
      else .ok (formatWithLineNumbers lines 1)

/-- `path.relative(root, fullPath)` for a path constructed under `root`,
with separators already forward slashes. -/
def relativeTo (root full : String) : String :=
  if strStartsWith full (root ++ "/") then String.mk (full.toList.drop (root.length + 1))
  else full

/-- One directory's worth of the `findSuffixMatches` scan: returns the
subdirectories to enqueue (path and entries, in readdir order) and the
matching file paths found, applying the ignore matcher to both. -/
def processEntries (root curPath suffix : String) (ig : String → Bool → Bool) :
    List (String × DirTree) → List (String × List (String × DirTree)) × List String
  | [] => ([], [])
  | (name, node) :: rest =>
    let fullPath := curPath ++ "/" ++ name
    let relPath := relativeTo root fullPath
    let tail := processEntries root curPath suffix ig rest
    match node with
    | .dir es2 =>
      if ig relPath true then tail
      else ((fullPath, es2) :: tail.1, tail.2)
    | .file _ =>
      if ig relPath false then tail
      else if strEndsWith fullPath suffix then (tail.1, fullPath :: tail.2)
      else tail

/-- Total entry size of a scan queue (used to provision fuel). -/
def queueSizeOf (q : List (String × List (String × DirTree))) : Nat :=
  (q.map (fun e => entriesSize e.2)).sum

/-- The `while (queue.length > 0)` loop of `findSuffixMatches`: pop the last
queue element, scan its entries, push its subdirectories, collect matches.
Every step either shrinks the total queue size or pops an empty directory,
so fuel `queue size + queue length + 1` can never run out. -/
def findSuffixLoop (root suffix : String) (ig : String → Bool → Bool) :
    Nat → List (String × List (String × DirTree)) → List String → List String
  | 0, _, ms => ms
  | _ + 1, [], ms => ms
  | fuel + 1, queue, ms =>
    match queue.getLast? with
    | none => ms
    | some (curPath, entries) =>
      let rest := queue.dropLast
      let step := processEntries root curPath suffix ig entries
      findSuffixLoop root suffix ig fuel (rest ++ step.1) (ms ++ step.2)

/-- `findSuffixMatches`: breadth-first-queue scan (popped from the back)
from the project root for files whose full path ends with the suffix. A
root that cannot be listed contributes nothing, matching the source's
`readdirSync` catch. -/
def findSuffixMatches (fs : DirTree) (root suffix : String)
    (ig : String → Bool → Bool) : List String :=
  match statAt fs root with
  | some (.dir es) => findSuffixLoop root suffix ig (entriesSize es + 2) [(root, es)] []
  | _ => []

/-- The relative-path resolution prologue of `handleReadTool`: an absolute
path passes through; parent traversal is rejected; otherwise the suffix
scan may reject the path as ambiguous, and the path resolved directly
against the project root is used when it exists. -/
def resolveReadPath (isIgnored : String → Bool → Bool) (fs : DirTree)
    (projectRoot filePath0 : String) : Except ToolExecutionResult String :=
  if isAbsolutePath filePath0 then .ok filePath0
  else if strStartsWith filePath0 "../" ∨ strStartsWith filePath0 "..\\" then
    .error { ok := false, name := "read", error := some "file_path must be an absolute path." }
  else
    let sMatches := match normalizeRelativeSuffix filePath0 with
      | some sfx => findSuffixMatches fs projectRoot sfx isIgnored
      | none => []
    if sMatches.length > 1 then
      .error { ok := false, name := "read",
               error := some ("file_path must be an absolute path. " ++
                 "The file_path is ambiguous and may refer to multiple files:\n" ++
                 strIntercalate "\n" (sMatches.take 3) ++
                 (if sMatches.length > 3 then
                   "\n...and " ++ toString (sMatches.length - 3) ++ " more."
                 else "")) }
    else
      let resolvedPath := resolveUnder projectRoot filePath0
      if ¬ pathExists fs resolvedPath then
        if sMatches.length > 0 then
          .error { ok := false, name := "read",
                   error := some ("file_path must be an absolute path. " ++
                     "The file_path \"" ++ filePath0 ++ "\" is ambiguous.") }
        else
          .error { ok := false, name := "read",
                   error := some ("File not found: " ++ filePath0) }
      else .ok resolvedPath

/-- `handleReadTool`: resolve the path, reject directories, then dispatch on
the extension: notebooks are flattened, PDFs and images return base64 data
URIs (PDFs subject to the page-range policy), and everything else is read
as numbered text. Every successful read marks the resolved path as read for
the session. `loadGitignoreMatcher` builds its matcher from the external
`ignore` package, so the merged matcher is taken as the `isIgnored`
parameter. -/
def handleReadTool (isIgnored : String → Bool → Bool) (args : JsonObject)
    (ctx : ToolExecutionContext) (st : ToolState) : ToolExecutionResult × ToolState :=
  let filePath0 := (getString args "file_path").getD ""
  if jsTrim filePath0 = "" then
    ({ ok := false, name := "read", error := some "Missing required \"file_path\" string." }, st)
  else
    match resolveReadPath isIgnored st.fs ctx.projectRoot filePath0 with
    | .error r => (r, st)
    | .ok filePath =>
      if ¬ pathExists st.fs filePath then
        ({ ok := false, name := "read", error := some ("File not found: " ++ filePath) }, st)
      else
        match statAt st.fs filePath with
        | none =>
          ({ ok := false, name := "read", error := some "Failed to stat file." }, st)
        | some (.dir _) =>
          ({ ok := false, name := "read",
             error := some "file_path points to a directory. Use bash ls for directories." }, st)
        | some (.file content) =>
          let ext := lowerString (extnameOf filePath)
          if ext = ".ipynb" then
            match readNotebook content with
            | .ok output =>
              ({ ok := true, name := "read", output := some output },
                markFileRead ctx.sessionId filePath st)
            | .error m => ({ ok := false, name := "read", error := some m }, st)
          else if ext = ".pdf" then
            let pagesParam := match getString args "pages" with
              | some s => jsTrim s
              | none => ""
            let pageCount := countPdfPages content
            let rangeResult : Except String (Option PageRange) :=
              if pagesParam = "" then .ok none else (parsePageRange pagesParam).map some
            match rangeResult with
            | .error m => ({ ok := false, name := "read", error := some m }, st)
            | .ok pageRange =>
              let success : ToolExecutionResult × ToolState :=
                ({ ok := true, name := "read",
                   output := some ("data:application/pdf;base64," ++ base64String content),
                   metadata := some
                     [("mime", .str "application/pdf"), ("encoding", .str "base64"),
                      ("bytes", .num (toString content.length)),
                      ("pageCount", match pageCount with
                        | some c => .num (toString c)
                        | none => .nul),
                      ("pages", match pageRange with
                        | some r => .str (toString r.start ++ "-" ++ toString r.stop)
                        | none => .nul)] },
                  markFileRead ctx.sessionId filePath st)
              match pageRange with
              | none =>
                match pageCount with
                | some c =>
                  if c > 10 then
                    ({ ok := false, name := "read",
                       error := some ("PDF has " ++ toString c ++
                         " pages; provide \"pages\" to read a range.") }, st)
                  else success
                | none => success
              | some r =>
                if r.count > 20 then
                  ({ ok := false, name := "read",
                     error := some "PDF page range exceeds 20 pages." }, st)
                else
                  match pageCount with
                  | some c =>
                    if r.stop > c then
                      ({ ok := false, name := "read",
                         error := some ("PDF page range exceeds total page count (" ++
                           toString c ++ ").") }, st)
                    else success
                  | none => success
          else if isImageExtension ext then
            let mime := getImageMimeType ext
            ({ ok := true, name := "read",
               output := some ("data:" ++ mime ++ ";base64," ++ base64String content),
               metadata := some
                 [("mime", .str mime), ("encoding", .str "base64"),
                  ("bytes", .num (toString content.length))] },
              markFileRead ctx.sessionId filePath st)
          else
            match parseLineNumber (getField args "offset") "offset" with
            | .error m => ({ ok := false, name := "read", error := some m }, st)
            | .ok offset =>
              match parseLineLimit (getField args "limit") with
              | .error m => ({ ok := false, name := "read", error := some m }, st)
              | .ok limit =>
                ({ ok := true, name := "read",
                   output := some (readTextFile content offset limit) },
                  markFileRead ctx.sessionId filePath st)

/-! ## The tool executor (`executor.ts`) -/

/-- A tool handler: parsed arguments and context to a result, with the
shared tool state threaded through. A thrown JavaScript error is the
`Except.error` outcome (the state it had already mutated survives the
throw). -/
abbrev ToolHandler :=
  JsonObject → ToolExecutionContext → ToolState → Except String ToolExecutionResult × ToolState

/-- One executed call: the call id and the serialized result content. -/
structure ToolCallExecution where
  toolCallId : String
  content : String
deriving Repr

/-- `parseToolCall`: validate a raw model-issued value into a `ToolCall`,
requiring a string `id` and a `function` object with a string `name`;
non-string `arguments` default to the empty string. Malformed entries give
`none` and are dropped. -/
def parseToolCall (tc : JsonValue) : Option ToolCall :=
  match tc with
  | .obj ms =>
    match getString ms "id" with
    | none => none
    | some id =>
      match getField ms "function" with
      | some (.obj fms) =>
        match getString fms "name" with
        | none => none
        | some fname =>
          some ⟨id, ⟨fname, (getString fms "arguments").getD ""⟩⟩
      | _ => none
  | _ => none

/-- `parseToolArguments`: an empty argument string is an empty object; a
JSON parse failure or a non-object result is a structured error. The text
of a JavaScript parse-error message is environment-specific and modelled by
a fixed string. -/
def parseToolArguments (rawArguments : String) : Except String JsonObject :=
  if rawArguments = "" then .ok []
  else
    match jsonParse rawArguments with
    | some (.obj ms) => .ok ms
    | some _ => .error "Tool arguments must be a JSON object."
    | none => .error "Failed to parse tool arguments: invalid JSON"

/-- `formatToolResult`'s payload object: keys in the stable order `ok`,
`name`, then `output` when defined, `error` when truthy (present and
non-empty), `metadata` when present with at least one key. -/
def resultPayload (result : ToolExecutionResult) : JsonValue :=
  .obj ([("ok", .bool result.ok), ("name", .str result.name)] ++
    (match result.output with
      | some o => [("output", JsonValue.str o)]
      | none => []) ++
    (match result.error with
      | some e => if e ≠ "" then [("error", JsonValue.str e)] else []
      | none => []) ++
    (match result.metadata with
      | some m => if m.isEmpty then [] else [("metadata", JsonValue.obj m)]
      | none => []))

/-- `formatToolResult`: the payload serialized by `JSON.stringify(·, null, 2)`. -/
def formatToolResult (result : ToolExecutionResult) : String :=
  jsonStringify2 (resultPayload result)

/-- `executeToolCall`: look up the handler (unknown names give a structured
error), parse the arguments, run the handler and convert anything it throws
into a structured error result. The handler table of `registerToolHandlers`
is the `lookup` parameter. -/
def executeToolCall (lookup : String → Option ToolHandler) (sessionId projectRoot : String)
    (st : ToolState) (toolCall : ToolCall) : ToolExecutionResult × ToolState :=
  let toolName := toolCall.function.name
  match lookup toolName with
  | none =>
    ({ ok := false, name := toolName, error := some ("Unknown tool: " ++ toolName) }, st)
  | some handler =>
    match parseToolArguments toolCall.function.arguments with
    | .error e => ({ ok := false, name := toolName, error := some e }, st)
    | .ok parsedArgs =>
      match handler parsedArgs ⟨sessionId, projectRoot, toolCall⟩ st with
      | (.ok r, st2) => (r, st2)
      | (.error m, st2) => ({ ok := false, name := toolName, error := some m }, st2)

/-- The sequential `for` loop of `executeToolCalls` over already-parsed
calls. -/
def executeToolCallsLoop (lookup : String → Option ToolHandler)
    (sessionId projectRoot : String) :
    List ToolCall → ToolState → List ToolCallExecution × ToolState
  | [], st => ([], st)
  | tc :: rest, st =>
    let step := executeToolCall lookup sessionId projectRoot st tc
    let tail := executeToolCallsLoop lookup sessionId projectRoot rest step.2
    (⟨tc.id, formatToolResult step.1⟩ :: tail.1, tail.2)

/-- `executeToolCalls`: parse the raw batch, silently dropping malformed
entries, then execute sequentially in request order. -/
def executeToolCalls (lookup : String → Option ToolHandler) (sessionId projectRoot : String)
    (st : ToolState) (toolCalls : List JsonValue) : List ToolCallExecution × ToolState :=
  executeToolCallsLoop lookup sessionId projectRoot (toolCalls.filterMap parseToolCall) st

/-- The write handler as a `ToolHandler` (it never throws). -/
def writeToolHandler : ToolHandler := fun args ctx st =>
  let r := handleWriteTool args ctx st
  (.ok r.1, r.2)

/-- The edit handler as a `ToolHandler` (it never throws). -/
def editToolHandler : ToolHandler := fun args ctx st =>
  let r := handleEditTool args ctx st
  (.ok r.1, r.2)

/-- The read handler as a `ToolHandler`, given the merged ignore matcher. -/
def readToolHandler (isIgnored : String → Bool → Bool) : ToolHandler := fun args ctx st =>
  let r := handleReadTool isIgnored args ctx st
  (.ok r.1, r.2)

/-- `registerToolHandlers`: the four registered names. The shell handler
launches subprocesses, an external capability, so it is a parameter. -/
def registeredToolHandlers (bashToolHandler : ToolHandler)
    (isIgnored : String → Bool → Bool) : String → Option ToolHandler :=
  fun name =>
    if name = "bash" then some bashToolHandler
    else if name = "read" then some (readToolHandler isIgnored)
    else if name = "write" then some writeToolHandler
    else if name = "edit" then some editToolHandler
    else none

/-! ## The session manager (session data model and persistence)

The session index and the per-session message logs live under the project's
storage directory; the model holds them directly as a `SessionStore` (the
JSON round trip through `sessions-index.json` and the `.jsonl` logs is the
identity here). `Date.parse`, the home-directory skill listing and the
system-prompt assembly read state outside the project tree and are passed
in as environment parameters. -/

/-- Session status, as the source's union type. -/
inductive SessionStatus where
  | failed
  | pending
  | processing
  | completed
  | interrupted
deriving Repr, DecidableEq

/-- A session summary entry of the index. -/
structure SessionEntry where
  id : String
  summary : Option String
  assistantReply : Option String
  assistantThinking : Option String
  assistantRefusal : Option String
  toolCalls : Option (List JsonValue)
  status : SessionStatus
  failReason : Option String
  usage : Option JsonValue
  createTime : String
  updateTime : String
deriving Repr

/-- The bounded session index. -/
structure SessionsIndex where
  version : Nat
  entries : List SessionEntry
  originalPath : String
deriving Repr

/-- Message roles. -/
inductive SessionMessageRole where
  | system
  | user
  | assistant
  | tool
deriving Repr, DecidableEq

/-- Presentation metadata of a message. -/
structure MessageMeta where
  function : Option JsonValue := none
  paramsMd : Option String := none
  resultMd : Option String := none
  asThinking : Option Bool := none
deriving Repr

/-- One persisted message. -/
structure SessionMessage where
  id : String
  sessionId : String
  role : SessionMessageRole
  content : Option String
  contentParams : Option JsonValue
  messageParams : Option JsonValue
  compacted : Bool
  visible : Bool
  createTime : String
  updateTime : String
  meta : Option MessageMeta := none
deriving Repr

/-- A discovered skill document. -/
structure SkillInfo where
  name : String
  path : String
deriving Repr, DecidableEq

/-- A user prompt. -/
structure UserPromptContent where
  text : Option String := none
  imageUrls : Option (List String) := none
  skills : Option (List SkillInfo) := none

/-- The on-disk project storage: the index file and one message log per
session id. -/
structure SessionStore where
  index : SessionsIndex
  logs : List (String × List SessionMessage)

/-- The message log of a session (`none` when the `.jsonl` file does not
exist). -/
def logsLookup (store : SessionStore) (sessionId : String) : Option (List SessionMessage) :=
  (store.logs.find? (fun l => l.1 = sessionId)).map (·.2)

/-- `appendSessionMessage`: append one line to the session's log, creating
the file when absent. -/
def appendSessionMessage (store : SessionStore) (sessionId : String)
    (message : SessionMessage) : SessionStore :=
  match logsLookup store sessionId with
  | some _ =>
    { store with logs := store.logs.map fun l =>
        if l.1 = sessionId then (l.1, l.2 ++ [message]) else l }
  | none => { store with logs := store.logs ++ [(sessionId, [message])] }

/-- `removeSessionMessages`: delete the message logs of the given sessions
(missing files are fine). -/
def removeSessionMessages (store : SessionStore) (sessionIds : List String) : SessionStore :=
  { store with logs := store.logs.filter (fun l => ¬ sessionIds.contains l.1) }

/-- `getSession`: find a session entry by id. -/
def getSession (store : SessionStore) (sessionId : String) : Option SessionEntry :=
  store.index.entries.find? (fun e => e.id = sessionId)

/-- `updateSessionEntry`: replace the entry in place through the updater
and save; `none` when the session is not in the index. -/
def updateSessionEntry (store : SessionStore) (sessionId : String)
    (updater : SessionEntry → SessionEntry) : SessionStore × Option SessionEntry :=
  match store.index.entries.find? (fun e => e.id = sessionId) with
  | none => (store, none)
  | some e =>
    let updated := updater e
    ({ store with index := { store.index with entries :=
                                (store.index.entries.map
                                  fun x => if x.id = sessionId then updated else x) } },
      some updated)

/-- Sign of `String.prototype.localeCompare` modelled as lexicographic
comparison. -/
def localeCompare (a b : String) : Int :=
  match compare a b with
  | .lt => -1
  | .eq => 0
  | .gt => 1

/-- The sort comparator of `createSession`: descending by parsed update
time, falling back to descending raw-string comparison when either
timestamp fails to parse (`Date.parse` is the environment parameter
`parseTime`; `none` is `NaN`). -/
def entryCmp (parseTime : String → Option Int) (a b : SessionEntry) : Int :=
  match parseTime a.updateTime, parseTime b.updateTime with
  | some aT, some bT => bT - aT
  | _, _ => localeCompare b.updateTime a.updateTime

/-- `index.entries.slice().sort(comparator)`: a stable sort by the
comparator, as modern JavaScript engines implement. -/
def sortEntries (parseTime : String → Option Int) (entries : List SessionEntry) :
    List SessionEntry :=
  entries.mergeSort (fun a b => decide (entryCmp parseTime a b ≤ 0))

/-- Environment of the session manager: `Date.parse`, the merged skill
listing from the two home skill directories (`listSkills`), the skill files
under the home directory, the assembled system prompt
(`getSystemPrompt`), and the workspace root. -/
structure SessionEnv where
  parseTime : String → Option Int
  availableSkills : List SkillInfo
  readSkillFile : String → String
  systemPrompt : String
  projectRoot : String

/-- The slash-command prologue of `createSession`: a first line `/name`
that matches a discovered skill moves that skill into the prompt and strips
the line; otherwise the prompt is untouched. -/
def applySlashSkill (availableSkills : List SkillInfo) (p : UserPromptContent) :
    UserPromptContent :=
  match p.text with
  | some t =>
    if strStartsWith t "/" then
      let lines := strSplitOn t "\n"
      let firstLine := jsTrim (lines.headD "")
      if strStartsWith firstLine "/" then
        let skillName := jsTrim (String.mk (firstLine.toList.drop 1))
        match availableSkills.find? (fun s => s.name = skillName) with
        | some matched =>
          { p with
            skills := some ((p.skills.getD []) ++ [matched]),
            text := some (jsTrim (strIntercalate "\n" (lines.drop 1))) }
        | none => p
      else p
    else p
  | none => p

/-- `buildSystemMessage`: non-visible system message. -/
def buildSystemMessage (sessionId content mid now : String) : SessionMessage :=
  { id := mid, sessionId, role := .system, content := some content, contentParams := none,
    messageParams := none, compacted := false, visible := false,
    createTime := now, updateTime := now }

/-- `buildUserMessage`: visible user message; non-blank image URLs become
`image_url` content parameters. -/
def buildUserMessage (sessionId : String) (prompt : UserPromptContent) (mid now : String) :
    SessionMessage :=
  let imageParams := ((prompt.imageUrls.getD []).filter (fun u => u ≠ "")).map fun url =>
    JsonValue.obj [("type", .str "image_url"), ("image_url", .obj [("url", .str url)])]
  { id := mid, sessionId, role := .user, content := some (prompt.text.getD ""),
    contentParams := if imageParams.isEmpty then none else some (.arr imageParams),
    messageParams := none, compacted := false, visible := true,
    createTime := now, updateTime := now }

/-- The skill injection prompt text. -/
def skillPromptText (skill : SkillInfo) (skillMd : String) : String :=
  "Use the skill document below to assist the user:\n\n<" ++ skill.name ++
    "-skill path=\"" ++ skill.path ++ "\">\n" ++ skillMd ++ "\n</" ++ skill.name ++ "-skill>"

/-- `createSession` up to (and excluding) the `activateSession` call: slash
parsing, index insertion, retention (sort descending by update time, keep 50,
delete dropped logs), and the initial system, skill and user messages of the
new log. Message ids are drawn from `msgIds` (`crypto.randomUUID` values). -/
def createSessionPersist (env : SessionEnv) (store : SessionStore)
    (userPrompt0 : UserPromptContent) (sessionId now : String) (msgIds : List String) :
    SessionStore :=
  let userPrompt := applySlashSkill env.availableSkills userPrompt0
  let entry : SessionEntry :=
    { id := sessionId,
      summary := some (match userPrompt.text with
        | some t => if t ≠ "" then jsSliceTo t 100 else "[Image Prompt]"
        | none => "[Image Prompt]"),
      assistantReply := none, assistantThinking := none, assistantRefusal := none,
      toolCalls := none, status := .pending, failReason := none, usage := none,
      createTime := now, updateTime := now }
  let sorted := sortEntries env.parseTime (store.index.entries ++ [entry])
  let kept := sorted.take 50
  let keptIds := kept.map (·.id)
  let dropped := sorted.filter (fun e => ¬ keptIds.contains e.id)
  let store2 : SessionStore :=
    { store with index := { version := 1, entries := kept, originalPath := env.projectRoot } }
  let store3 := removeSessionMessages store2 (dropped.map (·.id))
  let store4 := appendSessionMessage store3 sessionId
    (buildSystemMessage sessionId env.systemPrompt (msgIds.getD 0 "") now)
  let skills := userPrompt.skills.getD []
  let store5 := (skills.enum.foldl (fun acc p =>
    appendSessionMessage acc sessionId
      (buildSystemMessage sessionId
        (skillPromptText p.2 (env.readSkillFile p.2.path)) (msgIds.getD (p.1 + 1) "") now))
    store4)
  appendSessionMessage store5 sessionId
    (buildUserMessage sessionId userPrompt (msgIds.getD (skills.length + 1) "") now)

/-! ## Message construction and presentation snippets (`part_000`) -/

mutual

/-- `JSON.stringify(v)` without indentation (used by the presentation
snippets). -/
def stringifyC : JsonValue → List Char
  | .nul => "null".toList
  | .bool true => "true".toList
  | .bool false => "false".toList
  | .num lit => lit.toList
  | .str s => quoteJsonString s
  | .arr [] => ['[', ']']
  | .arr (v :: vs) => '[' :: (stringifyItemsC (v :: vs) ++ [']'])
  | .obj [] => ['\x7b', '\x7d']
  | .obj (m :: ms) => '\x7b' :: (stringifyMembersC (m :: ms) ++ ['\x7d'])

/-- Compact array items, comma-separated. -/
def stringifyItemsC : List JsonValue → List Char
  | [] => []
  | [v] => stringifyC v
  | v :: v2 :: vs => stringifyC v ++ ',' :: stringifyItemsC (v2 :: vs)

/-- Compact object members, comma-separated. -/
def stringifyMembersC : List (String × JsonValue) → List Char
  | [] => []
  | [(k, v)] => quoteJsonString k ++ ':' :: stringifyC v
  | (k, v) :: m2 :: ms =>
    quoteJsonString k ++ ':' :: stringifyC v ++ ',' :: stringifyMembersC (m2 :: ms)

end

/-- `buildToolParamsSnippet`: show the first argument value of the call,
stripping the project root prefix for `read` paths; unparseable argument
strings fall back to their trimmed text. -/
def buildToolParamsSnippet (projectRoot : String) (toolFunction : Option JsonValue) : String :=
  match toolFunction with
  | some fn =>
    match fn with
    | .obj fms =>
      let args := getField fms "arguments"
      let toolName := getField fms "name"
      match args with
      | some (.str argStr) =>
        let trimmed := jsTrim argStr
        if trimmed = "" then ""
        else
          match jsonParse trimmed with
          | some (.obj (firstMember :: _)) =>
            let text := match firstMember.2 with
              | .str s => s
              | v => String.mk (stringifyC v)
            let nameIsRead : Bool := match toolName with
              | some (.str "read") => true
              | _ => false
            if nameIsRead ∧ strStartsWith text projectRoot then
              let sliced := String.mk (text.toList.drop projectRoot.length)
              if strStartsWith sliced "/" ∨ strStartsWith sliced "\\" then
                String.mk (sliced.toList.drop 1)
              else sliced
            else text
          | some (.obj []) => trimmed
          | some _ => trimmed
          | none => trimmed
      | _ => ""
    | _ => ""
  | none => ""

/-- Length-bounded preview of a tool result value. -/
def formatToolResultSnippet (value : String) (maxLength : Nat) : String :=
  if value.length ≤ maxLength then value
  else jsSliceTo value maxLength ++ "... (total " ++ toString value.length ++ " chars)"

/-- `buildToolResultSnippet`: preview of the result payload's `output`
field, or of the raw content when the payload does not parse or has no
`output`. -/
def buildToolResultSnippet (content : String) : String :=
  if jsTrim content = "" then ""
  else
    match jsonParse content with
    | some parsed =>
      match jsGet parsed "output" with
      | some (.str s) => formatToolResultSnippet s 2000
      | some v => formatToolResultSnippet (String.mk (stringifyC v)) 2000
      | none => formatToolResultSnippet content 2000
    | none => formatToolResultSnippet content 2000

/-- `isInvisibleExecution`: a parsed result payload whose `name` is `bash`
with `ok` not strictly `true` is hidden from the transcript. -/
def isInvisibleExecution (content : String) : Bool :=
  if jsTrim content = "" then false
  else
    match jsonParse content with
    | some parsed =>
      let nameIsBash : Bool := match jsGet parsed "name" with
        | some (.str "bash") => true
        | _ => false
      let okIsTrue : Bool := match jsGet parsed "ok" with
        | some (.bool true) => true
        | _ => false
      nameIsBash && !okIsTrue
    | none => false

/-- `buildAssistantMessage`: assistant message, visible when it has
non-blank content or tool calls, marked as collapsible thinking when it
carries tool calls. -/
def buildAssistantMessage (sessionId : String) (content : Option String)
    (toolCalls : Option (List JsonValue)) (mid now : String) : SessionMessage :=
  { id := mid, sessionId, role := .assistant, content,
    contentParams := none,
    messageParams := toolCalls.map (fun tcs => JsonValue.obj [("tool_calls", .arr tcs)]),
    compacted := false,
    visible := jsTrim (content.getD "") ≠ "" ∨ toolCalls.isSome,
    createTime := now, updateTime := now,
    meta := toolCalls.map (fun _ => { asThinking := some true }) }

/-- `buildToolMessage`: tool-role message answering a call; failed bash
results are non-visible. -/
def buildToolMessage (projectRoot sessionId toolCallId content : String)
    (toolFunction : Option JsonValue) (mid now : String) : SessionMessage :=
  { id := mid, sessionId, role := .tool, content := some content,
    contentParams := none,
    messageParams := some (.obj [("tool_call_id", .str toolCallId)]),
    compacted := false,
    visible := ¬ isInvisibleExecution content,
    createTime := now, updateTime := now,
    meta := some
      { function := match toolFunction with
          | some .nul => none
          | some v => some v
          | none => none,
        paramsMd := some (buildToolParamsSnippet projectRoot toolFunction),
        resultMd := some (buildToolResultSnippet content) } }

/-- `findToolFunction`: the `function` value of the batch entry whose `id`
equals the execution's call id (`null` when the entry lacks one). -/
def findToolFunction (toolCalls : List JsonValue) (toolCallId : String) : Option JsonValue :=
  toolCalls.findSome? fun tc =>
    match tc with
    | .obj ms =>
      match getField ms "id" with
      | some (.str s) =>
        if s = toolCallId then some ((getField ms "function").getD .nul) else none
      | _ => none
    | _ => none

/-! ## The agent loop and interruption (`activateSession` /
`interruptSession`)

One iteration of the bounded loop is modelled explicitly. Its suspension
points — the awaited model call and the awaited tool-batch execution — are
the only places a concurrent `interruptSession` can land, which the
`InterruptPoint` parameter selects (`beforeIteration` stands for an
interrupt that fired before this iteration's first checkpoint). The model
response is a parameter (the model client is an external capability), and
the tool batch runs through the executor model above. -/

/-- The extracted fields of one model response message. -/
structure ModelMessage where
  content : Option String := none
  tool_calls : Option (List JsonValue) := none
  reasoning_content : Option String := none
  refusal : Option String := none
  usage : Option JsonValue := none

/-- Where, relative to one loop iteration, `interruptSession` fires. -/
inductive InterruptPoint where
  | never
  | beforeIteration
  | duringModelCall (aborts : Bool)
  | duringToolExecution
deriving Repr, DecidableEq

/-- Mutable loop state: the persisted store, the shared tool state, and the
registered cancellation handles (`sessionControllers` keys). -/
structure LoopState where
  store : SessionStore
  tools : ToolState
  controllers : List String

/-- Observable events of one iteration: a message appended to the session's
persisted log, or the completion of an `interruptSession` call. -/
inductive LoopEvent where
  | appended (m : SessionMessage)
  | interrupted
deriving Repr

/-- `isInterrupted`: the registered handle's absence is the interruption
signal. -/
def isInterrupted (sessionId : String) (ls : LoopState) : Bool :=
  ¬ ls.controllers.contains sessionId

/-- `interruptSession`: abort and remove the cancellation handle (the
effect of `abort()` on an in-flight call is carried by the
`duringModelCall` interrupt point), set the session's status to
`interrupted` with reason `"interrupted"`. The synthetic `"Interrupted."`
user-role notice is emitted to the UI callback but never appended to the
persisted log. -/
def interruptSessionStep (sessionId now : String) (ls : LoopState) : LoopState :=
  let ls1 := { ls with controllers := ls.controllers.filter (fun c => c ≠ sessionId) }
  let store2 := (updateSessionEntry ls1.store sessionId (fun e =>
    { e with status := .interrupted, failReason := some "interrupted", updateTime := now })).1
  { ls1 with store := store2 }

/-- The pre-loop part of `activateSession` once a client exists: mark the
session `processing` and register its cancellation handle. -/
def activateSessionStart (sessionId now : String) (ls : LoopState) : LoopState :=
  let store2 := (updateSessionEntry ls.store sessionId (fun e =>
    { e with status := .processing, updateTime := now })).1
  { ls with
      store := store2,
      controllers := (if ls.controllers.contains sessionId then ls.controllers
        else sessionId :: ls.controllers) }

/-- The tool messages appended for a batch's executions. -/
def toolMessagesOf (projectRoot sessionId : String) (tcs : List JsonValue)
    (execs : List ToolCallExecution) (msgIds : List String) (now : String) :
    List SessionMessage :=
  execs.enum.map fun p =>
    buildToolMessage projectRoot sessionId p.2.toolCallId p.2.content
      (findToolFunction tcs p.2.toolCallId) (msgIds.getD (p.1 + 1) "") now

/-- One iteration of the `activateSession` loop, producing the ordered
trace of log appends and the interruption event. Checkpoints follow the
source: entry guards on the interruption signal and on an externally set
terminal status; the awaited model call (which an interrupt aborts, or
whose late result the post-await checkpoint discards); the post-execution
guard inside `appendToolMessages`; the pre-snapshot guard; then the status
snapshot (`failed` on refusal, `processing` with tool calls, `completed`
otherwise). -/
def loopIteration (lookup : String → Option ToolHandler) (projectRoot sessionId : String)
    (ls0 : LoopState) (ip : InterruptPoint) (resp : ModelMessage)
    (intrNow now : String) (msgIds : List String) : List LoopEvent × LoopState :=
  if ip = .beforeIteration then
    ([.interrupted], interruptSessionStep sessionId intrNow ls0)
  else if isInterrupted sessionId ls0 then ([], ls0)
  else if (getSession ls0.store sessionId).any
      (fun e => e.status = .interrupted ∨ e.status = .failed) then ([], ls0)
  else
    match ip with
    | .duringModelCall aborts =>
      let ls1 := interruptSessionStep sessionId intrNow ls0
      if aborts then
        let store2 := (updateSessionEntry ls1.store sessionId (fun e =>
          { e with status := .interrupted, failReason := some "Request was aborted.",
                   updateTime := now })).1
        ([.interrupted], { ls1 with store := store2 })
      else
        ([.interrupted], ls1)
    | _ =>
      let content := resp.content.getD ""
      let toolCalls := match resp.tool_calls with
        | some l => if l.isEmpty then none else some l
        | none => none
      let refusal := resp.refusal
      let assistantMsg := buildAssistantMessage sessionId (some content) toolCalls
        (msgIds.getD 0 "") now
      let ls2 := { ls0 with store := appendSessionMessage ls0.store sessionId assistantMsg }
      let ev1 := [LoopEvent.appended assistantMsg]
      let afterTools : List LoopEvent × LoopState :=
        match toolCalls with
        | some tcs =>
          let run := executeToolCalls lookup sessionId projectRoot ls2.tools tcs
          let ls3 := { ls2 with tools := run.2 }
          if ip = .duringToolExecution then
            (ev1 ++ [.interrupted], interruptSessionStep sessionId intrNow ls3)
          else
            let msgs := toolMessagesOf projectRoot sessionId tcs run.1 msgIds now
            (ev1 ++ msgs.map LoopEvent.appended,
              msgs.foldl (fun acc m =>
                { acc with store := appendSessionMessage acc.store sessionId m }) ls3)
        | none => (ev1, ls2)
      match ip, toolCalls with
      | .duringToolExecution, some _ => afterTools
      | _, _ =>
        let refusalTruthy : Bool := match refusal with
          | some r => r != ""
          | none => false
        let store2 := (updateSessionEntry afterTools.2.store sessionId (fun e =>
          { e with
            assistantReply := some content,
            assistantThinking := resp.reasoning_content,
            assistantRefusal := refusal,
            toolCalls := toolCalls,
            usage := resp.usage,
            status := if refusalTruthy then .failed
              else if toolCalls.isSome then .processing
              else .completed,
            failReason := if refusalTruthy then refusal else e.failReason,
            updateTime := now })).1
        (afterTools.1, { afterTools.2 with store := store2 })

/-! ## Specification-side auxiliary definitions

Used to state properties independently of the code path that computes
them. -/

/-- The 1-based `n`-th line of a text (after `/\r?\n/` splitting). -/
def lineAt (raw : String) (n : Nat) : String :=
  (splitLines raw).getD (n - 1) ""

/-- Number of lines of a text. -/
def numLines (raw : String) : Nat :=
  (splitLines raw).length

mutual

/-- Parser-recursion weight of a JSON value: an upper bound on the fuel
`parseVal` needs to reparse its printed form. -/
def wval : JsonValue → Nat
  | .nul => 1
  | .bool _ => 1
  | .num _ => 1
  | .str _ => 1
  | .arr items => witems items + 1
  | .obj ms => wmems ms + 1

/-- Weight of an array-items loop. -/
def witems : List JsonValue → Nat
  | [] => 1
  | v :: vs => max (wval v) (witems vs + 1)

/-- Weight of an object-members loop. -/
def wmems : List (String × JsonValue) → Nat
  | [] => 1
  | m :: ms => max (wval m.2) (wmems ms + 1)

end

mutual

/-- Well-formedness of a JSON value as a JavaScript runtime value: number
literals conform to the JSON number grammar and object keys are distinct
(`JSON.stringify` output always reparses to the same value for these). -/
def ValueWF : JsonValue → Bool
  | .nul => true
  | .bool _ => true
  | .num lit => isNumberLit lit
  | .str _ => true
  | .arr items => ItemsWF items
  | .obj ms => decide ((ms.map (·.1)).Nodup) && MembersWF ms

/-- Well-formedness of array items. -/
def ItemsWF : List JsonValue → Bool
  | [] => true
  | v :: vs => ValueWF v && ItemsWF vs

/-- Well-formedness of object member values. -/
def MembersWF : List (String × JsonValue) → Bool
  | [] => true
  | m :: ms => ValueWF m.2 && MembersWF ms

end

/-- A character that could extend a JSON number literal to its right. -/
def isNumCont (c : Char) : Bool :=
  c.isDigit || c = '.' || c = 'e' || c = 'E'

/-- The input after a printed number literal may not start with a character
that would extend the literal. -/
def numBoundary : List Char → Bool
  | [] => true
  | c :: _ => !isNumCont c

/-- Plain join with separator at the character-list level (the inverse of
`jsSplitList`). -/
def joinWith (sep : List Char) : List (List Char) → List Char
  | [] => []
  | [x] => x
  | x :: y :: rest => x ++ sep ++ joinWith sep (y :: rest)

/-- The message carried by an `appended` loop event. -/
def evAppended : LoopEvent → Option SessionMessage
  | .appended m => some m
  | .interrupted => none

/-- The printed text that follows an array item: nothing after the last item,
a comma and newline before the remaining items. -/
def itemsTail (i : Nat) (xs : List JsonValue) : List Char :=
  match xs with
  | [] => []
  | _ :: _ => ',' :: '\n' :: stringifyItems i xs

/-- The printed text that follows an object member. -/
def membersTail (i : Nat) (ms : List (String × JsonValue)) : List Char :=
  match ms with
  | [] => []
  | _ :: _ => ',' :: '\n' :: stringifyMembers i ms

/-! ## Theorems -/

/-! ### Shared helper lemmas -/

theorem jsSplitList_length (needle : List Char) :
    ∀ src, (jsSplitList needle src).length = countOccurrencesList needle src + 1 := by
  intro src
  induction src using countOccurrencesList.induct needle with
  | case1 => rw [jsSplitList, countOccurrencesList]; rfl
  | case2 c rest hpre ih =>
    rw [jsSplitList, countOccurrencesList, dif_pos hpre, dif_pos hpre]
    simp only [List.length_cons, ih]
    omega
  | case3 c rest hpre ih =>
    rw [jsSplitList, countOccurrencesList, dif_neg hpre, dif_neg hpre]
    cases h : jsSplitList needle rest with
    | nil => simp [h] at ih
    | cons l ls =>
      rw [h] at ih
      simp only [List.length_cons] at ih ⊢
      omega

theorem jsSplitList_ne_nil (needle : List Char) (src : List Char) :
    jsSplitList needle src ≠ [] := by
  intro h
  have h2 := jsSplitList_length needle src
  rw [h] at h2
  simp at h2

theorem jsSplitList_join (needle : List Char) :
    ∀ src, joinWith needle (jsSplitList needle src) = src := by
  intro src
  induction src using countOccurrencesList.induct needle with
  | case1 => rw [jsSplitList]; rfl
  | case2 c rest hpre ih =>
    rw [jsSplitList, dif_pos hpre]
    cases h : jsSplitList needle (List.drop needle.length (c :: rest)) with
    | nil => exact absurd h (jsSplitList_ne_nil needle _)
    | cons t ts =>
      rw [h] at ih
      have hp : needle <+: (c :: rest) := List.isPrefixOf_iff_prefix.mp hpre.2
      obtain ⟨tl, htl⟩ := hp
      rw [joinWith, ih]
      conv_rhs => rw [← htl]
      rw [← htl]
      simp [List.drop_left]
  | case3 c rest hpre ih =>
    rw [jsSplitList, dif_neg hpre]
    cases h : jsSplitList needle rest with
    | nil => exact absurd h (jsSplitList_ne_nil needle _)
    | cons l ls =>
      rw [h] at ih
      cases ls with
      | nil => rw [joinWith] at ih ⊢; rw [ih]
      | cons l2 ls2 =>
        rw [joinWith] at ih ⊢
        rw [← ih]
        simp

theorem entryLookup_entryReplace (seg : String) (t2 : DirTree) :
    ∀ es : List (String × DirTree), (entryLookup es seg).isSome →
      entryLookup (entryReplace es seg t2) seg = some t2 := by
  intro es
  induction es with
  | nil => intro h; simp [entryLookup] at h
  | cons e rest ih =>
    intro h
    by_cases he : e.1 = seg
    · simp [entryLookup, entryReplace, List.find?, he]
    · simp only [entryReplace, List.map_cons, if_neg he]
      simp only [entryLookup, List.find?, decide_eq_false he] at h ⊢
      exact ih h

theorem writeSegs_of_file (c2 : String) :
    ∀ (segs : List String) (t : DirTree) (co : String),
      statSegs t segs = some (.file co) →
      ∃ t2, writeSegs t segs c2 = some t2 ∧ statSegs t2 segs = some (.file c2) := by
  intro segs
  induction segs with
  | nil =>
    intro t co h
    cases t with
    | file c0 => exact ⟨.file c2, rfl, rfl⟩
    | dir es => simp [statSegs] at h
  | cons seg rest ih =>
    intro t co h
    cases t with
    | file c0 => simp [statSegs] at h
    | dir es =>
      rw [statSegs] at h
      cases hl : entryLookup es seg with
      | none => rw [hl] at h; cases h
      | some t1 =>
        rw [hl] at h
        simp only at h
        cases rest with
        | nil =>
          cases t1 with
          | file c1 =>
            refine ⟨.dir (entryReplace es seg (.file c2)), ?_, ?_⟩
            · rw [writeSegs, hl]
            · rw [statSegs, entryLookup_entryReplace seg _ es (by rw [hl]; rfl)]
              rfl
          | dir es1 => simp [statSegs] at h
        | cons s2 r2 =>
          obtain ⟨t2, hw, hs⟩ := ih t1 co h
          refine ⟨.dir (entryReplace es seg t2), ?_, ?_⟩
          · rw [writeSegs, hl]
            simp [hw]
          · rw [statSegs, entryLookup_entryReplace seg t2 es (by rw [hl]; rfl)]
            exact hs

theorem treeWrite_of_file (root : DirTree) (p c2 co : String)
    (h : statAt root p = some (.file co)) :
    ∃ fs2, treeWrite root p c2 = some fs2 ∧ fileContentAt fs2 p = some c2 := by
  obtain ⟨t2, hw, hs⟩ := writeSegs_of_file c2 (splitPathSegs p) root co h
  exact ⟨t2, hw, by simp [fileContentAt, statAt, hs]⟩

theorem string_toList_ne (s : String) (h : s ≠ "") : s.toList ≠ [] := by
  intro hnil
  apply h
  cases s with
  | mk l => simpa using congrArg String.mk hnil

theorem edit_two_occurrence_uniqueness
    (args : JsonObject) (ctx : ToolExecutionContext) (st : ToolState)
    (p oldS newS c : String)
    (hfp : getString args "file_path" = some p)
    (hold : getString args "old_string" = some oldS)
    (hnew : getString args "new_string" = some newS)
    (htrim : jsTrim p ≠ "")
    (habs : isAbsolutePath p = true)
    (holdne : oldS ≠ "")
    (hdiff : oldS ≠ newS)
    (hread : wasFileRead ctx.sessionId p st = true)
    (hfile : statAt st.fs p = some (.file c))
    (hcount : countOccurrences c oldS = 2) :
    (getBoolD args "replace_all" = false →
      (handleEditTool args ctx st).1.ok = false ∧
      (handleEditTool args ctx st).1.error =
        some "old_string is not unique; use replace_all or provide more context." ∧
      (handleEditTool args ctx st).2 = st) ∧
    (getBoolD args "replace_all" = true →
      (handleEditTool args ctx st).1.ok = true ∧
      (handleEditTool args ctx st).1.output =
        some ("Replaced 2 occurrence(s) in " ++ p ++ ".") ∧
      ∃ A B D : String, c = A ++ oldS ++ B ++ oldS ++ D ∧
        fileContentAt (handleEditTool args ctx st).2.fs p =
          some (A ++ newS ++ B ++ newS ++ D)) := by
  have hones : oldS.toList ≠ [] := string_toList_ne oldS holdne
  constructor
  · intro hra
    rw [handleEditTool]
    simp [hfp, hold, hnew, hra, hcount, hfile, hread, habs, htrim, holdne, hdiff]
  · intro hra
    rw [handleEditTool]
    simp only [hfp, Option.getD_some, hold, hnew, hra, hcount, hfile, hread, habs, htrim]
    simp [holdne, hdiff]
    obtain ⟨fs2, hw, hc⟩ := treeWrite_of_file st.fs p (jsSplitJoin c oldS newS) c hfile
    rw [hw]
    have h2s : ("Replaced " ++ toString (2 : Nat) ++ " occurrence(s) in " : String) =
        "Replaced 2 occurrence(s) in " := by decide
    refine ⟨rfl, by rw [h2s], ?_⟩
    have hlen3 : (jsSplitList oldS.toList c.toList).length = 3 := by
      rw [jsSplitList_length]
      have hc2 : countOccurrencesList oldS.toList c.toList = 2 := by
        rw [countOccurrences] at hcount
        by_cases hcases : c = "" ∨ oldS = ""
        · rw [if_pos hcases] at hcount; cases hcount
        · rwa [if_neg hcases] at hcount
      omega
    obtain ⟨a, b, d, hsplit⟩ := List.length_eq_three.mp hlen3
    have hjoin := jsSplitList_join oldS.toList c.toList
    rw [hsplit] at hjoin
    refine ⟨String.mk a, String.mk b, String.mk d, ?_, ?_⟩
    · have hcmk : c = String.mk c.toList := by cases c; rfl
      rw [hcmk]
      conv_lhs => rw [← hjoin]
      rw [joinWith, joinWith, joinWith]
      exact congrArg String.mk (by simp)
    · rw [hc]
      congr 1
      rw [jsSplitJoin, hsplit]
      simp only [List.map_cons, List.map_nil]
      rw [strIntercalate, strIntercalate, strIntercalate]
      exact congrArg String.mk (by simp)


theorem markFileRead_fs (s p : String) (st : ToolState) :
    (markFileRead s p st).fs = st.fs := by
  rw [markFileRead]
  split
  · rfl
  · split <;> rfl

/-- A successful read on an absolute path leaves the filesystem untouched,
implies the path held a regular file, and records the (session, path) pair
in the read-tracking table. -/
theorem handleReadTool_ok_state
    (ig : String → Bool → Bool) (args : JsonObject) (ctx : ToolExecutionContext)
    (st : ToolState) (p : String)
    (hfp : getString args "file_path" = some p)
    (htrim : jsTrim p ≠ "")
    (habs : isAbsolutePath p = true)
    (hok : (handleReadTool ig args ctx st).1.ok = true) :
    (∃ c, statAt st.fs p = some (.file c)) ∧
    (handleReadTool ig args ctx st).2 = markFileRead ctx.sessionId p st := by
  rw [handleReadTool] at hok ⊢
  simp only [hfp, Option.getD_some, if_neg htrim, resolveReadPath, habs, if_true] at hok ⊢
  by_cases hex : pathExists st.fs p
  · simp only [hex, not_true, if_false, Bool.not_true] at hok ⊢
    cases hstat : statAt st.fs p with
    | none => simp [hstat] at hok
    | some node =>
      cases node with
      | dir es => simp [hstat] at hok
      | file content =>
        simp only [hstat] at hok ⊢
        revert hok
        (repeat' split) <;> intro hok <;>
          first
            | (first | exact ⟨⟨content, rfl⟩, rfl⟩ | exact ⟨⟨content, hstat⟩, rfl⟩)
            | simp at hok
  · simp only [hex] at hok
    simp at hok

theorem wasFileRead_markFileRead (s p : String) (st : ToolState)
    (hs : s ≠ "") (hp : p ≠ "") :
    wasFileRead s p (markFileRead s p st) = true := by
  rw [markFileRead, if_neg (by simp [hs, hp])]
  split
  · next hcont => rw [wasFileRead, if_neg (by simp [hs, hp])]; exact hcont
  · rw [wasFileRead, if_neg (by simp [hs, hp])]
    simp

/-- C1: writing to an existing regular file that the session has not read
fails with `ok = false` and leaves the filesystem unchanged (whatever the
other arguments), and after any successful read of that absolute path in
the session, an immediately following write with a string content argument
succeeds. -/
theorem write_precondition_read_gate
    (ig : String → Bool → Bool) (argsR argsW : JsonObject) (ctx : ToolExecutionContext)
    (st : ToolState) (p content : String)
    (hW : getString argsW "file_path" = some p)
    (htrim : jsTrim p ≠ "")
    (habs : isAbsolutePath p = true) :
    ((∃ c, statAt st.fs p = some (.file c)) →
      wasFileRead ctx.sessionId p st = false →
      (handleWriteTool argsW ctx st).1.ok = false ∧
      (handleWriteTool argsW ctx st).2.fs = st.fs) ∧
    (ctx.sessionId ≠ "" →
      getString argsR "file_path" = some p →
      (handleReadTool ig argsR ctx st).1.ok = true →
      getString argsW "content" = some content →
      (handleWriteTool argsW ctx ((handleReadTool ig argsR ctx st).2)).1.ok = true) := by
  constructor
  · rintro ⟨c, hfile⟩ hunread
    rw [handleWriteTool]
    simp only [hW, Option.getD_some, if_neg htrim, habs]
    cases hc : getString argsW "content" with
    | none => simp [hc]
    | some cont => simp [hc, hfile, hunread]
  · intro hsid hR hok hcw
    have hpne : p ≠ "" := by
      intro h
      subst h
      exact absurd habs (by decide)
    obtain ⟨⟨c, hfile⟩, hst2⟩ := handleReadTool_ok_state ig argsR ctx st p hR htrim habs hok
    rw [hst2]
    have hwr := wasFileRead_markFileRead ctx.sessionId p st hsid hpne
    obtain ⟨fs2, hw2, _⟩ := treeWrite_of_file st.fs p content c hfile
    rw [handleWriteTool]
    simp only [hW, Option.getD_some, if_neg htrim, habs, hcw, markFileRead_fs, hfile, hwr, hw2]
    simp

unseal countOccurrencesList jsSplitList parseVal parseItems parseMembers in
/-- Witness for the write-precondition theorem: a concrete file that was
not read rejects a write, and the same file accepts one right after a
successful read. -/
theorem write_precondition_read_gate_witness :
    (handleWriteTool [("file_path", .str "/p/a.txt"), ("content", .str "x")]
      ⟨"s1", "/p", ⟨"c1", ⟨"write", ""⟩⟩⟩
      ⟨.dir [("p", .dir [("a.txt", .file "hello")])], []⟩).1.ok = false ∧
    (handleWriteTool [("file_path", .str "/p/a.txt"), ("content", .str "x")]
      ⟨"s1", "/p", ⟨"c1", ⟨"write", ""⟩⟩⟩
      ((handleReadTool (fun _ _ => false) [("file_path", .str "/p/a.txt")]
        ⟨"s1", "/p", ⟨"c1", ⟨"write", ""⟩⟩⟩
        ⟨.dir [("p", .dir [("a.txt", .file "hello")])], []⟩).2)).1.ok = true := by
  constructor
  · exact ((write_precondition_read_gate (fun _ _ => false)
      [("file_path", .str "/p/a.txt")]
      [("file_path", .str "/p/a.txt"), ("content", .str "x")]
      ⟨"s1", "/p", ⟨"c1", ⟨"write", ""⟩⟩⟩
      ⟨.dir [("p", .dir [("a.txt", .file "hello")])], []⟩
      "/p/a.txt" "x" rfl (by decide) (by decide)).1 ⟨"hello", rfl⟩ rfl).1
  · exact (write_precondition_read_gate (fun _ _ => false)
      [("file_path", .str "/p/a.txt")]
      [("file_path", .str "/p/a.txt"), ("content", .str "x")]
      ⟨"s1", "/p", ⟨"c1", ⟨"write", ""⟩⟩⟩
      ⟨.dir [("p", .dir [("a.txt", .file "hello")])], []⟩
      "/p/a.txt" "x" rfl (by decide) (by decide)).2 (by decide) rfl (by decide) rfl


theorem executeToolCallsLoop_length (lookup : String → Option ToolHandler)
    (sessionId projectRoot : String) :
    ∀ (l : List ToolCall) (st : ToolState),
      (executeToolCallsLoop lookup sessionId projectRoot l st).1.length = l.length := by
  intro l
  induction l with
  | nil => intro st; rfl
  | cons tc rest ih =>
    intro st
    rw [executeToolCallsLoop]
    simp [ih]

/-- C3: the tool executor never lets a handler failure escape: an
unregistered tool name yields a structured error result; an empty argument
string is parsed as the empty object before invoking the handler; invalid
JSON or non-object argument strings yield a structured error; an error
thrown by a handler becomes that call's structured error result (with the
state as the handler left it); and a batch always produces exactly one
execution per parsed request. -/
theorem executor_error_isolation
    (lookup : String → Option ToolHandler) (sessionId projectRoot : String)
    (st : ToolState) (tc : ToolCall) :
    (lookup tc.function.name = none →
      executeToolCall lookup sessionId projectRoot st tc =
        ({ ok := false, name := tc.function.name,
           error := some ("Unknown tool: " ++ tc.function.name) }, st)) ∧
    (∀ h, lookup tc.function.name = some h → tc.function.arguments = "" →
      executeToolCall lookup sessionId projectRoot st tc =
        (match h [] ⟨sessionId, projectRoot, tc⟩ st with
          | (.ok r, st2) => (r, st2)
          | (.error m, st2) =>
            ({ ok := false, name := tc.function.name, error := some m }, st2))) ∧
    (∀ h, lookup tc.function.name = some h →
      (jsonParse tc.function.arguments = none ∨
        (∃ v, jsonParse tc.function.arguments = some v ∧ ∀ ms, v ≠ .obj ms)) →
      tc.function.arguments ≠ "" →
      ∃ e, executeToolCall lookup sessionId projectRoot st tc =
        ({ ok := false, name := tc.function.name, error := some e }, st)) ∧
    (∀ h pargs st2 m, lookup tc.function.name = some h →
      parseToolArguments tc.function.arguments = .ok pargs →
      h pargs ⟨sessionId, projectRoot, tc⟩ st = (.error m, st2) →
      executeToolCall lookup sessionId projectRoot st tc =
        ({ ok := false, name := tc.function.name, error := some m }, st2)) ∧
    (∀ calls : List JsonValue,
      (executeToolCalls lookup sessionId projectRoot st calls).1.length =
        (calls.filterMap parseToolCall).length) := by
  refine ⟨?_, ?_, ?_, ?_, ?_⟩
  · intro hl
    rw [executeToolCall, hl]
  · intro h hl ha
    rw [executeToolCall, hl]
    have : parseToolArguments tc.function.arguments = .ok [] := by
      rw [ha]; rfl
    rw [this]
  · intro h hl hbad hne
    rw [executeToolCall, hl]
    have : ∃ e, parseToolArguments tc.function.arguments = .error e := by
      rw [parseToolArguments, if_neg hne]
      rcases hbad with hnone | ⟨v, hv, hnotobj⟩
      · rw [hnone]; exact ⟨_, rfl⟩
      · rw [hv]
        cases v with
        | obj ms => exact absurd rfl (hnotobj ms)
        | nul => exact ⟨_, rfl⟩
        | bool b => exact ⟨_, rfl⟩
        | num l => exact ⟨_, rfl⟩
        | str s => exact ⟨_, rfl⟩
        | arr l => exact ⟨_, rfl⟩
    obtain ⟨e, he⟩ := this
    rw [he]
    exact ⟨e, rfl⟩
  · intro h pargs st2 m hl hp hr
    rw [executeToolCall, hl, hp]
    simp only [hr]
  · intro calls
    rw [executeToolCalls, executeToolCallsLoop_length]

/-- Witness for the executor-isolation theorem on concrete calls. -/
theorem executor_error_isolation_witness :
    executeToolCall (fun _ => none) "s1" "/p" ⟨.dir [], []⟩ ⟨"c1", ⟨"nope", ""⟩⟩ =
      ({ ok := false, name := "nope", error := some ("Unknown tool: " ++ "nope") },
        (⟨.dir [], []⟩ : ToolState)) ∧
    (executeToolCalls (fun _ => some (fun _ _ st => (.error "boom", st))) "s1" "/p"
      ⟨.dir [], []⟩
      [.obj [("id", .str "c1"), ("function", .obj [("name", .str "t")])]]).1.length =
      ([JsonValue.obj [("id", .str "c1"),
        ("function", .obj [("name", .str "t")])]].filterMap parseToolCall).length := by
  constructor
  · exact (executor_error_isolation (fun _ => none) "s1" "/p" ⟨.dir [], []⟩
      ⟨"c1", ⟨"nope", ""⟩⟩).1 rfl
  · exact (executor_error_isolation (fun _ => some (fun _ _ st => (.error "boom", st)))
      "s1" "/p" ⟨.dir [], []⟩ ⟨"c1", ⟨"t", ""⟩⟩).2.2.2.2
      [.obj [("id", .str "c1"), ("function", .obj [("name", .str "t")])]]

unseal countOccurrencesList jsSplitList in
/-- C10: the edit tool's occurrence count is non-overlapping and scans left
to right advancing past each match: in the file `"aaa"` the old string
`"aa"` counts once, so an edit without `replace_all` treats it as unique
and performs the single first-occurrence replacement (yielding `"ba"`) with
output `"Replaced 1 occurrence(s) ..."` instead of an ambiguity error. -/
theorem edit_overlapping_count_single :
    countOccurrences "aaa" "aa" = 1 ∧
    (handleEditTool
      [("file_path", .str "/p/f.txt"), ("old_string", .str "aa"), ("new_string", .str "b")]
      ⟨"s1", "/p", ⟨"c1", ⟨"edit", ""⟩⟩⟩
      ⟨.dir [("p", .dir [("f.txt", .file "aaa")])], [("s1", "/p/f.txt")]⟩).1.ok = true ∧
    (handleEditTool
      [("file_path", .str "/p/f.txt"), ("old_string", .str "aa"), ("new_string", .str "b")]
      ⟨"s1", "/p", ⟨"c1", ⟨"edit", ""⟩⟩⟩
      ⟨.dir [("p", .dir [("f.txt", .file "aaa")])], [("s1", "/p/f.txt")]⟩).1.output =
      some "Replaced 1 occurrence(s) in /p/f.txt." ∧
    fileContentAt (handleEditTool
      [("file_path", .str "/p/f.txt"), ("old_string", .str "aa"), ("new_string", .str "b")]
      ⟨"s1", "/p", ⟨"c1", ⟨"edit", ""⟩⟩⟩
      ⟨.dir [("p", .dir [("f.txt", .file "aaa")])], [("s1", "/p/f.txt")]⟩).2.fs "/p/f.txt" =
      some "ba" := by
  refine ⟨?_, ?_, ?_, ?_⟩ <;> decide

unseal countOccurrencesList jsSplitList in
/-- Witness for the two-occurrence edit theorem at a concrete file. -/
theorem edit_two_occurrence_uniqueness_witness :
    (handleEditTool
      [("file_path", .str "/p/f.txt"), ("old_string", .str "A"), ("new_string", .str "B")]
      ⟨"s1", "/p", ⟨"c1", ⟨"edit", ""⟩⟩⟩
      ⟨.dir [("p", .dir [("f.txt", .file "xAyAz")])], [("s1", "/p/f.txt")]⟩).1.ok = false ∧
    (handleEditTool
      [("file_path", .str "/p/f.txt"), ("old_string", .str "A"), ("new_string", .str "B"),
       ("replace_all", .bool true)]
      ⟨"s1", "/p", ⟨"c1", ⟨"edit", ""⟩⟩⟩
      ⟨.dir [("p", .dir [("f.txt", .file "xAyAz")])], [("s1", "/p/f.txt")]⟩).1.ok = true := by
  constructor
  · exact ((edit_two_occurrence_uniqueness
      [("file_path", .str "/p/f.txt"), ("old_string", .str "A"), ("new_string", .str "B")]
      ⟨"s1", "/p", ⟨"c1", ⟨"edit", ""⟩⟩⟩
      ⟨.dir [("p", .dir [("f.txt", .file "xAyAz")])], [("s1", "/p/f.txt")]⟩
      "/p/f.txt" "A" "B" "xAyAz" rfl rfl rfl (by decide) (by decide) (by decide) (by decide)
      (by decide) rfl (by decide)).1 rfl).1
  · exact ((edit_two_occurrence_uniqueness
      [("file_path", .str "/p/f.txt"), ("old_string", .str "A"), ("new_string", .str "B"),
       ("replace_all", .bool true)]
      ⟨"s1", "/p", ⟨"c1", ⟨"edit", ""⟩⟩⟩
      ⟨.dir [("p", .dir [("f.txt", .file "xAyAz")])], [("s1", "/p/f.txt")]⟩
      "/p/f.txt" "A" "B" "xAyAz" rfl rfl rfl (by decide) (by decide) (by decide) (by decide)
      (by decide) rfl (by decide)).2 rfl).1

/-- C6 (amended): resolution of a relative file_path in the read tool. More than one
suffix match yields an ambiguity error listing at most three candidates; otherwise the
path is resolved directly against the project root: if that file exists it is the one
used, while a unique suffix match whose root-joined path does not exist produces an
"ambiguous" error and zero matches a not-found error -- a unique suffix match is never
itself resolved. -/
theorem read_suffix_resolution_amended
    (ig : String → Bool → Bool) (args : JsonObject) (ctx : ToolExecutionContext)
    (st : ToolState) (fp sfx : String)
    (hfp : getString args "file_path" = some fp)
    (htrim : jsTrim fp ≠ "")
    (hrel : isAbsolutePath fp = false)
    (hd1 : strStartsWith fp "../" = false)
    (hd2 : strStartsWith fp "..\\" = false)
    (hsfx : normalizeRelativeSuffix fp = some sfx) :
    ((findSuffixMatches st.fs ctx.projectRoot sfx ig).length > 1 →
      (handleReadTool ig args ctx st).1.ok = false ∧
      (handleReadTool ig args ctx st).1.error =
        some ("file_path must be an absolute path. " ++
          "The file_path is ambiguous and may refer to multiple files:\n" ++
          strIntercalate "\n" ((findSuffixMatches st.fs ctx.projectRoot sfx ig).take 3) ++
          (if (findSuffixMatches st.fs ctx.projectRoot sfx ig).length > 3 then
            "\n...and " ++
              toString ((findSuffixMatches st.fs ctx.projectRoot sfx ig).length - 3) ++ " more."
          else "")) ∧
      (handleReadTool ig args ctx st).2 = st) ∧
    ((findSuffixMatches st.fs ctx.projectRoot sfx ig).length ≤ 1 →
      pathExists st.fs (resolveUnder ctx.projectRoot fp) = true →
      resolveReadPath ig st.fs ctx.projectRoot fp = .ok (resolveUnder ctx.projectRoot fp)) ∧
    ((findSuffixMatches st.fs ctx.projectRoot sfx ig).length = 1 →
      pathExists st.fs (resolveUnder ctx.projectRoot fp) = false →
      (handleReadTool ig args ctx st).1.ok = false ∧
      (handleReadTool ig args ctx st).1.error =
        some ("file_path must be an absolute path. " ++
          "The file_path \"" ++ fp ++ "\" is ambiguous.") ∧
      (handleReadTool ig args ctx st).2 = st) ∧
    (findSuffixMatches st.fs ctx.projectRoot sfx ig = [] →
      pathExists st.fs (resolveUnder ctx.projectRoot fp) = false →
      (handleReadTool ig args ctx st).1.ok = false ∧
      (handleReadTool ig args ctx st).1.error = some ("File not found: " ++ fp) ∧
      (handleReadTool ig args ctx st).2 = st) := by
  refine ⟨?_, ?_, ?_, ?_⟩
  · intro hgt
    rw [handleReadTool, resolveReadPath]
    simp only [hfp, Option.getD_some, if_neg htrim, hrel, hd1, hd2, hsfx, Bool.false_eq_true,
      if_false, or_self, if_pos hgt]
    all_goals try refine ⟨?_, ?_, ?_⟩
    all_goals trivial
  · intro hle hex
    rw [resolveReadPath]
    simp only [hrel, hd1, hd2, hsfx, Bool.false_eq_true, if_false, or_self, hex,
      not_true, if_neg (by omega : ¬ (findSuffixMatches st.fs ctx.projectRoot sfx ig).length > 1)]
  · intro heq hnex
    rw [handleReadTool, resolveReadPath]
    simp only [hfp, Option.getD_some, if_neg htrim, hrel, hd1, hd2, hsfx, Bool.false_eq_true,
      if_false, or_self, hnex,
      if_neg (by omega : ¬ (findSuffixMatches st.fs ctx.projectRoot sfx ig).length > 1),
      if_pos (by omega : (findSuffixMatches st.fs ctx.projectRoot sfx ig).length > 0)]
    all_goals try refine ⟨?_, ?_, ?_⟩
    all_goals trivial
  · intro heq hnex
    rw [handleReadTool, resolveReadPath]
    simp only [hfp, Option.getD_some, if_neg htrim, hrel, hd1, hd2, hsfx, Bool.false_eq_true,
      if_false, or_self, hnex, heq]
    all_goals try refine ⟨?_, ?_, ?_⟩
    all_goals trivial

unseal jsSplitList in
/-- C6 (counterexample): a relative file_path with exactly one suffix match under the
project root is not resolved to that match; since the root-joined path does not exist,
the read fails with an "ambiguous" error. -/
theorem read_single_suffix_match_counterexample :
    normalizeRelativeSuffix "a.txt" = some "/a.txt" ∧
    findSuffixMatches (.dir [("p", .dir [("src", .dir [("a.txt", .file "hi")])])]) "/p" "/a.txt"
      (fun _ _ => false) = ["/p/src/a.txt"] ∧
    (handleReadTool (fun _ _ => false) [("file_path", .str "a.txt")]
        ⟨"s1", "/p", ⟨"c1", ⟨"read", ""⟩⟩⟩
        ⟨.dir [("p", .dir [("src", .dir [("a.txt", .file "hi")])])], []⟩).1.ok = false ∧
    (handleReadTool (fun _ _ => false) [("file_path", .str "a.txt")]
        ⟨"s1", "/p", ⟨"c1", ⟨"read", ""⟩⟩⟩
        ⟨.dir [("p", .dir [("src", .dir [("a.txt", .file "hi")])])], []⟩).1.error =
      some ("file_path must be an absolute path. The file_path \"a.txt\" is ambiguous.") := by
  refine ⟨rfl, ?_, rfl, rfl⟩
  rfl

unseal jsSplitList in
theorem read_suffix_resolution_amended_witness :
    resolveReadPath (fun _ _ => false)
      (.dir [("p", .dir [("a.txt", .file "hi"), ("src", .dir [("b.txt", .file "x")])])])
      "/p" "a.txt" = .ok "/p/a.txt" :=
  (read_suffix_resolution_amended (fun _ _ => false) [("file_path", .str "a.txt")]
      ⟨"s1", "/p", ⟨"c1", ⟨"read", ""⟩⟩⟩
      ⟨.dir [("p", .dir [("a.txt", .file "hi"), ("src", .dir [("b.txt", .file "x")])])], []⟩
      "a.txt" "/a.txt" rfl (by decide) rfl rfl rfl rfl).2.1 (by decide) rfl

/-- C8: the PDF page policy of the read tool. With no page range requested, a page
count above 10 fails asking for a range and a count of at most 10 succeeds with a
base64 data URI; a parsed page range spanning more than 20 pages fails, a range whose
end exceeds the counted total fails, and otherwise the read succeeds with the data
URI and range metadata. -/
theorem pdf_page_policy
    (ig : String → Bool → Bool) (args : JsonObject) (ctx : ToolExecutionContext)
    (st : ToolState) (fp content pp : String) (n : Nat)
    (hfp : getString args "file_path" = some fp)
    (htrim : jsTrim fp ≠ "")
    (habs : isAbsolutePath fp = true)
    (hstat : statAt st.fs fp = some (.file content))
    (hext : lowerString (extnameOf fp) = ".pdf")
    (hpp : (match getString args "pages" with | some s => jsTrim s | none => "") = pp)
    (hn : countPdfPages content = some n) :
    (pp = "" → n > 10 →
      handleReadTool ig args ctx st =
        ({ ok := false, name := "read",
           error := some ("PDF has " ++ toString n ++
             " pages; provide \"pages\" to read a range.") }, st)) ∧
    (pp = "" → n ≤ 10 →
      handleReadTool ig args ctx st =
        ({ ok := true, name := "read",
           output := some ("data:application/pdf;base64," ++ base64String content),
           metadata := some
             [("mime", .str "application/pdf"), ("encoding", .str "base64"),
              ("bytes", .num (toString content.length)),
              ("pageCount", .num (toString n)), ("pages", .nul)] },
          markFileRead ctx.sessionId fp st)) ∧
    (∀ r : PageRange, pp ≠ "" → parsePageRange pp = .ok r → r.count > 20 →
      handleReadTool ig args ctx st =
        ({ ok := false, name := "read",
           error := some "PDF page range exceeds 20 pages." }, st)) ∧
    (∀ r : PageRange, pp ≠ "" → parsePageRange pp = .ok r → r.count ≤ 20 → r.stop > n →
      handleReadTool ig args ctx st =
        ({ ok := false, name := "read",
           error := some ("PDF page range exceeds total page count (" ++
             toString n ++ ").") }, st)) ∧
    (∀ r : PageRange, pp ≠ "" → parsePageRange pp = .ok r → r.count ≤ 20 → r.stop ≤ n →
      handleReadTool ig args ctx st =
        ({ ok := true, name := "read",
           output := some ("data:application/pdf;base64," ++ base64String content),
           metadata := some
             [("mime", .str "application/pdf"), ("encoding", .str "base64"),
              ("bytes", .num (toString content.length)),
              ("pageCount", .num (toString n)),
              ("pages", .str (toString r.start ++ "-" ++ toString r.stop))] },
          markFileRead ctx.sessionId fp st)) := by
  have hpe : pathExists st.fs fp = true := by simp [pathExists, hstat]
  have hne : (".pdf" : String) ≠ ".ipynb" := by decide
  have hstep : ∀ R : ToolExecutionResult × ToolState,
      (let pagesParam := match getString args "pages" with | some s => jsTrim s | none => ""
       let pageCount := countPdfPages content
       let rangeResult : Except String (Option PageRange) :=
         if pagesParam = "" then .ok none else (parsePageRange pagesParam).map some
       match rangeResult with
       | .error m => ({ ok := false, name := "read", error := some m }, st)
       | .ok pageRange =>
         let success : ToolExecutionResult × ToolState :=
           ({ ok := true, name := "read",
              output := some ("data:application/pdf;base64," ++ base64String content),
              metadata := some
                [("mime", .str "application/pdf"), ("encoding", .str "base64"),
                 ("bytes", .num (toString content.length)),
                 ("pageCount", match pageCount with
                   | some c => .num (toString c)
                   | none => .nul),
                 ("pages", match pageRange with
                   | some r => .str (toString r.start ++ "-" ++ toString r.stop)
                   | none => .nul)] },
             markFileRead ctx.sessionId fp st)
         match pageRange with
         | none =>
           match pageCount with
           | some c =>
             if c > 10 then
               ({ ok := false, name := "read",
                  error := some ("PDF has " ++ toString c ++
                    " pages; provide \"pages\" to read a range.") }, st)
             else success
           | none => success
         | some r =>
           if r.count > 20 then
             ({ ok := false, name := "read",
                error := some "PDF page range exceeds 20 pages." }, st)
           else
             match pageCount with
             | some c =>
               if r.stop > c then
                 ({ ok := false, name := "read",
                    error := some ("PDF page range exceeds total page count (" ++
                      toString c ++ ").") }, st)
               else success
             | none => success) = R →
      handleReadTool ig args ctx st = R := by
    intro R hR
    rw [handleReadTool]
    simp only [hfp, Option.getD_some, if_neg htrim, resolveReadPath, if_pos habs, hpe,
      not_true, Bool.false_eq_true, if_false, hstat, hext, if_neg hne]
    exact hR
  refine ⟨?_, ?_, ?_, ?_, ?_⟩
  · intro h1 h2
    apply hstep
    simp only [hpp, if_pos h1, hn, if_pos h2]
  · intro h1 h2
    apply hstep
    simp only [hpp, if_pos h1, hn, if_neg (by omega : ¬ n > 10)]
  · intro r h1 hr h2
    apply hstep
    simp only [hpp, if_neg h1, hr, Except.map, if_pos h2]
  · intro r h1 hr h2 h3
    apply hstep
    simp only [hpp, if_neg h1, hr, Except.map, if_neg (by omega : ¬ r.count > 20), hn,
      if_pos h3]
  · intro r h1 hr h2 h3
    apply hstep
    simp only [hpp, if_neg h1, hr, Except.map, if_neg (by omega : ¬ r.count > 20), hn,
      if_neg (by omega : ¬ r.stop > n)]

unseal jsSplitList in
theorem pdf_page_policy_witness :
    (handleReadTool (fun _ _ => false) [("file_path", .str "/p/doc.pdf")]
        ⟨"s1", "/p", ⟨"c1", ⟨"read", ""⟩⟩⟩
        ⟨.dir [("p", .dir [("doc.pdf", .file "/Type /Page A /Type /Pages /Type/Page")])], []⟩ =
      ({ ok := true, name := "read",
         output := some ("data:application/pdf;base64," ++
           base64String "/Type /Page A /Type /Pages /Type/Page"),
         metadata := some
           [("mime", .str "application/pdf"), ("encoding", .str "base64"),
            ("bytes", .num (toString ("/Type /Page A /Type /Pages /Type/Page").length)),
            ("pageCount", .num (toString (2 : Nat))), ("pages", .nul)] },
        markFileRead "s1" "/p/doc.pdf"
          ⟨.dir [("p", .dir [("doc.pdf", .file "/Type /Page A /Type /Pages /Type/Page")])], []⟩)) ∧
    (handleReadTool (fun _ _ => false)
        [("file_path", .str "/p/doc.pdf"), ("pages", .str "1-2")]
        ⟨"s1", "/p", ⟨"c1", ⟨"read", ""⟩⟩⟩
        ⟨.dir [("p", .dir [("doc.pdf", .file "/Type /Page A /Type /Pages /Type/Page")])], []⟩ =
      ({ ok := true, name := "read",
         output := some ("data:application/pdf;base64," ++
           base64String "/Type /Page A /Type /Pages /Type/Page"),
         metadata := some
           [("mime", .str "application/pdf"), ("encoding", .str "base64"),
            ("bytes", .num (toString ("/Type /Page A /Type /Pages /Type/Page").length)),
            ("pageCount", .num (toString (2 : Nat))),
            ("pages", .str (toString (1 : Nat) ++ "-" ++ toString (2 : Nat)))] },
        markFileRead "s1" "/p/doc.pdf"
          ⟨.dir [("p", .dir [("doc.pdf", .file "/Type /Page A /Type /Pages /Type/Page")])], []⟩)) :=
  ⟨(pdf_page_policy (fun _ _ => false) [("file_path", .str "/p/doc.pdf")]
      ⟨"s1", "/p", ⟨"c1", ⟨"read", ""⟩⟩⟩
      ⟨.dir [("p", .dir [("doc.pdf", .file "/Type /Page A /Type /Pages /Type/Page")])], []⟩
      "/p/doc.pdf" "/Type /Page A /Type /Pages /Type/Page" "" 2
      rfl (by decide) rfl rfl rfl rfl rfl).2.1 rfl (by decide),
   (pdf_page_policy (fun _ _ => false)
      [("file_path", .str "/p/doc.pdf"), ("pages", .str "1-2")]
      ⟨"s1", "/p", ⟨"c1", ⟨"read", ""⟩⟩⟩
      ⟨.dir [("p", .dir [("doc.pdf", .file "/Type /Page A /Type /Pages /Type/Page")])], []⟩
      "/p/doc.pdf" "/Type /Page A /Type /Pages /Type/Page" "1-2" 2
      rfl (by decide) rfl rfl rfl rfl rfl).2.2.2.2 ⟨1, 2, 2⟩ (by decide) rfl
      (by decide) (by decide)⟩

/-- C9: read-tool pagination. For a text file with at least o-1+k lines, reading
with offset o and limit k returns exactly the window of lines o .. o+k-1, each
prefixed by its 1-based line number padded to width 6 and a tab, and hard-truncated
at 2000 characters. The witness instantiates offset 10, limit 5 on a 14-line file,
yielding exactly 5 lines numbered 10 through 14. -/
theorem read_pagination_window (raw : String) (o k : Int)
    (ho : 1 ≤ o) (hk : 1 ≤ k)
    (hwin : o - 1 + k ≤ numLines raw)
    (hne : splitLines raw ≠ [""]) :
    readTextFile raw (some o) k =
      strIntercalate "\n" ((List.range k.toNat).map fun i : Nat =>
        padStart (toString (o + (i : Int))) 6 ++ "\t" ++
          truncLine (lineAt raw (o + (i : Int)).toNat)) := by
  have hraw : raw ≠ "" := by
    intro h
    subst h
    exact hne rfl
  have hwin' : o - 1 + k ≤ ((splitLines raw).length : Int) := hwin
  rw [readTextFile]
  simp only [if_neg hraw, if_neg hne]
  rw [jsArraySlice, formatWithLineNumbers]
  simp only [if_neg (by omega : ¬ o = 0)]
  have h1 : ¬ (o - 1 < 0) := by omega
  have h2 : ¬ (o - 1 + k < 0) := by omega
  simp only [if_neg h1, if_neg h2]
  have hmin1 : (o - 1) ⊓ ((splitLines raw).length : Int) = o - 1 := by
    exact min_eq_left (by omega)
  have hmin2 : (o - 1 + k) ⊓ ((splitLines raw).length : Int) = o - 1 + k := by
    exact min_eq_left (by omega)
  rw [hmin1, hmin2]
  apply congrArg (strIntercalate "\n")
  have hlens : ((List.drop (o - 1).toNat
      (List.take (o - 1 + k).toNat (splitLines raw))).enum).length = k.toNat := by
    simp only [List.enum_length, List.length_drop, List.length_take]
    omega
  apply List.ext_getElem
  · simp only [List.length_map, hlens, List.length_range]
  · intro i hi1 hi2
    simp only [List.length_map, hlens] at hi1
    simp only [List.getElem_map, List.getElem_enum, List.getElem_range]
    have harg : o - 1 + 1 + (i : Int) = o + i := by omega
    rw [harg]
    refine congrArg₂ (· ++ ·) rfl (congrArg truncLine ?_)
    rw [List.getElem_drop, List.getElem_take, lineAt]
    have hidx2 : (o + (i : Int)).toNat - 1 = (o - 1).toNat + i := by omega
    rw [hidx2, List.getD_eq_getElem (splitLines raw) "" (by omega)]

theorem read_pagination_window_witness :
    readTextFile "l1\nl2\nl3\nl4\nl5\nl6\nl7\nl8\nl9\nl10\nl11\nl12\nl13\nl14" (some 10) 5 =
      strIntercalate "\n" ((List.range (5 : Int).toNat).map fun i : Nat =>
        padStart (toString ((10 : Int) + (i : Int))) 6 ++ "\t" ++
          truncLine (lineAt "l1\nl2\nl3\nl4\nl5\nl6\nl7\nl8\nl9\nl10\nl11\nl12\nl13\nl14" ((10 : Int) + (i : Int)).toNat)) ∧
    (splitLines (readTextFile "l1\nl2\nl3\nl4\nl5\nl6\nl7\nl8\nl9\nl10\nl11\nl12\nl13\nl14" (some 10) 5)).length = 5 ∧
    readTextFile "l1\nl2\nl3\nl4\nl5\nl6\nl7\nl8\nl9\nl10\nl11\nl12\nl13\nl14" (some 10) 5 =
      "    10\tl10\n    11\tl11\n    12\tl12\n    13\tl13\n    14\tl14" :=
  ⟨read_pagination_window "l1\nl2\nl3\nl4\nl5\nl6\nl7\nl8\nl9\nl10\nl11\nl12\nl13\nl14" 10 5 (by decide) (by decide) (by decide) (by decide),
   by decide, by decide⟩

theorem find_update_of_found (sid : String) (u : SessionEntry) (hu : u.id = sid) :
    ∀ (l : List SessionEntry) (e : SessionEntry),
      l.find? (fun x => x.id = sid) = some e →
      (l.map fun x => if x.id = sid then u else x).find? (fun x => x.id = sid) = some u := by
  intro l
  induction l with
  | nil => intro e he; simp at he
  | cons a t ih =>
    intro e he
    by_cases ha : a.id = sid
    · simp only [List.map_cons, if_pos ha]
      rw [List.find?_cons_of_pos _ (by simp [hu])]
    · rw [List.find?_cons_of_neg _ (by simp [ha])] at he
      simp only [List.map_cons, if_neg ha]
      rw [List.find?_cons_of_neg _ (by simp [ha])]
      exact ih e he

theorem getSession_update (store : SessionStore) (sid : String)
    (f : SessionEntry → SessionEntry) (hid : ∀ e, (f e).id = e.id) :
    getSession (updateSessionEntry store sid f).1 sid = (getSession store sid).map f := by
  unfold getSession updateSessionEntry
  cases hf : store.index.entries.find? (fun e => e.id = sid) with
  | none => simp [hf]
  | some e =>
    simp only [hf, Option.map_some]
    have he : e.id = sid := by
      have := List.find?_some hf
      simpa using this
    exact find_update_of_found sid (f e) (by rw [hid, he]) store.index.entries e hf

theorem logsLookup_update (store : SessionStore) (sid s : String)
    (f : SessionEntry → SessionEntry) :
    logsLookup (updateSessionEntry store sid f).1 s = logsLookup store s := by
  unfold updateSessionEntry
  split <;> rfl

theorem getSession_append (store : SessionStore) (sid s : String) (m : SessionMessage) :
    getSession (appendSessionMessage store sid m) s = getSession store s := by
  unfold appendSessionMessage
  split <;> rfl

theorem find_append_left_none {α : Type} (p : α → Bool) :
    ∀ (l1 l2 : List α), l1.find? p = none → (l1 ++ l2).find? p = l2.find? p := by
  intro l1
  induction l1 with
  | nil => intro l2 _; rfl
  | cons a t ih =>
    intro l2 h
    cases hp : p a with
    | true => rw [List.find?_cons_of_pos _ hp] at h; exact absurd h (by simp)
    | false =>
      rw [List.find?_cons_of_neg _ (by simp [hp])] at h
      rw [List.cons_append, List.find?_cons_of_neg _ (by simp [hp])]
      exact ih l2 h

theorem find_logs_update (sid : String) (m : SessionMessage) :
    ∀ (logs : List (String × List SessionMessage)) (l : String × List SessionMessage),
      logs.find? (fun x => x.1 = sid) = some l →
      (logs.map fun x => if x.1 = sid then (x.1, x.2 ++ [m]) else x).find?
        (fun x => x.1 = sid) = some (l.1, l.2 ++ [m]) := by
  intro logs
  induction logs with
  | nil => intro l hl; simp at hl
  | cons a t ih =>
    intro l hl
    by_cases ha : a.1 = sid
    · rw [List.find?_cons_of_pos _ (by simp [ha])] at hl
      cases hl
      simp only [List.map_cons, if_pos ha]
      rw [List.find?_cons_of_pos _ (by simp [ha])]
    · rw [List.find?_cons_of_neg _ (by simp [ha])] at hl
      simp only [List.map_cons, if_neg ha]
      rw [List.find?_cons_of_neg _ (by simp [ha])]
      exact ih l hl

theorem logsLookup_append_self (store : SessionStore) (sid : String) (m : SessionMessage) :
    logsLookup (appendSessionMessage store sid m) sid =
      some ((logsLookup store sid).getD [] ++ [m]) := by
  unfold appendSessionMessage
  cases hf : logsLookup store sid with
  | some l =>
    simp only [hf]
    unfold logsLookup at hf ⊢
    obtain ⟨p, hp, hp2⟩ := Option.map_eq_some'.mp hf
    rw [find_logs_update sid m store.logs p hp]
    simp [hp2]
  | none =>
    simp only [hf]
    unfold logsLookup at hf ⊢
    have hfind : store.logs.find? (fun x => x.1 = sid) = none := by
      cases h : store.logs.find? (fun x => x.1 = sid) with
      | none => rfl
      | some p => rw [h] at hf; simp at hf
    simp only []
    rw [find_append_left_none _ store.logs [(sid, [m])] hfind]
    simp

theorem interruptStep_logs (sid now : String) (ls : LoopState) (s : String) :
    logsLookup (interruptSessionStep sid now ls).store s = logsLookup ls.store s := by
  unfold interruptSessionStep
  apply logsLookup_update

theorem interruptStep_status (sid now : String) (ls : LoopState) :
    getSession (interruptSessionStep sid now ls).store sid =
      (getSession ls.store sid).map (fun e =>
        { e with status := .interrupted, failReason := some "interrupted",
                 updateTime := now }) := by
  unfold interruptSessionStep
  exact getSession_update _ _ _ (fun e => rfl)

/-- C4: once `interruptSession` has removed the session's cancellation handle in
any checkpoint of the running iteration, the iteration emits no further log append
after the interruption event, the persisted log gains exactly the messages appended
before it, and the session's status is set to `interrupted`. -/
theorem interruption_stops_iteration
    (lookup : String → Option ToolHandler) (projectRoot sessionId : String)
    (ls0 : LoopState) (ip : InterruptPoint) (resp : ModelMessage)
    (intrNow now : String) (msgIds : List String)
    (hip : ip ≠ .never)
    (htc : ip = .duringToolExecution → ∃ l, resp.tool_calls = some l ∧ l ≠ [])
    (hint : isInterrupted sessionId ls0 = false)
    (hstat : (getSession ls0.store sessionId).any
      (fun e => e.status = .interrupted ∨ e.status = .failed) = false) :
    (∀ pre post,
      (loopIteration lookup projectRoot sessionId ls0 ip resp intrNow now msgIds).1 =
        pre ++ .interrupted :: post → post = []) ∧
    (∃ pre,
      (loopIteration lookup projectRoot sessionId ls0 ip resp intrNow now msgIds).1 =
        pre ++ [.interrupted] ∧ ∀ e ∈ pre, ∃ m, e = .appended m) ∧
    ((logsLookup
        (loopIteration lookup projectRoot sessionId ls0 ip resp intrNow now msgIds).2.store
        sessionId).getD [] =
      (logsLookup ls0.store sessionId).getD [] ++
        (loopIteration lookup projectRoot sessionId ls0 ip resp intrNow now
          msgIds).1.filterMap evAppended) ∧
    (∀ e,
      getSession
        (loopIteration lookup projectRoot sessionId ls0 ip resp intrNow now msgIds).2.store
        sessionId = some e → e.status = .interrupted) := by
  cases ip with
  | never => exact absurd rfl hip
  | beforeIteration =>
    have hred : loopIteration lookup projectRoot sessionId ls0 .beforeIteration resp
        intrNow now msgIds = ([.interrupted], interruptSessionStep sessionId intrNow ls0) := by
      rw [loopIteration]
      simp
      intro a h
      simp at h
    rw [hred]
    refine ⟨?_, ⟨[], rfl, by simp⟩, ?_, ?_⟩
    · intro pre post h
      have hl := congrArg List.length h
      simp [List.length_append] at hl
      exact List.eq_nil_of_length_eq_zero (by omega)
    · rw [interruptStep_logs]
      simp [evAppended]
    · intro e he
      rw [interruptStep_status] at he
      obtain ⟨e0, _, he2⟩ := Option.map_eq_some'.mp he
      rw [← he2]
  | duringModelCall aborts =>
    have hstat2 : Option.any (fun e => decide (e.status = SessionStatus.interrupted) || decide (e.status = SessionStatus.failed)) (getSession ls0.store sessionId) = false := by
      simpa using hstat
    have hev : (loopIteration lookup projectRoot sessionId ls0 (.duringModelCall aborts) resp intrNow now msgIds).1 = [.interrupted] := by
      rw [loopIteration]
      simp [hint, hstat2]
      cases aborts <;> simp
    have hpost : ∀ pre post, (loopIteration lookup projectRoot sessionId ls0 (.duringModelCall aborts) resp intrNow now msgIds).1 = pre ++ .interrupted :: post → post = [] := by
      intro pre post h
      rw [hev] at h
      have hl := congrArg List.length h
      simp [List.length_append] at hl
      exact List.eq_nil_of_length_eq_zero (by omega)
    cases aborts with
    | false =>
      have hstore : (loopIteration lookup projectRoot sessionId ls0 (.duringModelCall false) resp intrNow now msgIds).2.store = (interruptSessionStep sessionId intrNow ls0).store := by
        rw [loopIteration]
        simp [hint, hstat2]
      refine ⟨hpost, ⟨[], hev, by simp⟩, ?_, ?_⟩
      · rw [hev, hstore, interruptStep_logs]
        simp [evAppended]
      · intro e he
        rw [hstore, interruptStep_status] at he
        obtain ⟨e0, _, he2⟩ := Option.map_eq_some'.mp he
        rw [← he2]
    | true =>
      have hstore : (loopIteration lookup projectRoot sessionId ls0 (.duringModelCall true) resp intrNow now msgIds).2.store = (updateSessionEntry (interruptSessionStep sessionId intrNow ls0).store sessionId (fun e => { e with status := SessionStatus.interrupted, failReason := some "Request was aborted.", updateTime := now })).1 := by
        rw [loopIteration]
        simp [hint, hstat2]
      refine ⟨hpost, ⟨[], hev, by simp⟩, ?_, ?_⟩
      · rw [hev, hstore, logsLookup_update, interruptStep_logs]
        simp [evAppended]
      · intro e he
        rw [hstore, getSession_update (interruptSessionStep sessionId intrNow ls0).store sessionId (fun e => { e with status := SessionStatus.interrupted, failReason := some "Request was aborted.", updateTime := now }) (fun e => rfl)] at he
        obtain ⟨e0, _, he2⟩ := Option.map_eq_some'.mp he
        rw [← he2]
  | duringToolExecution =>
    have hstat2 : Option.any (fun e => decide (e.status = SessionStatus.interrupted) || decide (e.status = SessionStatus.failed)) (getSession ls0.store sessionId) = false := by
      simpa using hstat
    obtain ⟨l, hl, hlne⟩ := htc rfl
    have hemp : l.isEmpty = false := by
      cases l with
      | nil => exact absurd rfl hlne
      | cons a t => rfl
    have hev : (loopIteration lookup projectRoot sessionId ls0 .duringToolExecution resp intrNow now msgIds).1 = [.appended (buildAssistantMessage sessionId (some (resp.content.getD "")) (some l) (msgIds.getD 0 "") now), .interrupted] := by
      rw [loopIteration]
      simp [hint, hstat2, hl, hemp]
      all_goals intro a h
      all_goals simp at h
    have hstore : (loopIteration lookup projectRoot sessionId ls0 .duringToolExecution resp intrNow now msgIds).2.store = (updateSessionEntry (appendSessionMessage ls0.store sessionId (buildAssistantMessage sessionId (some (resp.content.getD "")) (some l) (msgIds.getD 0 "") now)) sessionId (fun e => { e with status := SessionStatus.interrupted, failReason := some "interrupted", updateTime := intrNow })).1 := by
      rw [loopIteration]
      simp [hint, hstat2, hl, hemp, interruptSessionStep]
      all_goals intro a h
      all_goals simp at h
    refine ⟨?_, ⟨[.appended _], hev, ?_⟩, ?_, ?_⟩
    · intro pre post h
      rw [hev] at h
      cases pre with
      | nil => simp at h
      | cons x pre2 =>
        simp only [List.cons_append, List.cons.injEq] at h
        have hl2 := congrArg List.length h.2
        simp [List.length_append] at hl2
        exact List.eq_nil_of_length_eq_zero (by omega)
    · intro e he
      simp at he
      exact ⟨_, he⟩
    · rw [hev, hstore, logsLookup_update, logsLookup_append_self]
      simp [evAppended]
    · intro e he
      rw [hstore, getSession_update (appendSessionMessage ls0.store sessionId (buildAssistantMessage sessionId (some (resp.content.getD "")) (some l) (msgIds.getD 0 "") now)) sessionId (fun e => { e with status := SessionStatus.interrupted, failReason := some "interrupted", updateTime := intrNow }) (fun e => rfl)] at he
      simp only [getSession_append] at he
      obtain ⟨e0, _, he2⟩ := Option.map_eq_some'.mp he
      rw [← he2]

theorem interruption_stops_iteration_witness :
    (∀ pre post,
      (loopIteration (fun _ => none) "/p" "s1"
        ⟨⟨⟨1, [⟨"s1", none, none, none, none, none, .processing, none, none, "t0", "t0"⟩],
            "idx"⟩, [("s1", [])]⟩, ⟨.dir [], []⟩, ["s1"]⟩
        .beforeIteration ⟨none, none, none, none, none⟩ "t1" "t2" []).1 =
        pre ++ .interrupted :: post → post = []) ∧
    (∃ pre,
      (loopIteration (fun _ => none) "/p" "s1"
        ⟨⟨⟨1, [⟨"s1", none, none, none, none, none, .processing, none, none, "t0", "t0"⟩],
            "idx"⟩, [("s1", [])]⟩, ⟨.dir [], []⟩, ["s1"]⟩
        .beforeIteration ⟨none, none, none, none, none⟩ "t1" "t2" []).1 =
        pre ++ [.interrupted] ∧ ∀ e ∈ pre, ∃ m, e = .appended m) ∧
    ((logsLookup
        (loopIteration (fun _ => none) "/p" "s1"
          ⟨⟨⟨1, [⟨"s1", none, none, none, none, none, .processing, none, none, "t0", "t0"⟩],
              "idx"⟩, [("s1", [])]⟩, ⟨.dir [], []⟩, ["s1"]⟩
          .beforeIteration ⟨none, none, none, none, none⟩ "t1" "t2" []).2.store "s1").getD [] =
      (logsLookup
        (⟨⟨⟨1, [⟨"s1", none, none, none, none, none, .processing, none, none, "t0", "t0"⟩],
            "idx"⟩, [("s1", [])]⟩, ⟨.dir [], []⟩, ["s1"]⟩ : LoopState).store "s1").getD [] ++
        (loopIteration (fun _ => none) "/p" "s1"
          ⟨⟨⟨1, [⟨"s1", none, none, none, none, none, .processing, none, none, "t0", "t0"⟩],
              "idx"⟩, [("s1", [])]⟩, ⟨.dir [], []⟩, ["s1"]⟩
          .beforeIteration ⟨none, none, none, none, none⟩ "t1" "t2" []).1.filterMap evAppended) ∧
    (∀ e,
      getSession
        (loopIteration (fun _ => none) "/p" "s1"
          ⟨⟨⟨1, [⟨"s1", none, none, none, none, none, .processing, none, none, "t0", "t0"⟩],
              "idx"⟩, [("s1", [])]⟩, ⟨.dir [], []⟩, ["s1"]⟩
          .beforeIteration ⟨none, none, none, none, none⟩ "t1" "t2" []).2.store "s1" =
        some e → e.status = .interrupted) :=
  interruption_stops_iteration (fun _ => none) "/p" "s1"
    ⟨⟨⟨1, [⟨"s1", none, none, none, none, none, .processing, none, none, "t0", "t0"⟩],
        "idx"⟩, [("s1", [])]⟩, ⟨.dir [], []⟩, ["s1"]⟩
    .beforeIteration ⟨none, none, none, none, none⟩ "t1" "t2" []
    (by decide) (by intro h; exact absurd h (by decide)) (by decide) (by rfl)

theorem retention_core (parse : String → Option Int) (old : List SessionEntry)
    (entry : SessionEntry) (tn : Int)
    (hnow : parse entry.updateTime = some tn)
    (hall : ∀ e ∈ old, ∃ t, parse e.updateTime = some t ∧ t < tn) :
    ((sortEntries parse (old ++ [entry])).take 50).length = min (old.length + 1) 50 ∧
    ((sortEntries parse (old ++ [entry])).take 50).Pairwise
      (fun a b => (parse b.updateTime).getD 0 ≤ (parse a.updateTime).getD 0) ∧
    entry.id ∈ ((sortEntries parse (old ++ [entry])).take 50).map (·.id) ∧
    (∀ e ∈ old, e.id ∉ ((sortEntries parse (old ++ [entry])).take 50).map (·.id) →
      ∀ c ∈ (sortEntries parse (old ++ [entry])).take 50,
        (parse e.updateTime).getD 0 ≤ (parse c.updateTime).getD 0) ∧
    (∀ e ∈ old, e.id ∉ ((sortEntries parse (old ++ [entry])).take 50).map (·.id) →
      e ∈ (sortEntries parse (old ++ [entry])).filter
        (fun x => ¬ (((sortEntries parse (old ++ [entry])).take 50).map (·.id)).contains x.id)) := by
  have hsome : ∀ x ∈ old ++ [entry], ∃ t, parse x.updateTime = some t := by
    intro x hx
    rcases List.mem_append.mp hx with hx | hx
    · obtain ⟨t, ht, _⟩ := hall x hx
      exact ⟨t, ht⟩
    · rw [List.mem_singleton.mp hx]
      exact ⟨tn, hnow⟩
  have hsorteq : sortEntries parse (old ++ [entry]) =
      (old ++ [entry]).mergeSort (fun a b =>
        decide ((parse b.updateTime).getD 0 ≤ (parse a.updateTime).getD 0)) := by
    unfold sortEntries
    have hpt : ∀ a ∈ old ++ [entry], ∀ b ∈ old ++ [entry],
        (fun a b => decide (entryCmp parse a b ≤ 0)) a b =
        (fun a b =>
          decide ((parse b.updateTime).getD 0 ≤ (parse a.updateTime).getD 0)) (id a) (id b) := by
      intro a ha b hb
      obtain ⟨ta, hta⟩ := hsome a ha
      obtain ⟨tb, htb⟩ := hsome b hb
      simp only [entryCmp, hta, htb, id, Option.getD_some]
      exact decide_eq_decide.mpr (by omega)
    have := @List.map_mergeSort SessionEntry SessionEntry
      (fun a b => decide (entryCmp parse a b ≤ 0))
      (fun a b => decide ((parse b.updateTime).getD 0 ≤ (parse a.updateTime).getD 0))
      id (old ++ [entry]) hpt
    simpa using this
  have htrans : ∀ a b c : SessionEntry,
      decide ((parse b.updateTime).getD 0 ≤ (parse a.updateTime).getD 0) = true →
      decide ((parse c.updateTime).getD 0 ≤ (parse b.updateTime).getD 0) = true →
      decide ((parse c.updateTime).getD 0 ≤ (parse a.updateTime).getD 0) = true := by
    intro a b c h1 h2
    simp only [decide_eq_true_eq] at *
    omega
  have htotal : ∀ a b : SessionEntry,
      (decide ((parse b.updateTime).getD 0 ≤ (parse a.updateTime).getD 0) ||
       decide ((parse a.updateTime).getD 0 ≤ (parse b.updateTime).getD 0)) = true := by
    intro a b
    simp only [Bool.or_eq_true, decide_eq_true_eq]
    omega
  have hsorted := @List.sorted_mergeSort SessionEntry
    (fun a b => decide ((parse b.updateTime).getD 0 ≤ (parse a.updateTime).getD 0))
    htrans htotal (old ++ [entry])
  have hperm : List.Perm ((old ++ [entry]).mergeSort (fun a b =>
      decide ((parse b.updateTime).getD 0 ≤ (parse a.updateTime).getD 0))) (old ++ [entry]) :=
    List.mergeSort_perm _ _
  have hpair : (sortEntries parse (old ++ [entry])).Pairwise
      (fun a b => (parse b.updateTime).getD 0 ≤ (parse a.updateTime).getD 0) := by
    rw [hsorteq]
    exact hsorted.imp (fun h => of_decide_eq_true h)
  have hlen : (sortEntries parse (old ++ [entry])).length = old.length + 1 := by
    rw [hsorteq, List.length_mergeSort]
    simp
  have hmemiff : ∀ x, x ∈ sortEntries parse (old ++ [entry]) ↔ x ∈ old ++ [entry] := by
    intro x
    rw [hsorteq]
    exact hperm.mem_iff
  have hsplit := List.take_append_drop 50 (sortEntries parse (old ++ [entry]))
  have hcross : ∀ c ∈ (sortEntries parse (old ++ [entry])).take 50,
      ∀ x ∈ (sortEntries parse (old ++ [entry])).drop 50,
      (parse x.updateTime).getD 0 ≤ (parse c.updateTime).getD 0 := by
    have := hpair
    rw [← hsplit] at this
    exact (List.pairwise_append.mp this).2.2
  have hkept_entry : entry ∈ (sortEntries parse (old ++ [entry])).take 50 := by
    have hmem : entry ∈ sortEntries parse (old ++ [entry]) := by
      rw [hmemiff]
      simp
    rcases List.mem_append.mp (by rw [hsplit]; exact hmem :
        entry ∈ (sortEntries parse (old ++ [entry])).take 50 ++
          (sortEntries parse (old ++ [entry])).drop 50) with h | h
    · exact h
    · have hk0 : (sortEntries parse (old ++ [entry])).take 50 ≠ [] := by
        intro hnil
        have h2 := congrArg List.length hnil
        rw [List.length_take, hlen] at h2
        rcases Nat.min_eq_zero_iff.mp h2 with h3 | h3 <;> omega
      obtain ⟨c, hc⟩ := List.exists_mem_of_ne_nil _ hk0
      have hle := hcross c hc entry h
      have hcmem : c ∈ old ++ [entry] := by
        rw [← hmemiff]
        exact List.mem_of_mem_take hc
      rcases List.mem_append.mp hcmem with hcold | hcent
      · obtain ⟨tc, htc, hlt⟩ := hall c hcold
        rw [hnow, htc] at hle
        simp at hle
        omega
      · rw [List.mem_singleton.mp hcent] at hc
        exact hc
  refine ⟨?_, ?_, ?_, ?_, ?_⟩
  · rw [List.length_take, hlen, Nat.min_comm]
  · exact List.Pairwise.sublist (List.take_sublist _ _) hpair
  · exact List.mem_map_of_mem (fun x => x.id) hkept_entry
  · intro e he hid c hc
    have hmem : e ∈ sortEntries parse (old ++ [entry]) := by
      rw [hmemiff]
      exact List.mem_append_left _ he
    rcases List.mem_append.mp (by rw [hsplit]; exact hmem :
        e ∈ (sortEntries parse (old ++ [entry])).take 50 ++
          (sortEntries parse (old ++ [entry])).drop 50) with h | h
    · exact absurd (List.mem_map_of_mem (fun x => x.id) h) hid
    · exact hcross c hc e h
  · intro e he hid
    refine List.mem_filter.mpr ⟨(hmemiff e).mpr (List.mem_append_left _ he), ?_⟩
    simpa using hid

theorem appendSessionMessage_index (store : SessionStore) (sid : String) (m : SessionMessage) :
    (appendSessionMessage store sid m).index = store.index := by
  unfold appendSessionMessage
  split <;> rfl

theorem find_map_other (sid s : String) (m : SessionMessage) (hne : s ≠ sid) :
    ∀ logs : List (String × List SessionMessage),
      (logs.map fun x => if x.1 = sid then (x.1, x.2 ++ [m]) else x).find?
        (fun x => x.1 = s) = logs.find? (fun x => x.1 = s) := by
  intro logs
  induction logs with
  | nil => rfl
  | cons a t ih =>
    simp only [List.map_cons]
    by_cases ha : a.1 = sid
    · rw [if_pos ha]
      have has : ¬ (a.1 = s) := by
        rw [ha]
        exact fun h => hne h.symm
      rw [List.find?_cons_of_neg _ (by simpa using has),
        List.find?_cons_of_neg _ (by simpa using has)]
      exact ih
    · rw [if_neg ha]
      by_cases has : a.1 = s
      · rw [List.find?_cons_of_pos _ (by simpa using has),
          List.find?_cons_of_pos _ (by simpa using has)]
      · rw [List.find?_cons_of_neg _ (by simpa using has),
          List.find?_cons_of_neg _ (by simpa using has)]
        exact ih

theorem find_append_other (sid s : String) (v : List SessionMessage) (hne : s ≠ sid) :
    ∀ logs : List (String × List SessionMessage),
      (logs ++ [(sid, v)]).find? (fun x => x.1 = s) = logs.find? (fun x => x.1 = s) := by
  intro logs
  induction logs with
  | nil =>
    rw [List.nil_append, List.find?_cons_of_neg _ (by simpa using fun h => hne h.symm)]
  | cons a t ih =>
    by_cases has : a.1 = s
    · rw [List.cons_append, List.find?_cons_of_pos _ (by simpa using has),
        List.find?_cons_of_pos _ (by simpa using has)]
    · rw [List.cons_append, List.find?_cons_of_neg _ (by simpa using has),
        List.find?_cons_of_neg _ (by simpa using has)]
      exact ih

theorem logsLookup_append_other (store : SessionStore) (sid s : String) (m : SessionMessage)
    (hne : s ≠ sid) : logsLookup (appendSessionMessage store sid m) s = logsLookup store s := by
  unfold appendSessionMessage
  cases hf : logsLookup store sid with
  | some l =>
    simp only [hf]
    unfold logsLookup
    rw [find_map_other sid s m hne]
  | none =>
    simp only [hf]
    unfold logsLookup
    rw [find_append_other sid s [m] hne]

theorem logsLookup_remove_mem (store : SessionStore) (ids : List String) (s : String)
    (h : s ∈ ids) : logsLookup (removeSessionMessages store ids) s = none := by
  unfold removeSessionMessages logsLookup
  have hfind : ∀ logs : List (String × List SessionMessage),
      (logs.filter fun l => ¬ ids.contains l.1).find? (fun x => x.1 = s) = none := by
    intro logs
    induction logs with
    | nil => rfl
    | cons a t ih =>
      cases hc : ids.contains a.1 with
      | true =>
        rw [List.filter_cons]
        simp only [hc]
        simpa using ih
      | false =>
        rw [List.filter_cons]
        simp only [hc]
        have has : ¬ (a.1 = s) := by
          intro heq
          rw [heq] at hc
          simp at hc
          exact hc h
        rw [if_pos (by decide)]
        rw [List.find?_cons_of_neg _ (by simpa using has)]
        exact ih
  rw [hfind]
  rfl

/-- C5: session-index retention in `createSession`. When every existing entry's
update time parses to a moment strictly before the new session's, the saved index
after creation holds min(n+1, 50) entries sorted descending by parsed update time,
the new session is among them, every session dropped from the index is no newer
than every kept one, and the message log of every dropped session is deleted. The
witness includes the 60-creation instance: 50 entries remain (s60 down to s11) and
the logs of s1 through s10 are gone. -/
theorem session_retention_bound
    (env : SessionEnv) (store : SessionStore) (p : UserPromptContent)
    (sessionId now : String) (msgIds : List String) (tn : Int)
    (hnow : env.parseTime now = some tn)
    (hall : ∀ e ∈ store.index.entries, ∃ t, env.parseTime e.updateTime = some t ∧ t < tn) :
    (createSessionPersist env store p sessionId now msgIds).index.entries.length =
      min (store.index.entries.length + 1) 50 ∧
    (createSessionPersist env store p sessionId now msgIds).index.entries.Pairwise
      (fun a b =>
        (env.parseTime b.updateTime).getD 0 ≤ (env.parseTime a.updateTime).getD 0) ∧
    sessionId ∈
      (createSessionPersist env store p sessionId now msgIds).index.entries.map (·.id) ∧
    (∀ e ∈ store.index.entries,
      e.id ∉ (createSessionPersist env store p sessionId now msgIds).index.entries.map (·.id) →
      ∀ c ∈ (createSessionPersist env store p sessionId now msgIds).index.entries,
        (env.parseTime e.updateTime).getD 0 ≤ (env.parseTime c.updateTime).getD 0) ∧
    (∀ s, (s ∈ store.index.entries.map (·.id) ∨ s = sessionId) →
      s ∉ (createSessionPersist env store p sessionId now msgIds).index.entries.map (·.id) →
      logsLookup (createSessionPersist env store p sessionId now msgIds) s = none) := by
  have hfoldidx : ∀ (l : List (Nat × SkillInfo)) (st : SessionStore),
      (l.foldl (fun acc q => appendSessionMessage acc sessionId
        (buildSystemMessage sessionId (skillPromptText q.2 (env.readSkillFile q.2.path))
          (msgIds.getD (q.1 + 1) "") now)) st).index = st.index := by
    intro l
    induction l with
    | nil => intro st; rfl
    | cons a t ih =>
      intro st
      rw [List.foldl_cons, ih, appendSessionMessage_index]
  have hidx : (createSessionPersist env store p sessionId now msgIds).index.entries =
      (sortEntries env.parseTime (store.index.entries ++ [{ id := sessionId, summary := some (match (applySlashSkill env.availableSkills p).text with | some t => if t ≠ "" then jsSliceTo t 100 else "[Image Prompt]" | none => "[Image Prompt]"), assistantReply := none, assistantThinking := none, assistantRefusal := none, toolCalls := none, status := .pending, failReason := none, usage := none, createTime := now, updateTime := now }])).take 50 := by
    simp only [createSessionPersist]
    rw [appendSessionMessage_index, hfoldidx, appendSessionMessage_index]
    rfl
  have hcore := retention_core env.parseTime store.index.entries
    ({ id := sessionId, summary := some (match (applySlashSkill env.availableSkills p).text with | some t => if t ≠ "" then jsSliceTo t 100 else "[Image Prompt]" | none => "[Image Prompt]"), assistantReply := none, assistantThinking := none, assistantRefusal := none, toolCalls := none, status := .pending, failReason := none, usage := none, createTime := now, updateTime := now }) tn hnow hall
  refine ⟨?_, ?_, ?_, ?_, ?_⟩
  · rw [hidx]
    exact hcore.1
  · rw [hidx]
    exact hcore.2.1
  · rw [hidx]
    exact hcore.2.2.1
  · intro e he hid c hc
    rw [hidx] at hid hc
    exact hcore.2.2.2.1 e he hid c hc
  · intro s hs hnotin
    have hne : s ≠ sessionId := by
      intro heq
      rw [heq] at hnotin
      rw [hidx] at hnotin
      exact hnotin hcore.2.2.1
    rcases hs with hs | hs
    case inr => exact absurd hs hne
    obtain ⟨e, he, heid⟩ := List.mem_map.mp hs
    have hdropped := hcore.2.2.2.2 e he (by rw [heid, ← hidx]; exact hnotin)
    have hsm : s ∈ ((sortEntries env.parseTime (store.index.entries ++ [{ id := sessionId, summary := some (match (applySlashSkill env.availableSkills p).text with | some t => if t ≠ "" then jsSliceTo t 100 else "[Image Prompt]" | none => "[Image Prompt]"), assistantReply := none, assistantThinking := none, assistantRefusal := none, toolCalls := none, status := .pending, failReason := none, usage := none, createTime := now, updateTime := now }])).filter
        (fun x => ¬ (((sortEntries env.parseTime (store.index.entries ++
          [{ id := sessionId, summary := some (match (applySlashSkill env.availableSkills p).text with | some t => if t ≠ "" then jsSliceTo t 100 else "[Image Prompt]" | none => "[Image Prompt]"), assistantReply := none, assistantThinking := none, assistantRefusal := none, toolCalls := none, status := .pending, failReason := none, usage := none, createTime := now, updateTime := now }])).take 50).map (·.id)).contains x.id)).map (·.id) := by
      rw [← heid]
      exact List.mem_map_of_mem (fun x => x.id) hdropped
    have hfoldlogs : ∀ (l : List (Nat × SkillInfo)) (st : SessionStore),
        logsLookup (l.foldl (fun acc q => appendSessionMessage acc sessionId
          (buildSystemMessage sessionId (skillPromptText q.2 (env.readSkillFile q.2.path))
            (msgIds.getD (q.1 + 1) "") now)) st) s = logsLookup st s := by
      intro l
      induction l with
      | nil => intro st; rfl
      | cons a t ih =>
        intro st
        rw [List.foldl_cons, ih, logsLookup_append_other _ _ _ _ hne]
    simp only [createSessionPersist]
    rw [logsLookup_append_other _ _ _ _ hne, hfoldlogs, logsLookup_append_other _ _ _ _ hne]
    exact logsLookup_remove_mem _ _ _ hsm

set_option maxRecDepth 100000 in
set_option maxHeartbeats 4000000 in
unseal List.mergeSort List.merge jsSplitList in
theorem session_retention_bound_witness :
    ((createSessionPersist ⟨fun s => some (digitsToNat s.toList), [], fun _ => "", "sys", "/p"⟩
        ⟨⟨1, [⟨"a", none, none, none, none, none, .completed, none, none, "1", "1"⟩], "/p"⟩, []⟩
        ⟨some "hi", none, none⟩ "b" "2" []).index.entries.length = min (1 + 1) 50 ∧
      ((createSessionPersist ⟨fun s => some (digitsToNat s.toList), [], fun _ => "", "sys", "/p"⟩
        ⟨⟨1, [⟨"a", none, none, none, none, none, .completed, none, none, "1", "1"⟩], "/p"⟩, []⟩
        ⟨some "hi", none, none⟩ "b" "2" []).index.entries.Pairwise
        (fun a b => ((fun s => (some (digitsToNat s.toList) : Option Int)) b.updateTime).getD 0 ≤
          ((fun s => (some (digitsToNat s.toList) : Option Int)) a.updateTime).getD 0)) ∧
      "b" ∈ (createSessionPersist ⟨fun s => some (digitsToNat s.toList), [], fun _ => "", "sys", "/p"⟩
        ⟨⟨1, [⟨"a", none, none, none, none, none, .completed, none, none, "1", "1"⟩], "/p"⟩, []⟩
        ⟨some "hi", none, none⟩ "b" "2" []).index.entries.map (·.id) ∧
      (∀ e ∈ [(⟨"a", none, none, none, none, none, .completed, none, none, "1", "1"⟩ : SessionEntry)],
        e.id ∉ (createSessionPersist ⟨fun s => some (digitsToNat s.toList), [], fun _ => "", "sys", "/p"⟩
          ⟨⟨1, [⟨"a", none, none, none, none, none, .completed, none, none, "1", "1"⟩], "/p"⟩, []⟩
          ⟨some "hi", none, none⟩ "b" "2" []).index.entries.map (·.id) →
        ∀ c ∈ (createSessionPersist ⟨fun s => some (digitsToNat s.toList), [], fun _ => "", "sys", "/p"⟩
          ⟨⟨1, [⟨"a", none, none, none, none, none, .completed, none, none, "1", "1"⟩], "/p"⟩, []⟩
          ⟨some "hi", none, none⟩ "b" "2" []).index.entries,
          ((fun s => (some (digitsToNat s.toList) : Option Int)) e.updateTime).getD 0 ≤
            ((fun s => (some (digitsToNat s.toList) : Option Int)) c.updateTime).getD 0) ∧
      (∀ s, (s ∈ [(⟨"a", none, none, none, none, none, .completed, none, none, "1", "1"⟩ : SessionEntry)].map (·.id) ∨ s = "b") →
        s ∉ (createSessionPersist ⟨fun s => some (digitsToNat s.toList), [], fun _ => "", "sys", "/p"⟩
          ⟨⟨1, [⟨"a", none, none, none, none, none, .completed, none, none, "1", "1"⟩], "/p"⟩, []⟩
          ⟨some "hi", none, none⟩ "b" "2" []).index.entries.map (·.id) →
        logsLookup (createSessionPersist ⟨fun s => some (digitsToNat s.toList), [], fun _ => "", "sys", "/p"⟩
          ⟨⟨1, [⟨"a", none, none, none, none, none, .completed, none, none, "1", "1"⟩], "/p"⟩, []⟩
          ⟨some "hi", none, none⟩ "b" "2" []) s = none)) ∧
    ((List.range 60).foldl (fun st i =>
        createSessionPersist ⟨fun s => some (digitsToNat s.toList), [], fun _ => "", "sys", "/p"⟩
          st ⟨some "hi", none, none⟩ ("s" ++ toString (i + 1)) (toString (i + 1)) [])
        ⟨⟨1, [], "/p"⟩, []⟩).index.entries.length = 50 ∧
    ((List.range 60).foldl (fun st i =>
        createSessionPersist ⟨fun s => some (digitsToNat s.toList), [], fun _ => "", "sys", "/p"⟩
          st ⟨some "hi", none, none⟩ ("s" ++ toString (i + 1)) (toString (i + 1)) [])
        ⟨⟨1, [], "/p"⟩, []⟩).index.entries.map (·.id) =
      (List.range 50).map (fun i => "s" ++ toString (60 - i)) ∧
    (List.range 10).all (fun i =>
      (logsLookup ((List.range 60).foldl (fun st i =>
        createSessionPersist ⟨fun s => some (digitsToNat s.toList), [], fun _ => "", "sys", "/p"⟩
          st ⟨some "hi", none, none⟩ ("s" ++ toString (i + 1)) (toString (i + 1)) [])
        ⟨⟨1, [], "/p"⟩, []⟩) ("s" ++ toString (i + 1))).isNone) = true :=
  ⟨session_retention_bound
      ⟨fun s => some (digitsToNat s.toList), [], fun _ => "", "sys", "/p"⟩
      ⟨⟨1, [⟨"a", none, none, none, none, none, .completed, none, none, "1", "1"⟩], "/p"⟩, []⟩
      ⟨some "hi", none, none⟩ "b" "2" [] 2 rfl
      (by intro e he
          simp only [List.mem_singleton] at he
          subst he
          exact ⟨1, rfl, by decide⟩),
    by decide, by decide, by decide⟩

theorem skipWs_cons_ws (c : Char) (l : List Char) (h : isJsonWs c = true) :
    skipWs (c :: l) = skipWs l := by
  simp [skipWs, List.dropWhile_cons, h]

theorem skipWs_cons_not_ws (c : Char) (l : List Char) (h : isJsonWs c = false) :
    skipWs (c :: l) = c :: l := by
  simp [skipWs, List.dropWhile_cons, h]

theorem skipWs_idem (l : List Char) : skipWs (skipWs l) = skipWs l := by
  induction l with
  | nil => rfl
  | cons c t ih =>
    cases h : isJsonWs c with
    | true => rw [skipWs_cons_ws c t h, ih]
    | false => rw [skipWs_cons_not_ws c t h, skipWs_cons_not_ws c t h]

theorem skipWs_indent (n : Nat) (l : List Char) :
    skipWs (indentChars n ++ l) = skipWs l := by
  induction n with
  | zero => rfl
  | succ m ih =>
    rw [indentChars, List.replicate_succ, List.cons_append,
      skipWs_cons_ws _ _ (by decide)]
    exact ih

theorem hexVal_hexDigit (n : Nat) : hexVal (hexDigit n) = some (n % 16) := by
  have h16 : ∀ m, m < 16 → hexVal (hexDigit m) = some m := by decide
  have hmm : n % 16 % 16 = n % 16 := by omega
  have hd : hexDigit n = hexDigit (n % 16) := by
    simp [hexDigit, hmm]
  rw [hd, h16 (n % 16) (Nat.mod_lt _ (by omega))]

theorem parseJsonStringBody_escape (cs : List Char) :
    ∀ rest, parseJsonStringBody (cs.flatMap escapeJsonChar ++ '"' :: rest) =
      some (cs, rest) := by
  induction cs with
  | nil =>
    intro rest
    rfl
  | cons c t ih =>
    intro rest
    rw [List.flatMap_cons, List.append_assoc]
    by_cases h1 : c = '"'
    · subst h1
      rw [show escapeJsonChar '"' = ['\\', '"'] from by decide]
      simp [parseJsonStringBody, unescapeChar, ih rest]
    · by_cases h2 : c = '\\'
      · subst h2
        rw [show escapeJsonChar '\\' = ['\\', '\\'] from by decide]
        simp [parseJsonStringBody, unescapeChar, ih rest]
      · by_cases h3 : c = '\n'
        · subst h3
          rw [show escapeJsonChar '\n' = ['\\', 'n'] from by decide]
          simp [parseJsonStringBody, unescapeChar, ih rest]
        · by_cases h4 : c = '\r'
          · subst h4
            rw [show escapeJsonChar '\r' = ['\\', 'r'] from by decide]
            simp [parseJsonStringBody, unescapeChar, ih rest]
          · by_cases h5 : c = '\t'
            · subst h5
              rw [show escapeJsonChar '\t' = ['\\', 't'] from by decide]
              simp [parseJsonStringBody, unescapeChar, ih rest]
            · by_cases h6 : c = '\x08'
              · subst h6
                rw [show escapeJsonChar '\x08' = ['\\', 'b'] from by decide]
                simp [parseJsonStringBody, unescapeChar, ih rest]
              · by_cases h7 : c = '\x0c'
                · subst h7
                  rw [show escapeJsonChar '\x0c' = ['\\', 'f'] from by decide]
                  simp [parseJsonStringBody, unescapeChar, ih rest]
                · by_cases h8 : c.toNat < 32
                  · rw [show escapeJsonChar c =
                        ['\\', 'u', '0', '0', hexDigit (c.toNat / 16), hexDigit c.toNat]
                      from by rw [escapeJsonChar, if_neg h1, if_neg h2, if_neg h3,
                        if_neg h4, if_neg h5, if_neg h6, if_neg h7, if_pos h8]]
                    have harith : c.toNat / 16 % 16 * 16 + c.toNat % 16 = c.toNat := by
                      omega
                    simp [parseJsonStringBody, hexVal_hexDigit,
                      show hexVal '0' = some 0 from rfl, ih rest, harith, Char.ofNat_toNat]
                  · rw [show escapeJsonChar c = [c] from by
                      rw [escapeJsonChar, if_neg h1, if_neg h2, if_neg h3, if_neg h4,
                        if_neg h5, if_neg h6, if_neg h7, if_neg h8]]
                    rw [List.singleton_append, parseJsonStringBody.eq_def]
                    split
                    · simp_all
                    · simp_all
                    · simp_all
                    · simp_all
                    · rename_i heq
                      injection heq with hch htl
                      subst hch
                      subst htl
                      rw [if_neg h8, ih rest]
                      rfl

theorem takeWhile_digits_append (x y : List Char)
    (hy : ∀ c, y.head? = some c → c.isDigit = false) :
    (x ++ y).takeWhile Char.isDigit = x.takeWhile Char.isDigit := by
  induction x with
  | nil =>
    cases y with
    | nil => rfl
    | cons c t =>
      have hc := hy c rfl
      simp [List.takeWhile_cons, hc]
  | cons c t ih =>
    rw [List.cons_append, List.takeWhile_cons, List.takeWhile_cons]
    cases hd : c.isDigit with
    | true => rw [ih]
    | false => rfl

theorem dropWhile_digits_append (x y : List Char)
    (hy : ∀ c, y.head? = some c → c.isDigit = false) :
    (x ++ y).dropWhile Char.isDigit = x.dropWhile Char.isDigit ++ y := by
  induction x with
  | nil =>
    cases y with
    | nil => rfl
    | cons c t =>
      have hc := hy c rfl
      simp [List.dropWhile_cons, hc]
  | cons c t ih =>
    rw [List.cons_append, List.dropWhile_cons, List.dropWhile_cons]
    cases hd : c.isDigit with
    | true => simp only [hd, if_true, ih]
    | false => simp only [hd, Bool.false_eq_true, if_false, List.cons_append]

theorem takeDigits_append (x y : List Char)
    (hy : ∀ c, y.head? = some c → c.isDigit = false) :
    takeDigits (x ++ y) = ((takeDigits x).1, (takeDigits x).2 ++ y) := by
  simp only [takeDigits, takeWhile_digits_append x y hy, dropWhile_digits_append x y hy]

theorem numSign_append (l rest : List Char) (hl : l ≠ []) :
    numSign (l ++ rest) = ((numSign l).1, (numSign l).2 ++ rest) := by
  cases l with
  | nil => exact absurd rfl hl
  | cons c r =>
    rw [List.cons_append, numSign, numSign]
    by_cases hc : c = '-'
    · rw [if_pos hc, if_pos hc]
    · rw [if_neg hc, if_neg hc]
      rfl

theorem numIntD_append (l rest intD l2 : List Char)
    (h : numIntD l = some (intD, l2))
    (hy : ∀ c, rest.head? = some c → c.isDigit = false) :
    numIntD (l ++ rest) = some (intD, l2 ++ rest) := by
  cases l with
  | nil => simp [numIntD] at h
  | cons c r =>
    rw [numIntD] at h
    rw [show (c :: r) ++ rest = c :: (r ++ rest) from rfl, numIntD]
    by_cases hc : c = '0'
    · rw [if_pos hc] at h ⊢
      injection h with h
      injection h with h1 h2
      subst h1
      subst h2
      rfl
    · rw [if_neg hc] at h ⊢
      by_cases hd : c.isDigit
      · rw [if_pos hd] at h ⊢
        injection h with h
        injection h with h1 h2
        subst h1
        subst h2
        rw [takeDigits_append r rest hy]
      · rw [if_neg hd] at h
        exact absurd h (by simp)

theorem numFrac_append (l rest fracD l3 : List Char)
    (h : numFrac l = some (fracD, l3))
    (hy : ∀ c, rest.head? = some c → c.isDigit = false)
    (hdot : rest.head? ≠ some '.') :
    numFrac (l ++ rest) = some (fracD, l3 ++ rest) := by
  cases l with
  | nil =>
    simp only [numFrac] at h
    injection h with h
    injection h with h1 h2
    subst h1
    subst h2
    rw [List.nil_append]
    cases rest with
    | nil => rfl
    | cons c t =>
      rw [numFrac]
      have hc : ¬ c = '.' := fun he => hdot (by subst he; rfl)
      rw [if_neg hc]
  | cons c r =>
    rw [numFrac] at h
    rw [show (c :: r) ++ rest = c :: (r ++ rest) from rfl, numFrac]
    by_cases hc : c = '.'
    · rw [if_pos hc] at h ⊢
      by_cases hds : (takeDigits r).1 = []
      · rw [if_pos hds] at h
        exact absurd h (by simp)
      · rw [if_neg hds] at h
        rw [takeDigits_append r rest hy]
        rw [if_neg hds]
        injection h with h
        injection h with h1 h2
        subst h1
        subst h2
        rfl
    · rw [if_neg hc] at h ⊢
      injection h with h
      injection h with h1 h2
      subst h1
      subst h2
      rfl

theorem numExpSign_append (l rest : List Char) (hl : l ≠ []) :
    numExpSign (l ++ rest) = ((numExpSign l).1, (numExpSign l).2 ++ rest) := by
  cases l with
  | nil => exact absurd rfl hl
  | cons c r =>
    rw [List.cons_append, numExpSign, numExpSign]
    by_cases hc : c = '-'
    · rw [if_pos hc, if_pos hc]
    · rw [if_neg hc, if_neg hc]
      by_cases hc2 : c = '+'
      · rw [if_pos hc2, if_pos hc2]
      · rw [if_neg hc2, if_neg hc2]
        rfl

theorem numExp_append (l rest : List Char) (e : Int) (l4 : List Char)
    (h : numExp l = some (e, l4))
    (hy : ∀ c, rest.head? = some c → c.isDigit = false)
    (hee : rest.head? ≠ some 'e') (hEE : rest.head? ≠ some 'E') :
    numExp (l ++ rest) = some (e, l4 ++ rest) := by
  cases l with
  | nil =>
    simp only [numExp] at h
    injection h with h
    injection h with h1 h2
    subst h1
    subst h2
    rw [List.nil_append]
    cases rest with
    | nil => rfl
    | cons c t =>
      rw [numExp]
      have hc : ¬ (c = 'e' ∨ c = 'E') := by
        rintro (he | hE)
        · exact hee (by subst he; rfl)
        · exact hEE (by subst hE; rfl)
      rw [if_neg hc]
  | cons c r =>
    rw [numExp] at h
    rw [show (c :: r) ++ rest = c :: (r ++ rest) from rfl, numExp]
    by_cases hc : c = 'e' ∨ c = 'E'
    · rw [if_pos hc] at h ⊢
      by_cases hr : r = []
      · subst hr
        simp only [numExpSign, takeDigits, List.takeWhile_nil, if_pos rfl] at h
        exact absurd h (by simp)
      · rw [numExpSign_append r rest hr, takeDigits_append (numExpSign r).2 rest hy]
        by_cases hds : (takeDigits (numExpSign r).2).1 = []
        · rw [if_pos hds] at h
          exact absurd h (by simp)
        · rw [if_neg hds] at h ⊢
          injection h with h
          injection h with h1 h2
          subst h1
          subst h2
          rfl
    · rw [if_neg hc] at h ⊢
      injection h with h
      injection h with h1 h2
      subst h1
      subst h2
      rfl

theorem numBoundary_facts (rest : List Char) (hb : numBoundary rest = true) :
    (∀ c, rest.head? = some c → c.isDigit = false) ∧ rest.head? ≠ some '.' ∧
      rest.head? ≠ some 'e' ∧ rest.head? ≠ some 'E' := by
  cases rest with
  | nil => exact ⟨fun c hc => by simp at hc, by simp, by simp, by simp⟩
  | cons c t =>
    rw [numBoundary] at hb
    simp only [isNumCont, Bool.not_eq_eq_eq_not, Bool.not_true, Bool.or_eq_false_iff,
      decide_eq_false_iff_not] at hb
    obtain ⟨⟨⟨hd, hdot⟩, he⟩, hE⟩ := hb
    refine ⟨?_, ?_, ?_, ?_⟩
    · intro c2 hc2
      injection hc2 with hc2
      subst hc2
      exact hd
    · intro hx
      injection hx with hx
      exact hdot hx
    · intro hx
      injection hx with hx
      exact he hx
    · intro hx
      injection hx with hx
      exact hE hx

theorem parseJsonNumber_append (l rest : List Char) (cs : List Char) (parts : NumParts)
    (h : parseJsonNumber l = some (cs, parts, []))
    (hb : numBoundary rest = true) :
    parseJsonNumber (l ++ rest) = some (l, parts, rest) := by
  obtain ⟨hy, hdot, hee, hEE⟩ := numBoundary_facts rest hb
  have hl : l ≠ [] := by
    rintro rfl
    simp [parseJsonNumber, numSign, numIntD] at h
  have hpjn : ∀ L : List Char, parseJsonNumber L =
      (numIntD (numSign L).2).bind (fun p1 => (numFrac p1.2).bind (fun p2 =>
        (numExp p2.2).bind (fun p3 => some (L.take (L.length - p3.2.length),
          ⟨(numSign L).1, p1.1, p2.1, p3.1⟩, p3.2)))) := fun L => rfl
  rw [hpjn] at h
  simp only [Option.bind_eq_some] at h
  obtain ⟨⟨intD, l2⟩, h1, h⟩ := h
  obtain ⟨⟨fracD, l3⟩, h2, h⟩ := h
  obtain ⟨⟨expv, l4⟩, h3, h⟩ := h
  injection h with h
  injection h with hcs h
  injection h with hparts hl4
  subst hl4
  rw [hpjn]
  simp only [Option.bind_eq_some]
  refine ⟨(intD, l2 ++ rest), ?_, ⟨(fracD, l3 ++ rest),
    numFrac_append l2 rest fracD l3 h2 hy hdot, ⟨(expv, [] ++ rest),
    numExp_append l3 rest expv [] h3 hy hee hEE, ?_⟩⟩⟩
  · rw [numSign_append l rest hl]
    exact numIntD_append _ rest intD l2 h1 hy
  · rw [List.nil_append, List.length_append, Nat.add_sub_cancel, List.take_left]
    rw [numSign_append l rest hl]
    rw [← hparts]


theorem parseVal_congr (G : Nat) (l l2 : List Char) (h : skipWs l = skipWs l2) :
    parseVal G l = parseVal G l2 := by
  cases G with
  | zero => simp [parseVal]
  | succ g => rw [parseVal, parseVal, h]

theorem parseItems_congr (G : Nat) (l l2 : List Char) (h : skipWs l = skipWs l2) :
    parseItems G l = parseItems G l2 := by
  cases G with
  | zero => simp [parseItems]
  | succ g => rw [parseItems, parseItems, parseVal_congr (g + 1) l l2 h]

theorem parseMembers_congr (G : Nat) (l l2 : List Char)
    (acc : List (String × JsonValue)) (h : skipWs l = skipWs l2) :
    parseMembers G l acc = parseMembers G l2 acc := by
  cases G with
  | zero => simp [parseMembers]
  | succ g => rw [parseMembers, parseMembers, h]

theorem numberLit_head (lit : String) (h : isNumberLit lit = true) :
    ∃ c cs, lit.toList = c :: cs ∧ (c = '-' ∨ c.isDigit = true) := by
  rw [isNumberLit] at h
  cases hpn : parseJsonNumber lit.toList with
  | none => rw [hpn] at h; simp at h
  | some res =>
    have hne : numIntD (numSign lit.toList).2 ≠ none := by
      intro hnone
      rw [show parseJsonNumber lit.toList = (numIntD (numSign lit.toList).2).bind
        (fun p1 => (numFrac p1.2).bind (fun p2 => (numExp p2.2).bind (fun p3 =>
          some (lit.toList.take (lit.toList.length - p3.2.length),
            ⟨(numSign lit.toList).1, p1.1, p2.1, p3.1⟩, p3.2)))) from rfl, hnone] at hpn
      simp at hpn
    cases hl : lit.toList with
    | nil =>
      rw [hl] at hne
      simp [numSign, numIntD] at hne
    | cons c cs =>
      by_cases hc : c = '-'
      · exact ⟨c, cs, rfl, Or.inl hc⟩
      · refine ⟨c, cs, rfl, Or.inr ?_⟩
        rw [hl, numSign, if_neg hc, numIntD] at hne
        by_cases h0 : c = '0'
        · subst h0
          decide
        · by_cases hd : c.isDigit
          · exact hd
          · rw [if_neg h0, if_neg hd] at hne
            exact absurd rfl hne

theorem numHead_not_special (c : Char) (hc : c = '-' ∨ c.isDigit = true) :
    isJsonWs c = false ∧ c ≠ ']' ∧ c ≠ '\x7d' ∧ c ≠ 'n' ∧ c ≠ 't' ∧ c ≠ 'f' ∧
      c ≠ '"' ∧ c ≠ '[' ∧ c ≠ '\x7b' := by
  rcases hc with hc | hc
  · subst hc
    refine ⟨by decide, by decide, by decide, by decide, by decide, by decide,
      by decide, by decide, by decide⟩
  · have hrange : '0' ≤ c ∧ c ≤ '9' := by
      rw [Char.isDigit] at hc
      simpa using hc
    obtain ⟨h1, h2⟩ := hrange
    refine ⟨?_, ?_, ?_, ?_, ?_, ?_, ?_, ?_, ?_⟩
    · rw [isJsonWs]
      simp only [decide_eq_false_iff_not]
      rintro (rfl | rfl | rfl | rfl) <;> (revert h1 h2; decide)
    all_goals (rintro rfl; revert h1 h2; decide)

theorem stringify2_head (i : Nat) (v : JsonValue) (hwf : ValueWF v = true) :
    ∃ c cs, stringify2 i v = c :: cs ∧ isJsonWs c = false ∧ c ≠ ']' ∧ c ≠ '\x7d' := by
  cases v with
  | nul => refine ⟨'n', _, rfl, ?_, ?_, ?_⟩ <;> decide
  | bool b =>
    cases b with
    | true => refine ⟨'t', _, rfl, ?_, ?_, ?_⟩ <;> decide
    | false => refine ⟨'f', _, rfl, ?_, ?_, ?_⟩ <;> decide
  | num lit =>
    rw [ValueWF] at hwf
    obtain ⟨c, cs, hl, hc⟩ := numberLit_head lit hwf
    obtain ⟨hws, hbr, hbc, _⟩ := numHead_not_special c hc
    exact ⟨c, cs, by rw [stringify2, hl], hws, hbr, hbc⟩
  | str s => refine ⟨'"', _, rfl, ?_, ?_, ?_⟩ <;> decide
  | arr items =>
    cases items with
    | nil => refine ⟨'[', _, rfl, ?_, ?_, ?_⟩ <;> decide
    | cons x xs => refine ⟨'[', _, rfl, ?_, ?_, ?_⟩ <;> decide
  | obj ms =>
    cases ms with
    | nil => refine ⟨'\x7b', _, rfl, ?_, ?_, ?_⟩ <;> decide
    | cons m ms2 => refine ⟨'\x7b', _, rfl, ?_, ?_, ?_⟩ <;> decide

theorem parseVal_print_nul (g i : Nat) (rest : List Char) :
    parseVal (g + 1) (stringify2 i .nul ++ rest) = some (.nul, rest) := by
  rw [show stringify2 i .nul ++ rest = 'n' :: 'u' :: 'l' :: 'l' :: rest from rfl]
  rw [parseVal, skipWs_cons_not_ws _ _ (by decide)]
  rfl

theorem parseVal_print_bool (g i : Nat) (rest : List Char) (b : Bool) :
    parseVal (g + 1) (stringify2 i (.bool b) ++ rest) = some (.bool b, rest) := by
  cases b with
  | true =>
    rw [show stringify2 i (.bool true) ++ rest = 't' :: 'r' :: 'u' :: 'e' :: rest from rfl]
    rw [parseVal, skipWs_cons_not_ws _ _ (by decide)]
    rfl
  | false =>
    rw [show stringify2 i (.bool false) ++ rest =
      'f' :: 'a' :: 'l' :: 's' :: 'e' :: rest from rfl]
    rw [parseVal, skipWs_cons_not_ws _ _ (by decide)]
    rfl

theorem parseVal_print_str (g i : Nat) (rest : List Char) (s : String) :
    parseVal (g + 1) (stringify2 i (.str s) ++ rest) = some (.str s, rest) := by
  rw [show stringify2 i (.str s) ++ rest =
    '"' :: (s.toList.flatMap escapeJsonChar ++ '"' :: rest) from by
      simp [stringify2, quoteJsonString, escapeJsonString]]
  rw [parseVal, skipWs_cons_not_ws _ _ (by decide)]
  show (parseJsonStringBody (s.toList.flatMap escapeJsonChar ++ '"' :: rest)).map
    (fun p => (JsonValue.str (String.mk p.1), p.2)) = some (.str s, rest)
  rw [parseJsonStringBody_escape s.toList rest]
  rfl

theorem parseVal_print_num (g i : Nat) (rest : List Char) (lit : String)
    (hlit : isNumberLit lit = true) (hb : numBoundary rest = true) :
    parseVal (g + 1) (stringify2 i (.num lit) ++ rest) = some (.num lit, rest) := by
  obtain ⟨c, cs, hl, hc⟩ := numberLit_head lit hlit
  obtain ⟨hws, _, _, hn, ht, hf, hq, hbr, hbc⟩ := numHead_not_special c hc
  have hx : stringify2 i (.num lit) ++ rest = c :: (cs ++ rest) := by
    rw [stringify2, hl, List.cons_append]
  rw [hx, parseVal, skipWs_cons_not_ws _ _ hws]
  rw [isNumberLit] at hlit
  rcases hpn : parseJsonNumber lit.toList with _ | ⟨cs2, parts, r2⟩
  · rw [hpn] at hlit
    simp at hlit
  · rw [hpn] at hlit
    have hr2 : r2 = [] := by
      simpa using hlit
    subst hr2
    have happ := parseJsonNumber_append lit.toList rest cs2 parts hpn hb
    rw [hl, List.cons_append] at happ
    split
    · rename_i heq
      rw [List.cons.injEq] at heq
      exact absurd heq.1 hn
    · rename_i heq
      rw [List.cons.injEq] at heq
      exact absurd heq.1 ht
    · rename_i heq
      rw [List.cons.injEq] at heq
      exact absurd heq.1 hf
    · rename_i heq
      rw [List.cons.injEq] at heq
      exact absurd heq.1 hq
    · rename_i heq
      rw [List.cons.injEq] at heq
      exact absurd heq.1 hbr
    · rename_i heq
      rw [List.cons.injEq] at heq
      exact absurd heq.1 hbc
    · rw [happ]
      simp [← hl]

theorem stringifyItems_cons (i : Nat) (x : JsonValue) (xs : List JsonValue) :
    stringifyItems i (x :: xs) =
      indentChars (i + 2) ++ stringify2 (i + 2) x ++ itemsTail i xs := by
  cases xs with
  | nil => simp [stringifyItems, itemsTail]
  | cons a t => simp [stringifyItems, itemsTail]

theorem stringifyMembers_cons (i : Nat) (k : String) (v : JsonValue)
    (ms : List (String × JsonValue)) :
    stringifyMembers i ((k, v) :: ms) =
      indentChars (i + 2) ++ quoteJsonString k ++ ':' :: ' ' :: stringify2 (i + 2) v ++
        membersTail i ms := by
  cases ms with
  | nil => simp [stringifyMembers, membersTail]
  | cons a t => simp [stringifyMembers, membersTail]

theorem numBoundary_itemsTail (i : Nat) (xs : List JsonValue) (z : List Char) :
    numBoundary (itemsTail i xs ++ '\n' :: z) = true := by
  cases xs with
  | nil => rfl
  | cons a t => rfl

theorem numBoundary_membersTail (i : Nat) (ms : List (String × JsonValue)) (z : List Char) :
    numBoundary (membersTail i ms ++ '\n' :: z) = true := by
  cases ms with
  | nil => rfl
  | cons a t => rfl

theorem skipWs_items_head (i : Nat) (x : JsonValue) (xs : List JsonValue)
    (r2 : List Char) (c : Char) (cs : List Char)
    (hpr : stringify2 (i + 2) x = c :: cs) (hws : isJsonWs c = false) :
    skipWs (stringifyItems i (x :: xs) ++ r2) =
      c :: (cs ++ (itemsTail i xs ++ r2)) := by
  rw [stringifyItems_cons, hpr]
  simp only [List.append_assoc, List.cons_append, skipWs_indent]
  rw [skipWs_cons_not_ws _ _ hws]

theorem parseVal_print_arrnil (g i : Nat) (rest : List Char) :
    parseVal (g + 1) (stringify2 i (.arr []) ++ rest) = some (.arr [], rest) := by
  rw [show stringify2 i (.arr []) ++ rest = '[' :: (']' :: rest) from rfl]
  rw [parseVal, skipWs_cons_not_ws _ _ (by decide)]
  show (match skipWs (']' :: rest) with
    | ']' :: r2 => some (JsonValue.arr [], r2)
    | r2 => (parseItems g r2).map fun p => (JsonValue.arr p.1, p.2)) = some (.arr [], rest)
  rw [skipWs_cons_not_ws _ _ (by decide)]
  rfl

theorem parseVal_print_objnil (g i : Nat) (rest : List Char) :
    parseVal (g + 1) (stringify2 i (.obj []) ++ rest) = some (.obj [], rest) := by
  rw [show stringify2 i (.obj []) ++ rest = '\x7b' :: ('\x7d' :: rest) from rfl]
  rw [parseVal, skipWs_cons_not_ws _ _ (by decide)]
  show (match skipWs ('\x7d' :: rest) with
    | '\x7d' :: r2 => some (JsonValue.obj [], r2)
    | r2 => (parseMembers g r2 []).map fun p => (JsonValue.obj p.1, p.2)) =
      some (.obj [], rest)
  rw [skipWs_cons_not_ws _ _ (by decide)]
  rfl

theorem parseVal_print_arrcons (g i : Nat) (rest : List Char) (x : JsonValue)
    (xs : List JsonValue) (hwx : ValueWF x = true)
    (hitems : parseItems g (stringifyItems i (x :: xs) ++
      '\n' :: (indentChars i ++ ']' :: rest)) = some (x :: xs, rest)) :
    parseVal (g + 1) (stringify2 i (.arr (x :: xs)) ++ rest) =
      some (.arr (x :: xs), rest) := by
  have hx2 : stringify2 i (.arr (x :: xs)) ++ rest =
      '[' :: '\n' :: (stringifyItems i (x :: xs) ++
        '\n' :: (indentChars i ++ ']' :: rest)) := by
    rw [stringify2]
    simp [List.append_assoc]
  rw [hx2, parseVal, skipWs_cons_not_ws _ _ (by decide)]
  show (match skipWs ('\n' :: (stringifyItems i (x :: xs) ++
        '\n' :: (indentChars i ++ ']' :: rest))) with
    | ']' :: r2 => some (JsonValue.arr [], r2)
    | r2 => (parseItems g r2).map fun p => (JsonValue.arr p.1, p.2)) =
      some (.arr (x :: xs), rest)
  obtain ⟨c, cs, hpr, hws, hnr, hnb⟩ := stringify2_head (i + 2) x hwx
  have hsk : skipWs ('\n' :: (stringifyItems i (x :: xs) ++
      '\n' :: (indentChars i ++ ']' :: rest))) =
      c :: (cs ++ (itemsTail i xs ++ '\n' :: (indentChars i ++ ']' :: rest))) := by
    rw [skipWs_cons_ws _ _ (by decide)]
    exact skipWs_items_head i x xs _ c cs hpr hws
  rw [hsk]
  split
  · rename_i heq
    rw [List.cons.injEq] at heq
    exact absurd heq.1 hnr
  · have hcongr : parseItems g (c :: (cs ++ (itemsTail i xs ++
        '\n' :: (indentChars i ++ ']' :: rest)))) =
        parseItems g (stringifyItems i (x :: xs) ++
          '\n' :: (indentChars i ++ ']' :: rest)) := by
      apply parseItems_congr
      rw [skipWs_cons_not_ws _ _ hws, skipWs_items_head i x xs _ c cs hpr hws]
    rw [hcongr, hitems]
    rfl

theorem skipWs_members_head (i : Nat) (k : String) (v : JsonValue)
    (ms : List (String × JsonValue)) (r2 : List Char) :
    skipWs (stringifyMembers i ((k, v) :: ms) ++ r2) =
      '"' :: ((k.toList.flatMap escapeJsonChar) ++
        ('"' :: (':' :: (' ' :: (stringify2 (i + 2) v ++ (membersTail i ms ++ r2)))))) := by
  rw [stringifyMembers_cons]
  simp only [quoteJsonString, escapeJsonString, List.append_assoc, List.cons_append,
    skipWs_indent]
  rw [skipWs_cons_not_ws _ _ (by decide)]
  simp [List.append_assoc]

theorem parseVal_print_objcons (g i : Nat) (rest : List Char) (k : String) (v : JsonValue)
    (ms : List (String × JsonValue))
    (hmembers : parseMembers g (stringifyMembers i ((k, v) :: ms) ++
      '\n' :: (indentChars i ++ '\x7d' :: rest)) [] = some ((k, v) :: ms, rest)) :
    parseVal (g + 1) (stringify2 i (.obj ((k, v) :: ms)) ++ rest) =
      some (.obj ((k, v) :: ms), rest) := by
  have hx2 : stringify2 i (.obj ((k, v) :: ms)) ++ rest =
      '\x7b' :: '\n' :: (stringifyMembers i ((k, v) :: ms) ++
        '\n' :: (indentChars i ++ '\x7d' :: rest)) := by
    rw [stringify2]
    simp [List.append_assoc]
  rw [hx2, parseVal, skipWs_cons_not_ws _ _ (by decide)]
  show (match skipWs ('\n' :: (stringifyMembers i ((k, v) :: ms) ++
        '\n' :: (indentChars i ++ '\x7d' :: rest))) with
    | '\x7d' :: r2 => some (JsonValue.obj [], r2)
    | r2 => (parseMembers g r2 []).map fun p => (JsonValue.obj p.1, p.2)) =
      some (.obj ((k, v) :: ms), rest)
  rw [skipWs_cons_ws _ _ (by decide), skipWs_members_head]
  show (parseMembers g ('"' :: ((k.toList.flatMap escapeJsonChar) ++
      ('"' :: (':' :: (' ' :: (stringify2 (i + 2) v ++ (membersTail i ms ++
        '\n' :: (indentChars i ++ '\x7d' :: rest)))))))) []).map
      (fun p => (JsonValue.obj p.1, p.2)) = some (.obj ((k, v) :: ms), rest)
  have hcongr : parseMembers g ('"' :: ((k.toList.flatMap escapeJsonChar) ++
      ('"' :: (':' :: (' ' :: (stringify2 (i + 2) v ++ (membersTail i ms ++
        '\n' :: (indentChars i ++ '\x7d' :: rest)))))))) [] =
      parseMembers g (stringifyMembers i ((k, v) :: ms) ++
        '\n' :: (indentChars i ++ '\x7d' :: rest)) [] := by
    apply parseMembers_congr
    rw [skipWs_members_head, skipWs_cons_not_ws _ _ (by decide)]
  rw [hcongr, hmembers]
  rfl

theorem parseItems_print (g i : Nat) (rest : List Char) (x : JsonValue)
    (xs : List JsonValue)
    (hval : parseVal (g + 1) (stringify2 (i + 2) x ++ (itemsTail i xs ++
      '\n' :: (indentChars i ++ ']' :: rest))) =
      some (x, itemsTail i xs ++ '\n' :: (indentChars i ++ ']' :: rest)))
    (hrec : xs ≠ [] → parseItems g (stringifyItems i xs ++
      '\n' :: (indentChars i ++ ']' :: rest)) = some (xs, rest)) :
    parseItems (g + 1) (stringifyItems i (x :: xs) ++
      '\n' :: (indentChars i ++ ']' :: rest)) = some (x :: xs, rest) := by
  rw [parseItems]
  have hc : parseVal (g + 1) (stringifyItems i (x :: xs) ++
      '\n' :: (indentChars i ++ ']' :: rest)) =
      parseVal (g + 1) (stringify2 (i + 2) x ++ (itemsTail i xs ++
        '\n' :: (indentChars i ++ ']' :: rest))) := by
    apply parseVal_congr
    rw [stringifyItems_cons]
    simp only [List.append_assoc, skipWs_indent]
  rw [hc, hval]
  cases xs with
  | nil =>
    show (match skipWs (itemsTail i [] ++ '\n' :: (indentChars i ++ ']' :: rest)) with
      | ',' :: r2 => (parseItems g r2).map fun p => (x :: p.1, p.2)
      | ']' :: r2 => some ([x], r2)
      | _ => none) = some ([x], rest)
    rw [show itemsTail i [] ++ '\n' :: (indentChars i ++ ']' :: rest) =
      '\n' :: (indentChars i ++ ']' :: rest) from rfl]
    rw [skipWs_cons_ws _ _ (by decide), skipWs_indent, skipWs_cons_not_ws _ _ (by decide)]
    rfl
  | cons x2 xs2 =>
    show (match skipWs (itemsTail i (x2 :: xs2) ++ '\n' :: (indentChars i ++ ']' :: rest)) with
      | ',' :: r2 => (parseItems g r2).map fun p => (x :: p.1, p.2)
      | ']' :: r2 => some ([x], r2)
      | _ => none) = some (x :: x2 :: xs2, rest)
    rw [show itemsTail i (x2 :: xs2) ++ '\n' :: (indentChars i ++ ']' :: rest) =
      ',' :: ('\n' :: (stringifyItems i (x2 :: xs2) ++
        '\n' :: (indentChars i ++ ']' :: rest))) from by
        rw [itemsTail]
        simp [List.append_assoc]]
    rw [skipWs_cons_not_ws _ _ (by decide)]
    show ((parseItems g ('\n' :: (stringifyItems i (x2 :: xs2) ++
      '\n' :: (indentChars i ++ ']' :: rest)))).map fun p => (x :: p.1, p.2)) =
      some (x :: x2 :: xs2, rest)
    rw [parseItems_congr g _ _ (skipWs_cons_ws _ _ (by decide)),
      hrec (by simp)]
    rfl

theorem parseMembers_print (g i : Nat) (rest : List Char) (k : String) (v : JsonValue)
    (ms acc : List (String × JsonValue))
    (hacc : acc.any (fun m => m.1 = k) = false)
    (hval : parseVal (g + 1) (stringify2 (i + 2) v ++ (membersTail i ms ++
      '\n' :: (indentChars i ++ '\x7d' :: rest))) =
      some (v, membersTail i ms ++ '\n' :: (indentChars i ++ '\x7d' :: rest)))
    (hrec : ms ≠ [] → parseMembers g (stringifyMembers i ms ++
      '\n' :: (indentChars i ++ '\x7d' :: rest)) (acc ++ [(k, v)]) =
      some ((acc ++ [(k, v)]) ++ ms, rest)) :
    parseMembers (g + 1) (stringifyMembers i ((k, v) :: ms) ++
      '\n' :: (indentChars i ++ '\x7d' :: rest)) acc =
      some (acc ++ ((k, v) :: ms), rest) := by
  rw [parseMembers, skipWs_members_head]
  show ((parseJsonStringBody ((k.toList.flatMap escapeJsonChar) ++
      ('"' :: (':' :: (' ' :: (stringify2 (i + 2) v ++ (membersTail i ms ++
        '\n' :: (indentChars i ++ '\x7d' :: rest)))))))).bind fun p =>
      (match skipWs p.2 with
      | ':' :: r2 =>
        (parseVal (g + 1) r2).bind fun q =>
          (match skipWs q.2 with
          | ',' :: r4 => parseMembers g r4 (insertMember acc (String.mk p.1) q.1)
          | '\x7d' :: r4 => some (insertMember acc (String.mk p.1) q.1, r4)
          | _ => none)
      | _ => none)) = some (acc ++ ((k, v) :: ms), rest)
  rw [show (k.toList.flatMap escapeJsonChar) ++
      ('"' :: (':' :: (' ' :: (stringify2 (i + 2) v ++ (membersTail i ms ++
        '\n' :: (indentChars i ++ '\x7d' :: rest)))))) =
      (k.toList.flatMap escapeJsonChar) ++
      ('"' :: ((':' :: (' ' :: (stringify2 (i + 2) v ++ (membersTail i ms ++
        '\n' :: (indentChars i ++ '\x7d' :: rest))))))) from rfl]
  rw [parseJsonStringBody_escape k.toList]
  simp only [Option.some_bind]
  rw [skipWs_cons_not_ws _ _ (by decide)]
  show ((parseVal (g + 1) (' ' :: (stringify2 (i + 2) v ++ (membersTail i ms ++
      '\n' :: (indentChars i ++ '\x7d' :: rest))))).bind fun q =>
      (match skipWs q.2 with
      | ',' :: r4 => parseMembers g r4 (insertMember acc (String.mk k.toList) q.1)
      | '\x7d' :: r4 => some (insertMember acc (String.mk k.toList) q.1, r4)
      | _ => none)) = some (acc ++ ((k, v) :: ms), rest)
  rw [parseVal_congr (g + 1) _ _ (skipWs_cons_ws _ _ (by decide)), hval]
  simp only [Option.some_bind]
  have hins : insertMember acc (String.mk k.toList) v = acc ++ [(k, v)] := by
    rw [show String.mk k.toList = k from rfl, insertMember, if_neg (by simp [hacc])]
  cases ms with
  | nil =>
    show (match skipWs (membersTail i ([] : List (String × JsonValue)) ++
        '\n' :: (indentChars i ++ '\x7d' :: rest)) with
      | ',' :: r4 => parseMembers g r4 (insertMember acc (String.mk k.toList) v)
      | '\x7d' :: r4 => some (insertMember acc (String.mk k.toList) v, r4)
      | _ => none) = some (acc ++ [(k, v)], rest)
    rw [show membersTail i ([] : List (String × JsonValue)) ++
      '\n' :: (indentChars i ++ '\x7d' :: rest) =
      '\n' :: (indentChars i ++ '\x7d' :: rest) from rfl]
    rw [skipWs_cons_ws _ _ (by decide), skipWs_indent, skipWs_cons_not_ws _ _ (by decide)]
    rw [hins]
    rfl
  | cons m2 ms2 =>
    show (match skipWs (membersTail i (m2 :: ms2) ++
        '\n' :: (indentChars i ++ '\x7d' :: rest)) with
      | ',' :: r4 => parseMembers g r4 (insertMember acc (String.mk k.toList) v)
      | '\x7d' :: r4 => some (insertMember acc (String.mk k.toList) v, r4)
      | _ => none) = some (acc ++ ((k, v) :: m2 :: ms2), rest)
    rw [show membersTail i (m2 :: ms2) ++ '\n' :: (indentChars i ++ '\x7d' :: rest) =
      ',' :: ('\n' :: (stringifyMembers i (m2 :: ms2) ++
        '\n' :: (indentChars i ++ '\x7d' :: rest))) from by
        rw [membersTail]
        simp [List.append_assoc]]
    rw [skipWs_cons_not_ws _ _ (by decide)]
    show parseMembers g ('\n' :: (stringifyMembers i (m2 :: ms2) ++
      '\n' :: (indentChars i ++ '\x7d' :: rest))) (insertMember acc (String.mk k.toList) v) =
      some (acc ++ ((k, v) :: m2 :: ms2), rest)
    rw [hins, parseMembers_congr g _ _ _ (skipWs_cons_ws _ _ (by decide)),
      hrec (by simp)]
    simp

theorem wval_pos : ∀ v : JsonValue, 1 ≤ wval v := by
  intro v
  cases v <;> simp [wval]

theorem witems_pos : ∀ vs : List JsonValue, 1 ≤ witems vs := by
  intro vs
  cases vs with
  | nil => simp [witems]
  | cons x xs =>
    rw [witems]
    have := Nat.le_max_right (wval x) (witems xs + 1)
    omega

theorem wmems_pos : ∀ ms : List (String × JsonValue), 1 ≤ wmems ms := by
  intro ms
  cases ms with
  | nil => simp [wmems]
  | cons m ms2 =>
    rw [wmems]
    have := Nat.le_max_right (wval m.2) (wmems ms2 + 1)
    omega

theorem roundtrip_ind : ∀ n : Nat,
    (∀ v G i rest, wval v ≤ n → ValueWF v = true → wval v ≤ G →
      numBoundary rest = true →
      parseVal G (stringify2 i v ++ rest) = some (v, rest)) ∧
    (∀ x xs G i rest, witems (x :: xs) ≤ n → ItemsWF (x :: xs) = true →
      witems (x :: xs) ≤ G →
      parseItems G (stringifyItems i (x :: xs) ++
        '\n' :: (indentChars i ++ ']' :: rest)) = some (x :: xs, rest)) ∧
    (∀ k v ms acc G i rest, wmems ((k, v) :: ms) ≤ n →
      MembersWF ((k, v) :: ms) = true →
      ((((k, v) :: ms).map (·.1)).Nodup) →
      (∀ k2 ∈ ((k, v) :: ms).map (·.1), acc.any (fun m => m.1 = k2) = false) →
      wmems ((k, v) :: ms) ≤ G →
      parseMembers G (stringifyMembers i ((k, v) :: ms) ++
        '\n' :: (indentChars i ++ '\x7d' :: rest)) acc =
        some (acc ++ ((k, v) :: ms), rest)) := by
  intro n
  induction n with
  | zero =>
    refine ⟨?_, ?_, ?_⟩
    · intro v G i rest hn
      have := wval_pos v
      omega
    · intro x xs G i rest hn
      have := witems_pos (x :: xs)
      omega
    · intro k v ms acc G i rest hn
      have := wmems_pos ((k, v) :: ms)
      omega
  | succ m ih =>
    obtain ⟨ihP, ihQ, ihR⟩ := ih
    have hP : ∀ v G i rest, wval v ≤ m + 1 → ValueWF v = true → wval v ≤ G →
        numBoundary rest = true →
        parseVal G (stringify2 i v ++ rest) = some (v, rest) := by
      intro v G i rest hn hwf hG hb
      obtain ⟨g, rfl⟩ : ∃ g, G = g + 1 := ⟨G - 1, by have := wval_pos v; omega⟩
      cases v with
      | nul => exact parseVal_print_nul g i rest
      | bool b => exact parseVal_print_bool g i rest b
      | str s => exact parseVal_print_str g i rest s
      | num lit =>
        rw [ValueWF] at hwf
        exact parseVal_print_num g i rest lit hwf hb
      | arr items =>
        cases items with
        | nil => exact parseVal_print_arrnil g i rest
        | cons x xs =>
          rw [ValueWF] at hwf
          rw [wval] at hn hG
          have hbounds : witems (x :: xs) ≤ m ∧ witems (x :: xs) ≤ g := by omega
          have hwx : ValueWF x = true := by
            rw [ItemsWF, Bool.and_eq_true] at hwf
            exact hwf.1
          exact parseVal_print_arrcons g i rest x xs hwx
            (ihQ x xs g i rest hbounds.1 hwf hbounds.2)
      | obj ms =>
        cases ms with
        | nil => exact parseVal_print_objnil g i rest
        | cons m1 ms1 =>
          obtain ⟨k, v0⟩ := m1
          rw [ValueWF, Bool.and_eq_true] at hwf
          rw [wval] at hn hG
          have hbounds : wmems ((k, v0) :: ms1) ≤ m ∧ wmems ((k, v0) :: ms1) ≤ g := by
            omega
          have hmem := ihR k v0 ms1 [] g i rest hbounds.1 hwf.2
            (by simpa using hwf.1) (by intro k2 _; rfl) hbounds.2
          exact parseVal_print_objcons g i rest k v0 ms1 (by simpa using hmem)
    refine ⟨hP, ?_, ?_⟩
    · intro x xs G i rest hn hwf hG
      obtain ⟨g, rfl⟩ : ∃ g, G = g + 1 := ⟨G - 1, by have := witems_pos (x :: xs); omega⟩
      rw [witems, max_le_iff] at hn hG
      rw [ItemsWF, Bool.and_eq_true] at hwf
      refine parseItems_print g i rest x xs ?_ ?_
      · exact hP x (g + 1) (i + 2) _ (by omega) hwf.1 (by omega)
          (numBoundary_itemsTail i xs _)
      · intro hne
        cases xs with
        | nil => exact absurd rfl hne
        | cons x2 xs2 =>
          exact ihQ x2 xs2 g i rest (by omega) hwf.2 (by omega)
    · intro k v ms acc G i rest hn hwf hnd hdisj hG
      obtain ⟨g, rfl⟩ : ∃ g, G = g + 1 :=
        ⟨G - 1, by have := wmems_pos ((k, v) :: ms); omega⟩
      rw [wmems, max_le_iff] at hn hG
      rw [MembersWF, Bool.and_eq_true] at hwf
      refine parseMembers_print g i rest k v ms acc ?_ ?_ ?_
      · exact hdisj k (by simp)
      · exact hP v (g + 1) (i + 2) _ (by simpa using hn.1) hwf.1 (by simpa using hG.1)
          (numBoundary_membersTail i ms _)
      · intro hne
        cases ms with
        | nil => exact absurd rfl hne
        | cons m2 ms2 =>
          obtain ⟨k2, v2⟩ := m2
          have hnd2 : (((k2, v2) :: ms2).map (·.1)).Nodup := by
            simp only [List.map_cons, List.nodup_cons] at hnd ⊢
            exact ⟨hnd.2.1, hnd.2.2⟩
          have hdisj2 : ∀ k3 ∈ ((k2, v2) :: ms2).map (·.1),
              (acc ++ [(k, v)]).any (fun m => m.1 = k3) = false := by
            intro k3 hk3
            rw [List.any_append]
            have h1 : acc.any (fun m => m.1 = k3) = false :=
              hdisj k3 (by simp at hk3 ⊢; tauto)
            have h2 : ([(k, v)].any (fun m => m.1 = k3)) = false := by
              simp only [List.any_cons, List.any_nil, Bool.or_false]
              simp only [List.map_cons, List.nodup_cons, List.mem_cons] at hnd
              have hkne : k ≠ k3 := by
                intro heq
                subst heq
                exact hnd.1 (by simpa using hk3)
              simpa using hkne
            rw [h1, h2]
            rfl
          exact ihR k2 v2 ms2 (acc ++ [(k, v)]) g i rest (by omega) hwf.2 hnd2
            hdisj2 (by omega)

theorem wval_le_ind : ∀ n : Nat,
    (∀ v i, wval v ≤ n → wval v ≤ (stringify2 i v).length + 1) ∧
    (∀ vs i, witems vs ≤ n → witems vs ≤ (stringifyItems i vs).length + 1) ∧
    (∀ ms i, wmems ms ≤ n → wmems ms ≤ (stringifyMembers i ms).length + 1) := by
  intro n
  induction n with
  | zero =>
    refine ⟨?_, ?_, ?_⟩
    · intro v i hn
      have := wval_pos v
      omega
    · intro vs i hn
      have := witems_pos vs
      omega
    · intro ms i hn
      have := wmems_pos ms
      omega
  | succ m ih =>
    obtain ⟨ihP, ihQ, ihR⟩ := ih
    have hP : ∀ v i, wval v ≤ m + 1 → wval v ≤ (stringify2 i v).length + 1 := by
      intro v i hn
      cases v with
      | nul => simp [wval]
      | bool b => cases b <;> simp [wval]
      | num lit => simp [wval]
      | str s => simp [wval]
      | arr items =>
        cases items with
        | nil => simp [wval, witems, stringify2]
        | cons x xs =>
          rw [wval] at hn ⊢
          have hq := ihQ (x :: xs) i (by omega)
          rw [show (stringify2 i (.arr (x :: xs))).length =
              (stringifyItems i (x :: xs)).length + i + 4 from by
            rw [stringify2]
            simp [indentChars, List.length_append]
            omega]
          omega
      | obj ms =>
        cases ms with
        | nil => simp [wval, wmems, stringify2]
        | cons m1 ms1 =>
          rw [wval] at hn ⊢
          have hq := ihR (m1 :: ms1) i (by omega)
          rw [show (stringify2 i (.obj (m1 :: ms1))).length =
              (stringifyMembers i (m1 :: ms1)).length + i + 4 from by
            rw [stringify2]
            simp [indentChars, List.length_append]
            omega]
          omega
    refine ⟨hP, ?_, ?_⟩
    · intro vs i hn
      cases vs with
      | nil => simp [witems, stringifyItems]
      | cons x xs =>
        rw [witems, max_le_iff] at hn
        rw [witems, stringifyItems_cons]
        have hx := hP x (i + 2) (by omega)
        have hlen : (indentChars (i + 2) ++ stringify2 (i + 2) x ++
            itemsTail i xs).length =
            (i + 2) + (stringify2 (i + 2) x).length + (itemsTail i xs).length := by
          simp [indentChars, List.length_append]
          omega
        rw [hlen, max_le_iff]
        cases xs with
        | nil =>
          have := witems_pos ([] : List JsonValue)
          simp only [witems] at *
          constructor <;> omega
        | cons x2 xs2 =>
          have hq := ihQ (x2 :: xs2) i (by omega)
          have htl : (itemsTail i (x2 :: xs2)).length =
              (stringifyItems i (x2 :: xs2)).length + 2 := by
            rw [itemsTail]
            simp
          constructor <;> omega
    · intro ms i hn
      cases ms with
      | nil => simp [wmems, stringifyMembers]
      | cons m1 ms1 =>
        obtain ⟨k, v⟩ := m1
        rw [wmems, max_le_iff] at hn
        rw [wmems, stringifyMembers_cons]
        rw [show wval (k, v).2 = wval v from rfl]
        have hx := hP v (i + 2) (by simpa using hn.1)
        have hlen : (indentChars (i + 2) ++ quoteJsonString k ++ ':' :: ' ' ::
            stringify2 (i + 2) v ++ membersTail i ms1).length =
            (i + 2) + (quoteJsonString k).length + 2 + (stringify2 (i + 2) v).length +
              (membersTail i ms1).length := by
          simp [indentChars, List.length_append]
          omega
        rw [hlen, max_le_iff]
        cases ms1 with
        | nil =>
          have := wmems_pos ([] : List (String × JsonValue))
          simp only [wmems] at *
          constructor <;> omega
        | cons m2 ms2 =>
          have hq := ihR (m2 :: ms2) i (by omega)
          have htl : (membersTail i (m2 :: ms2)).length =
              (stringifyMembers i (m2 :: ms2)).length + 2 := by
            rw [membersTail]
            simp
          constructor <;> omega

theorem jsonParse_stringify2 (v : JsonValue) (hwf : ValueWF v = true) :
    jsonParse (jsonStringify2 v) = some v := by
  rw [jsonParse, jsonStringify2]
  have hfuel : wval v ≤ (stringify2 0 v).length + 1 := (wval_le_ind (wval v)).1 v 0 le_rfl
  have hP := (roundtrip_ind (wval v)).1 v ((String.mk (stringify2 0 v)).length + 1) 0 []
    le_rfl hwf (by simpa using hfuel) rfl
  rw [List.append_nil] at hP
  rw [show (String.mk (stringify2 0 v)).toList = stringify2 0 v from rfl, hP]
  rfl

/-- C7 (amended): serializing a tool result and reparsing the content string yields
exactly the payload object that was serialized, with keys in the stable order ok,
name, output, error, metadata; output is omitted when absent, error is omitted when
absent or empty, and metadata is omitted when absent or without keys. The
well-formedness hypothesis asks that number literals in the metadata conform to the
JSON grammar and that object keys are distinct, which holds of every value the
program serializes. -/
theorem tool_result_roundtrip_amended (r : ToolExecutionResult)
    (hwf : ValueWF (resultPayload r) = true) :
    jsonParse (formatToolResult r) = some (resultPayload r) ∧
    ∃ ms, resultPayload r = .obj ms ∧
      ms.map (·.1) = ["ok", "name"] ++
        (match r.output with | some _ => ["output"] | none => []) ++
        (match r.error with
          | some e => if e ≠ "" then ["error"] else []
          | none => []) ++
        (match r.metadata with
          | some m => if m.isEmpty then [] else ["metadata"]
          | none => []) := by
  refine ⟨by rw [formatToolResult]; exact jsonParse_stringify2 _ hwf, ?_⟩
  refine ⟨_, rfl, ?_⟩
  obtain ⟨ok, name, output, error, metadata⟩ := r
  cases output <;> cases error <;> cases metadata <;>
    simp only [resultPayload, List.map_append, List.map_cons, List.map_nil] <;>
    first
      | rfl
      | (split <;> first | rfl | (split <;> rfl))

unseal parseVal parseItems parseMembers in
/-- C7 (counterexample): the round trip does not preserve every field. A present but
empty error string is dropped by the truthiness test in `formatToolResult`, and a
present but empty metadata object is dropped by its key-count test, so reparsing
yields no such field. -/
theorem tool_result_empty_error_counterexample :
    ({ ok := false, name := "x", error := some "" } : ToolExecutionResult).error.isSome =
      true ∧
    (jsonParse (formatToolResult { ok := false, name := "x", error := some "" })).map
      (fun v => jsGet v "error") = some none ∧
    ({ ok := true, name := "y", metadata := some ([] : List (String × JsonValue)) } :
      ToolExecutionResult).metadata.isSome = true ∧
    (jsonParse (formatToolResult { ok := true, name := "y", metadata := some ([] : List (String × JsonValue)) })).map
      (fun v => jsGet v "metadata") = some none := by
  refine ⟨rfl, ?_, rfl, ?_⟩ <;> rfl

theorem tool_result_roundtrip_amended_witness :
    jsonParse (formatToolResult { ok := true, name := "read", output := some "hi", error := some "oops", metadata := some [("mime", .str "text/plain"), ("bytes", .num "2")] }) =
      some (resultPayload { ok := true, name := "read", output := some "hi", error := some "oops", metadata := some [("mime", .str "text/plain"), ("bytes", .num "2")] }) ∧
    ∃ ms, resultPayload { ok := true, name := "read", output := some "hi", error := some "oops", metadata := some [("mime", .str "text/plain"), ("bytes", .num "2")] } = .obj ms ∧
      ms.map (·.1) = ["ok", "name"] ++ ["output"] ++ ["error"] ++ ["metadata"] :=
  tool_result_roundtrip_amended
    { ok := true, name := "read", output := some "hi", error := some "oops", metadata := some [("mime", .str "text/plain"), ("bytes", .num "2")] }
    (by decide)

end DeepCode
